import Mathlib

/-!
# Rubik cube: turn engine, solved-state oracle and orbit camera

A shallow embedding of `src/cube.js` and `src/camera.js`.

Numbers.  JavaScript numbers are embedded as rationals with exact arithmetic
(no rounding, no NaN, no infinities).  `Math.round` is `jsRound`
(nearest integer, ties toward +∞).

Orientations.  A three.js quaternion is embedded as the rotation matrix it
stands for (`Mat3`, entries named `m11 … m33` as in
`Euler.setFromRotationMatrix`); `q` and `-q` are the same orientation.

Trigonometry.  Cosine, sine, arcsine and arctangent have no rational values in
general.  The source only ever uses them in two places:
* `snapCubeletTransform` rounds the Euler angles to multiples of π/2, and the
  rounded value of `asin`/`atan2` is decided by exact comparisons
  (`snapAsin`, `snapAtan2`);
* the pivot of a turn is rotated by the progress angle, and the pivot is only
  read back when the turn is committed, within 1e-4 rad of the target; the
  model evaluates its cosine and sine at the nearest multiple of π/2
  (`pivotMatrix`), and `snap_absorbs_pivot_error` shows that the committed
  pose is the same for every cosine and sine within that tolerance.
-/

namespace Rubik

/-! ## Constants (cube.js 4-17) -/

/-- Number of cubelets per edge: `const GRID = 3`. -/
def GRID : ℕ := 3

/-- Distance between neighbouring cubelet centres: `const SPACING = 1.08`. -/
def SPACING : ℚ := 27 / 25

/-- Extreme grid coordinate: `const HALF = (GRID - 1) / 2`. -/
def HALF : ℚ := ((GRID : ℚ) - 1) / 2

/-- Sticker colour of the +X face: `FACE_COLORS.px`. -/
def FACE_COLORS_px : ℕ := 0xe53935
/-- Sticker colour of the -X face: `FACE_COLORS.nx`. -/
def FACE_COLORS_nx : ℕ := 0xff8f00
/-- Sticker colour of the +Y face: `FACE_COLORS.py`. -/
def FACE_COLORS_py : ℕ := 0xffffff
/-- Sticker colour of the -Y face: `FACE_COLORS.ny`. -/
def FACE_COLORS_ny : ℕ := 0xffeb3b
/-- Sticker colour of the +Z face: `FACE_COLORS.pz`. -/
def FACE_COLORS_pz : ℕ := 0x43a047
/-- Sticker colour of the -Z face: `FACE_COLORS.nz`. -/
def FACE_COLORS_nz : ℕ := 0x1e88e5

/-- Filler colour of faces that are not on the surface: `const INSIDE`. -/
def INSIDE : ℕ := 0x10131a

/-- The double `Math.PI / 2`, exactly (Math.PI is 884279719003555 / 2^48). -/
def HALF_PI : ℚ := 884279719003555 / 562949953421312

/-! ## Numbers, vectors, orientations -/

/-- JavaScript `Math.round`: the nearest integer, a tie goes toward +∞. -/
def jsRound (v : ℚ) : ℤ := ⌊v + 1 / 2⌋

/-- JavaScript `Math.sign` on a finite number. -/
def jsSign (v : ℚ) : ℚ := if 0 < v then 1 else if v < 0 then -1 else 0

/-- Names of the three coordinate axes (`'x'`, `'y'`, `'z'`). -/
inductive Axis where
  | x
  | y
  | z
  deriving DecidableEq, Repr

/-- A `THREE.Vector3`. -/
structure Vec3 where
  x : ℚ
  y : ℚ
  z : ℚ
  deriving DecidableEq

/-- Component access `v[axis]`. -/
def Vec3.get (v : Vec3) : Axis → ℚ
  | Axis.x => v.x
  | Axis.y => v.y
  | Axis.z => v.z

/-- The `Vector3.dot` product. -/
def Vec3.dot (a b : Vec3) : ℚ := a.x * b.x + a.y * b.y + a.z * b.z

/-- Orientation of an object: the rotation matrix of its quaternion, row-major. -/
structure Mat3 where
  m11 : ℚ
  m12 : ℚ
  m13 : ℚ
  m21 : ℚ
  m22 : ℚ
  m23 : ℚ
  m31 : ℚ
  m32 : ℚ
  m33 : ℚ
  deriving DecidableEq

/-- Orientation of a freshly created object (identity quaternion). -/
def Mat3.one : Mat3 := ⟨1, 0, 0, 0, 1, 0, 0, 0, 1⟩

/-- Rotating a vector: `Vector3.applyQuaternion`. -/
def Mat3.apply (m : Mat3) (v : Vec3) : Vec3 :=
  ⟨m.m11 * v.x + m.m12 * v.y + m.m13 * v.z,
   m.m21 * v.x + m.m22 * v.y + m.m23 * v.z,
   m.m31 * v.x + m.m32 * v.y + m.m33 * v.z⟩

/-- Composition of orientations: `a.multiply(b)` (first `b`, then `a`). -/
def Mat3.mul (a b : Mat3) : Mat3 :=
  ⟨a.m11 * b.m11 + a.m12 * b.m21 + a.m13 * b.m31,
   a.m11 * b.m12 + a.m12 * b.m22 + a.m13 * b.m32,
   a.m11 * b.m13 + a.m12 * b.m23 + a.m13 * b.m33,
   a.m21 * b.m11 + a.m22 * b.m21 + a.m23 * b.m31,
   a.m21 * b.m12 + a.m22 * b.m22 + a.m23 * b.m32,
   a.m21 * b.m13 + a.m22 * b.m23 + a.m23 * b.m33,
   a.m31 * b.m11 + a.m32 * b.m21 + a.m33 * b.m31,
   a.m31 * b.m12 + a.m32 * b.m22 + a.m33 * b.m32,
   a.m31 * b.m13 + a.m32 * b.m23 + a.m33 * b.m33⟩

/-- Cosine of `k` quarter turns. -/
def cosQuarter (k : ℤ) : ℚ :=
  if k % 4 = 0 then 1 else if k % 4 = 2 then -1 else 0

/-- Sine of `k` quarter turns. -/
def sinQuarter (k : ℤ) : ℚ :=
  if k % 4 = 1 then 1 else if k % 4 = 3 then -1 else 0

/-- Rotation about a coordinate axis with the given cosine and sine
(`Object3D.rotateX / rotateY / rotateZ`). -/
def rotationAbout (axis : Axis) (c s : ℚ) : Mat3 :=
  match axis with
  | Axis.x => ⟨1, 0, 0, 0, c, -s, 0, s, c⟩
  | Axis.y => ⟨c, 0, s, 0, 1, 0, -s, 0, c⟩
  | Axis.z => ⟨c, -s, 0, s, c, 0, 0, 0, 1⟩

/-- Orientation of the turn pivot after it has been rotated about `axis` by
`angle` radians in total.  The cosine and sine of the angle are taken at the
nearest multiple of π/2: `updateTurn` reads the pivot only when it commits the
turn, and then the angle is within 1e-4 rad of such a multiple.  The snapping
that follows gives the same pose for every cosine and sine within that
tolerance (`snap_absorbs_pivot_error`). -/
def pivotMatrix (axis : Axis) (angle : ℚ) : Mat3 :=
  rotationAbout axis (cosQuarter (jsRound (angle / HALF_PI)))
    (sinQuarter (jsRound (angle / HALF_PI)))

/-! ## Snapping (cube.js 47-58) -/

/-- The value `Math.round(Math.asin(m) / (Math.PI / 2))` for `-1 ≤ m ≤ 1`:
it is 1 from `asin m = π/4` on, that is from `m = √2/2` on, and -1 below
`-√2/2`. -/
def snapAsin (m : ℚ) : ℤ :=
  if 0 < m ∧ 1 ≤ 2 * m * m then 1
  else if m < 0 ∧ 1 < 2 * m * m then -1
  else 0

/-- The value `Math.round(Math.atan2(y, x) / (Math.PI / 2))`: the quadrant
bisectors are the ties, and a tie goes toward +∞. -/
def snapAtan2 (y x : ℚ) : ℤ :=
  if 0 < y ∧ -y < x ∧ x ≤ y then 1
  else if 0 ≤ y ∧ x < 0 ∧ x ≤ -y then 2
  else if y < 0 ∧ y ≤ x ∧ x < -y then -1
  else if y < 0 ∧ x < y then -2
  else 0

/-- JavaScript `clamp(v, -1, 1)` of three.js, used before `Math.asin`. -/
def clampUnit (v : ℚ) : ℚ := max (-1) (min 1 v)

/-- The rounded Euler angles, in quarter turns, of
`new THREE.Euler().setFromQuaternion(q, 'XYZ')` followed by `snap` on each
angle (three.js `Euler.setFromRotationMatrix`, case `'XYZ'`). -/
def snappedEuler (m : Mat3) : ℤ × ℤ × ℤ :=
  let ey := snapAsin (clampUnit m.m13)
  if |m.m13| < 9999999 / 10000000 then
    (snapAtan2 (-m.m23) m.m33, ey, snapAtan2 (-m.m12) m.m11)
  else
    (snapAtan2 m.m32 m.m22, ey, 0)

/-- Orientation of `quaternion.setFromEuler(e)` for Euler angles that are
`kx`, `ky`, `kz` quarter turns, order `'XYZ'` (three.js
`Matrix4.makeRotationFromEuler`). -/
def setFromEuler (kx ky kz : ℤ) : Mat3 :=
  let a := cosQuarter kx
  let b := sinQuarter kx
  let c := cosQuarter ky
  let d := sinQuarter ky
  let e := cosQuarter kz
  let f := sinQuarter kz
  ⟨c * e, -(c * f), d,
   a * f + b * e * d, a * e - b * f * d, -(b * c),
   b * f - a * e * d, b * e + a * f * d, a * c⟩

/-- A cubelet mesh: its identity (`Object3D.id`), pose and the colours of its
six materials in the order +X, -X, +Y, -Y, +Z, -Z. -/
structure Cubelet where
  id : ℕ
  position : Vec3
  quaternion : Mat3
  material : List ℕ
  deriving DecidableEq

/-- Snapping of one position component: `Math.round(v / SPACING) * SPACING`. -/
def snapCoord (v : ℚ) : ℚ := (jsRound (v / SPACING) : ℚ) * SPACING

/-- Orientation part of `snapCubeletTransform`. -/
def snapQuaternion (q : Mat3) : Mat3 :=
  let e := snappedEuler q
  setFromEuler e.1 e.2.1 e.2.2

/-- The function `snapCubeletTransform(mesh)`. -/
def snapCubeletTransform (mesh : Cubelet) : Cubelet :=
  { mesh with
    position := ⟨snapCoord mesh.position.x, snapCoord mesh.position.y, snapCoord mesh.position.z⟩
    quaternion := snapQuaternion mesh.quaternion }

/-! ## Lattice (cube.js 19-45, 60-67, 88-123) -/

/-- The function `gridIndexFromPosition(value)`. -/
def gridIndexFromPosition (value : ℚ) : ℤ := jsRound (value / SPACING)

/-- The function `makeCubeletMaterial(x, y, z)`: the six face colours. -/
def makeCubeletMaterial (x y z : ℚ) : List ℕ :=
  let colorFor := fun (flag : Bool) (color : ℕ) => if flag then color else INSIDE
  [colorFor (decide (x = HALF)) FACE_COLORS_px,
   colorFor (decide (x = -HALF)) FACE_COLORS_nx,
   colorFor (decide (y = HALF)) FACE_COLORS_py,
   colorFor (decide (y = -HALF)) FACE_COLORS_ny,
   colorFor (decide (z = HALF)) FACE_COLORS_pz,
   colorFor (decide (z = -HALF)) FACE_COLORS_nz]

/-- A value passed as `layerIndex`: a finite number, or anything that is not
(`NaN`, `undefined`, a string, ...). -/
inductive JsIndex where
  | num (v : ℚ)
  | malformed
  deriving DecidableEq

/-- Strict equality `idx === layerIndex` with `idx` the result of `Math.round`. -/
def JsIndex.strictEq (idx : ℤ) : JsIndex → Bool
  | JsIndex.num v => decide ((idx : ℚ) = v)
  | JsIndex.malformed => false

/-- The function `selectLayer(cubelets, axis, layerIndex)`. -/
def selectLayer (cubelets : List Cubelet) (axis : Axis) (layerIndex : JsIndex) : List Cubelet :=
  cubelets.filter (fun c => layerIndex.strictEq (gridIndexFromPosition (c.position.get axis)))

/-- The cubelets created by the three nested loops of `buildCube`, in creation
order; the mesh created in round `(xi, yi, zi)` has identity `9 xi + 3 yi + zi`. -/
def buildCube : List Cubelet :=
  (List.range GRID).flatMap fun (xi : ℕ) =>
    (List.range GRID).flatMap fun (yi : ℕ) =>
      (List.range GRID).map fun (zi : ℕ) =>
        let x := (xi : ℚ) - HALF
        let y := (yi : ℚ) - HALF
        let z := (zi : ℚ) - HALF
        { id := 9 * xi + 3 * yi + zi
          position := ⟨x * SPACING, y * SPACING, z * SPACING⟩
          quaternion := Mat3.one
          material := makeCubeletMaterial x y z }

/-! ## Turn engine (cube.js 125-168) -/

/-- The argument of `beginTurn`. -/
structure TurnRequest where
  axis : Axis
  layerIndex : JsIndex
  dir : ℤ
  deriving DecidableEq

/-- The record `activeTurn`.  `selected` holds the identities of the meshes
attached to the pivot, `pivot` the angle the pivot has been rotated by. -/
structure Turn where
  axis : Axis
  dir : ℤ
  pivot : ℚ
  selected : List ℕ
  target : ℚ
  current : ℚ
  speed : ℚ
  deriving DecidableEq

/-- State of `createRubiksCube`: the array `cubelets` (the pose of a mesh is
relative to its parent, the base group or the pivot) and `activeTurn`. -/
structure CubeState where
  cubelets : List Cubelet
  activeTurn : Option Turn
  deriving DecidableEq

/-- State when `createRubiksCube` returns: `buildCube()` has run, no turn. -/
def createRubiksCube : CubeState := ⟨buildCube, none⟩

/-- The function `beginTurn({ axis, layerIndex, dir })`: result and next state.
Attaching a mesh to the fresh pivot (identity pose) keeps its pose. -/
def beginTurn (req : TurnRequest) (s : CubeState) : Bool × CubeState :=
  match s.activeTurn with
  | some _ => (false, s)
  | none =>
    let selected := selectLayer s.cubelets req.axis req.layerIndex
    (true,
     { s with
       activeTurn := some
         { axis := req.axis
           dir := req.dir
           pivot := 0
           selected := selected.map Cubelet.id
           target := (req.dir : ℚ) * HALF_PI
           current := 0
           speed := 10 } })

/-- Effect of `baseGroup.attach(m)` on a mesh that hangs under the pivot: its
pose relative to the base group is the pivot rotation applied to its pose. -/
def attachToBase (axis : Axis) (pivot : ℚ) (m : Cubelet) : Cubelet :=
  { m with
    position := (pivotMatrix axis pivot).apply m.position
    quaternion := (pivotMatrix axis pivot).mul m.quaternion }

/-- The function `updateTurn(dt)`. -/
def updateTurn (dt : ℚ) (s : CubeState) : CubeState :=
  match s.activeTurn with
  | none => s
  | some t =>
    let step := min |t.target - t.current| (t.speed * dt)
    let delta := step * jsSign (t.target - t.current)
    let current := t.current + delta
    let pivot := t.pivot + delta
    if |t.target - current| < 1 / 10000 then
      { cubelets := s.cubelets.map fun m =>
          if m.id ∈ t.selected then snapCubeletTransform (attachToBase t.axis pivot m) else m
        activeTurn := none }
    else
      { s with activeTurn := some { t with current := current, pivot := pivot } }

/-- The function `reset()`. -/
def reset (s : CubeState) : CubeState :=
  match s.activeTurn with
  | some _ => s
  | none => { s with cubelets := buildCube }

/-! ## Solved-state oracle (cube.js 170-220) -/

/-- The array `localNormals`. -/
def localNormals : List Vec3 :=
  [⟨1, 0, 0⟩, ⟨-1, 0, 0⟩, ⟨0, 1, 0⟩, ⟨0, -1, 0⟩, ⟨0, 0, 1⟩, ⟨0, 0, -1⟩]

/-- The test `d > bestDot` of `getStickerColorForDirection`; `none` is `-Infinity`. -/
def exceeds (bestDot : Option ℚ) (d : ℚ) : Bool :=
  match bestDot with
  | none => true
  | some b => decide (b < d)

/-- The loop of `getStickerColorForDirection` over the normals from index `i`
on, with the running `bestIdx` and `bestDot` (`none` is `-Infinity`). -/
def bestFace (q : Mat3) (dirWorld : Vec3) :
    List Vec3 → ℕ → ℕ → Option ℚ → ℕ
  | [], _, bestIdx, _ => bestIdx
  | n :: rest, i, bestIdx, bestDot =>
    let d := (q.apply n).dot dirWorld
    if exceeds bestDot d then
      bestFace q dirWorld rest (i + 1) i (some d)
    else
      bestFace q dirWorld rest (i + 1) bestIdx bestDot

/-- The function `getStickerColorForDirection(cubelet, dirWorld)`; `none` is
the `null` of a missing material. -/
def getStickerColorForDirection (cubelet : Cubelet) (dirWorld : Vec3) : Option ℕ :=
  cubelet.material.get? (bestFace cubelet.quaternion dirWorld localNormals 0 0 none)

/-- An entry of the array `faces` of `isSolved`. -/
structure Face where
  axis : Axis
  idx : ℤ
  dir : Vec3
  deriving DecidableEq

/-- The array `faces` of `isSolved`. -/
def faces : List Face :=
  [⟨Axis.x, 1, ⟨1, 0, 0⟩⟩, ⟨Axis.x, -1, ⟨-1, 0, 0⟩⟩,
   ⟨Axis.y, 1, ⟨0, 1, 0⟩⟩, ⟨Axis.y, -1, ⟨0, -1, 0⟩⟩,
   ⟨Axis.z, 1, ⟨0, 0, 1⟩⟩, ⟨Axis.z, -1, ⟨0, 0, -1⟩⟩]

/-- The inner loop of `isSolved` for one face, from the running `expected`:
`none` when the loop executes `return false`, else the final `expected`. -/
def scanFace (f : Face) : List Cubelet → Option ℕ → Option (Option ℕ)
  | [], expected => some expected
  | c :: rest, expected =>
    if jsRound (c.position.get f.axis / SPACING) ≠ f.idx then scanFace f rest expected
    else
      match getStickerColorForDirection c f.dir with
      | none => none
      | some color =>
        match expected with
        | none => scanFace f rest (some color)
        | some e => if color ≠ e then none else scanFace f rest expected

/-- The function `isSolved()`. -/
def isSolved (s : CubeState) : Bool :=
  match s.activeTurn with
  | some _ => false
  | none =>
    faces.all fun f =>
      match scanFace f s.cubelets none with
      | none => false
      | some expected => expected.isSome

/-! ## Frame loop, completed turns, rest states -/

/-- The frame loop: `updateTurn(dt)` once for every frame time of the list. -/
def ticks (dts : List ℚ) (s : CubeState) : CubeState :=
  dts.foldl (fun st dt => updateTurn dt st) s

/-- A turn request followed by the frames `dts`. -/
def playTurn (req : TurnRequest) (dts : List ℚ) (s : CubeState) : CubeState :=
  ticks dts (beginTurn req s).2

/-- Position of a mesh after a committed turn `(axis, layerIndex, dir)`: a mesh
of the layer is re-attached from the pivot, turned to the target angle, and
snapped; any other mesh keeps its position. -/
def turnPosition (axis : Axis) (layerIndex : JsIndex) (dir : ℤ) (p : Vec3) : Vec3 :=
  if layerIndex.strictEq (gridIndexFromPosition (p.get axis)) then
    let w := (pivotMatrix axis ((dir : ℚ) * HALF_PI)).apply p
    ⟨snapCoord w.x, snapCoord w.y, snapCoord w.z⟩
  else p

/-- Orientation of a mesh at position `p` after a committed turn. -/
def turnQuaternion (axis : Axis) (layerIndex : JsIndex) (dir : ℤ) (p : Vec3) (q : Mat3) : Mat3 :=
  if layerIndex.strictEq (gridIndexFromPosition (p.get axis)) then
    snapQuaternion ((pivotMatrix axis ((dir : ℚ) * HALF_PI)).mul q)
  else q

/-- A mesh after a committed turn. -/
def turnCubelet (axis : Axis) (layerIndex : JsIndex) (dir : ℤ) (c : Cubelet) : Cubelet :=
  { c with
    position := turnPosition axis layerIndex dir c.position
    quaternion := turnQuaternion axis layerIndex dir c.position c.quaternion }

/-- The grid coordinates of a 3x3x3 lattice. -/
def gridCoords : List ℤ := [-1, 0, 1]

/-- The two turn directions. -/
def turnDirs : List ℤ := [1, -1]

/-- The three axes. -/
def axes : List Axis := [Axis.x, Axis.y, Axis.z]

/-- The 27 coordinate triples of {-1,0,1}^3. -/
def gridTriples : List (ℤ × ℤ × ℤ) :=
  gridCoords.flatMap fun i => gridCoords.flatMap fun j => gridCoords.map fun k => (i, j, k)

/-- The position `coord * SPACING` of a coordinate triple. -/
def gridVec (t : ℤ × ℤ × ℤ) : Vec3 :=
  ⟨(t.1 : ℚ) * SPACING, (t.2.1 : ℚ) * SPACING, (t.2.2 : ℚ) * SPACING⟩

/-- The 27 rest positions `coord * SPACING`. -/
def gridPositions : List Vec3 := gridTriples.map gridVec

/-- Component of a coordinate triple on an axis. -/
def tripleGet (t : ℤ × ℤ × ℤ) : Axis → ℤ
  | Axis.x => t.1
  | Axis.y => t.2.1
  | Axis.z => t.2.2

/-- A quarter turn on coordinate triples: the triples of layer `l` on `axis` are
rotated by `d` quarter turns about the axis, the others stay. -/
def turnCoords (axis : Axis) (l d : ℤ) (t : ℤ × ℤ × ℤ) : ℤ × ℤ × ℤ :=
  if tripleGet t axis = l then
    match axis with
    | Axis.x => (t.1, -d * t.2.2, d * t.2.1)
    | Axis.y => (d * t.2.2, t.2.1, -d * t.1)
    | Axis.z => (-d * t.2.1, d * t.1, t.2.2)
  else t

/-- The 24 orientations that are multiples of 90 degrees: the rotation
matrices with entries in {-1, 0, 1}. -/
def quarterRotations : List Mat3 :=
  [⟨1, 0, 0, 0, 1, 0, 0, 0, 1⟩, ⟨1, 0, 0, 0, 0, -1, 0, 1, 0⟩,
   ⟨1, 0, 0, 0, -1, 0, 0, 0, -1⟩, ⟨1, 0, 0, 0, 0, 1, 0, -1, 0⟩,
   ⟨-1, 0, 0, 0, 1, 0, 0, 0, -1⟩, ⟨-1, 0, 0, 0, 0, 1, 0, 1, 0⟩,
   ⟨-1, 0, 0, 0, -1, 0, 0, 0, 1⟩, ⟨-1, 0, 0, 0, 0, -1, 0, -1, 0⟩,
   ⟨0, 1, 0, 1, 0, 0, 0, 0, -1⟩, ⟨0, 1, 0, 0, 0, 1, 1, 0, 0⟩,
   ⟨0, 1, 0, -1, 0, 0, 0, 0, 1⟩, ⟨0, 1, 0, 0, 0, -1, -1, 0, 0⟩,
   ⟨0, -1, 0, -1, 0, 0, 0, 0, -1⟩, ⟨0, -1, 0, 0, 0, 1, -1, 0, 0⟩,
   ⟨0, -1, 0, 1, 0, 0, 0, 0, 1⟩, ⟨0, -1, 0, 0, 0, -1, 1, 0, 0⟩,
   ⟨0, 0, 1, 0, 1, 0, -1, 0, 0⟩, ⟨0, 0, 1, 1, 0, 0, 0, 1, 0⟩,
   ⟨0, 0, 1, 0, -1, 0, 1, 0, 0⟩, ⟨0, 0, 1, -1, 0, 0, 0, -1, 0⟩,
   ⟨0, 0, -1, 0, 1, 0, 1, 0, 0⟩, ⟨0, 0, -1, 1, 0, 0, 0, -1, 0⟩,
   ⟨0, 0, -1, 0, -1, 0, -1, 0, 0⟩, ⟨0, 0, -1, -1, 0, 0, 0, 1, 0⟩]

/-- The cubelet `buildCube` creates for the coordinate triple `t`. -/
def cubeletAt (t : ℤ × ℤ × ℤ) : Cubelet :=
  { id := (9 * (t.1 + 1) + 3 * (t.2.1 + 1) + (t.2.2 + 1)).toNat
    position := gridVec t
    quaternion := Mat3.one
    material := makeCubeletMaterial t.1 t.2.1 t.2.2 }

/-- The positive face next to an axis in the cycle x, y, z, x. -/
def nextFace : Axis → Face
  | Axis.x => ⟨Axis.y, 1, ⟨0, 1, 0⟩⟩
  | Axis.y => ⟨Axis.z, 1, ⟨0, 0, 1⟩⟩
  | Axis.z => ⟨Axis.x, 1, ⟨1, 0, 0⟩⟩

/-- Coordinates of a built cubelet of layer `l` that the turn `(axis, l, d)`
carries into the layer of `nextFace axis`. -/
def movedSource (axis : Axis) (l d : ℤ) : ℤ × ℤ × ℤ :=
  match axis with
  | Axis.x => (l, 0, -d)
  | Axis.y => (-d, l, 0)
  | Axis.z => (0, -d, l)

/-- Coordinates of a built cubelet in the layer of `nextFace axis` that is
outside layer `l` of `axis`. -/
def fixedSource (axis : Axis) (l : ℤ) : ℤ × ℤ × ℤ :=
  match axis with
  | Axis.x => (if l = 1 then 0 else 1, 1, 0)
  | Axis.y => (0, if l = 1 then 0 else 1, 1)
  | Axis.z => (1, 0, if l = 1 then 0 else 1)

/-- A matrix entry `x` is within the commit tolerance of its rest value `n`:
within 1e-4, and within 1e-8 when the rest value is not 0 (the cosine of an
angle within 1e-4 rad of 0 is within 5e-9 of 1). -/
def NearEntry (x n : ℚ) : Prop :=
  |x - n| ≤ 1 / 10000 ∧ (n ≠ 0 → |x - n| ≤ 1 / 100000000)

/-- Entrywise `NearEntry`. -/
def NearMat (m n : Mat3) : Prop :=
  NearEntry m.m11 n.m11 ∧ NearEntry m.m12 n.m12 ∧ NearEntry m.m13 n.m13 ∧
  NearEntry m.m21 n.m21 ∧ NearEntry m.m22 n.m22 ∧ NearEntry m.m23 n.m23 ∧
  NearEntry m.m31 n.m31 ∧ NearEntry m.m32 n.m32 ∧ NearEntry m.m33 n.m33

/-- The pair `(y, x)` lies on a coordinate half-axis at distance 1. -/
def AxisPair (y x : ℚ) : Prop :=
  (y = 0 ∧ (x = 1 ∨ x = -1)) ∨ ((y = 1 ∨ y = -1) ∧ x = 0)

/-- The entries that `snappedEuler` reads are 0 or ±1 and each pair passed to
`atan2` lies on a coordinate half-axis. -/
def Aligned (n : Mat3) : Prop :=
  (n.m13 = 0 ∨ n.m13 = 1 ∨ n.m13 = -1) ∧
  (n.m13 = 0 → AxisPair (-n.m23) n.m33 ∧ AxisPair (-n.m12) n.m11) ∧
  (n.m13 ≠ 0 → AxisPair n.m32 n.m22)

/-- A column of a rotation by multiples of 90 degrees: a signed unit vector. -/
def signedUnits : List Vec3 :=
  [⟨1, 0, 0⟩, ⟨-1, 0, 0⟩, ⟨0, 1, 0⟩, ⟨0, -1, 0⟩, ⟨0, 0, 1⟩, ⟨0, 0, -1⟩]

/-- Rest states reachable from `createRubiksCube` by completed turns: each turn
is begun with `beginTurn` for an axis, a layer in {-1,0,1} and a direction in
{+1,-1}, and run by `updateTurn` until no turn is active. -/
inductive RestReachable : CubeState → Prop where
  | build : RestReachable createRubiksCube
  | turn (s : CubeState) (axis : Axis) (layer dir : ℤ) (dts : List ℚ) :
      RestReachable s → layer ∈ gridCoords → dir ∈ turnDirs →
      (playTurn ⟨axis, JsIndex.num layer, dir⟩ dts s).activeTurn = none →
      RestReachable (playTurn ⟨axis, JsIndex.num layer, dir⟩ dts s)

/-- The state a turn leaves when it is committed. -/
def committed (req : TurnRequest) (s : CubeState) : CubeState :=
  ⟨s.cubelets.map (turnCubelet req.axis req.layerIndex req.dir), none⟩

/-- Invariant of the frames of one turn: the turn is still active with the
cubelets untouched and the pivot at the progress angle, or it is committed. -/
def TurnInv (req : TurnRequest) (s st : CubeState) : Prop :=
  (st.cubelets = s.cubelets ∧ ∃ t, st.activeTurn = some t ∧ t.axis = req.axis ∧
    t.target = (req.dir : ℚ) * HALF_PI ∧ t.pivot = t.current ∧
    t.selected = (selectLayer s.cubelets req.axis req.layerIndex).map Cubelet.id) ∨
  st = committed req s

/-- Rest state of the lattice: no turn is active, the meshes have distinct
identities, their positions are the 27 rest positions, each taken once, and
every orientation is one of the 24 multiples of 90 degrees. -/
def Lattice (s : CubeState) : Prop :=
  s.activeTurn = none ∧ (s.cubelets.map Cubelet.id).Nodup ∧
  (s.cubelets.map Cubelet.position).Perm gridPositions ∧
  ∀ c ∈ s.cubelets, c.quaternion ∈ quarterRotations

/-! ## Reference definition of the solved state (spec 4.3) -/

/-- Dot product of a rotated local normal with a world direction. -/
def faceDot (q : Mat3) (dirWorld n : Vec3) : ℚ := (q.apply n).dot dirWorld

/-- Index of the first local face, in the order +X, -X, +Y, -Y, +Z, -Z, whose
rotated normal has the maximal dot product with `dirWorld`. -/
def mostAlignedFace (q : Mat3) (dirWorld : Vec3) : ℕ :=
  localNormals.findIdx fun n =>
    localNormals.all fun n' => decide (faceDot q dirWorld n' ≤ faceDot q dirWorld n)

/-- Colour a cubelet presents toward a direction, by the reference definition. -/
def stickerColorSpec (c : Cubelet) (dirWorld : Vec3) : Option ℕ :=
  c.material.get? (mostAlignedFace c.quaternion dirWorld)

/-- The cubelets whose grid-rounded coordinate on the axis of `f` is its index. -/
def faceLayer (s : CubeState) (f : Face) : List Cubelet :=
  s.cubelets.filter fun c => decide (jsRound (c.position.get f.axis / SPACING) = f.idx)

/-- Reference definition of solved: no turn is active and every one of the six
faces has a non-empty layer whose cubelets all yield a colour, the same one. -/
def isSolvedSpec (s : CubeState) : Prop :=
  s.activeTurn = none ∧
  ∀ f ∈ faces,
    faceLayer s f ≠ [] ∧
    (∀ c ∈ faceLayer s f, (stickerColorSpec c f.dir).isSome) ∧
    (∀ c ∈ faceLayer s f, ∀ c' ∈ faceLayer s f,
      stickerColorSpec c f.dir = stickerColorSpec c' f.dir)

end Rubik

/-! ## Orbit camera (camera.js) -/

namespace OrbitCamera

/-- The function `clamp(v, a, b)` on finite numbers. -/
def clamp (v a b : ℚ) : ℚ := max a (min b v)

/-- The numeric fields of the record `orbit` while they are finite numbers.
The fixed `target` and the orientation `q` are left out: no operation below
reads or writes them when it computes the radius.  The section on the orbit
radius with overflow and NaN (`OrbitCamera.Ieee`) has these operations on
JavaScript numbers with the infinities and NaN. -/
structure Orbit where
  radius : ℚ
  minRadius : ℚ
  maxRadius : ℚ
  damping : ℚ
  vRadius : ℚ
  deriving DecidableEq

/-- The function `updateCameraFromOrbit()`: it clamps the radius and then
places the camera from `orbit`. -/
def updateCameraFromOrbit (o : Orbit) : Orbit :=
  { o with radius := clamp o.radius o.minRadius o.maxRadius }

/-- State when `createOrbitCameraController` returns; `initialLength` is the
value of `initialOffset.length()`, the distance of the camera from the target. -/
def createOrbitCameraController (initialLength : ℚ) : Orbit :=
  let initialRadius := if initialLength = 0 then 10 else initialLength
  updateCameraFromOrbit
    { radius := initialRadius
      minRadius := 6
      maxRadius := 20
      damping := 12 / 100
      vRadius := 0 }

/-- The function `onWheel(ev)` with `ev.deltaY = deltaY`. -/
def onWheel (deltaY : ℚ) (o : Orbit) : Orbit :=
  let zoomSpeed : ℚ := 4 / 1000
  { o with vRadius := o.vRadius + deltaY * zoomSpeed }

/-- The function `update(dt)`; `pow` stands for `Math.pow`. -/
def update (pow : ℚ → ℚ → ℚ) (dt : ℚ) (o : Orbit) : Orbit :=
  let o1 := { o with radius := o.radius + o.vRadius }
  let damp := pow (1 - o1.damping) (dt * 60)
  let o2 := { o1 with vRadius := o1.vRadius * damp }
  updateCameraFromOrbit o2

end OrbitCamera


/-! ## Turn progress (cube.js 150-159) -/

namespace Rubik

/-- The value `step` of `updateTurn(dt)` for the active turn `t`. -/
def turnStep (t : Turn) (dt : ℚ) : ℚ := min |t.target - t.current| (t.speed * dt)

/-- The value `delta` of `updateTurn(dt)` for the active turn `t`. -/
def turnDelta (t : Turn) (dt : ℚ) : ℚ := turnStep t dt * jsSign (t.target - t.current)

/-- The progress `t.current` after the line `t.current += delta`. -/
def nextCurrent (t : Turn) (dt : ℚ) : ℚ := t.current + turnDelta t dt

/-- The angle `c` lies between 0 and `target`, ends included. -/
def Between (target c : ℚ) : Prop := (0 ≤ c ∧ c ≤ target) ∨ (target ≤ c ∧ c ≤ 0)

end Rubik

/-! ## Arcball projection and pointer sessions (camera.js) -/

namespace OrbitCamera

/-- A `THREE.Vector3` with components in `K`. -/
structure Vector3 (K : Type) where
  x : K
  y : K
  z : K
  deriving DecidableEq

/-- The fields of `canvas.getBoundingClientRect()` that are read. -/
structure Rect (K : Type) where
  left : K
  top : K
  width : K
  height : K

/-- The fields of a pointer event that the handlers read. -/
structure PointerEvent (K : Type) where
  clientX : K
  clientY : K
  pointerId : ℕ
  button : ℤ
  shiftKey : Bool

/-- The method `Vector3.length()`; `sqrt` stands for `Math.sqrt`. -/
def Vector3.length {K : Type} [LinearOrderedField K] (sqrt : K → K) (v : Vector3 K) : K :=
  sqrt (v.x * v.x + v.y * v.y + v.z * v.z)

/-- The method `Vector3.normalize()`, that is `divideScalar(this.length() || 1)`
where `divideScalar(s)` is `multiplyScalar(1 / s)`. -/
def Vector3.normalize {K : Type} [LinearOrderedField K] (sqrt : K → K) (v : Vector3 K) :
    Vector3 K :=
  let l := v.length sqrt
  let s := if l = 0 then 1 else l
  ⟨v.x * (1 / s), v.y * (1 / s), v.z * (1 / s)⟩

/-- The constant `x` of `projectToArcball(ev)`. -/
def ndcX {K : Type} [LinearOrderedField K] (rect : Rect K) (ev : PointerEvent K) : K :=
  ((ev.clientX - rect.left) / rect.width) * 2 - 1

/-- The constant `y` of `projectToArcball(ev)`. -/
def ndcY {K : Type} [LinearOrderedField K] (rect : Rect K) (ev : PointerEvent K) : K :=
  -(((ev.clientY - rect.top) / rect.height) * 2 - 1)

/-- The function `projectToArcball(ev)`; `rect` is the bounding rectangle of
the canvas and `sqrt` stands for `Math.sqrt`. -/
def projectToArcball {K : Type} [LinearOrderedField K] (sqrt : K → K) (rect : Rect K)
    (ev : PointerEvent K) : Vector3 K :=
  let x := ndcX rect ev
  let y := ndcY rect ev
  let d2 := x * x + y * y
  if d2 ≤ 1 then ⟨x, y, sqrt (1 - d2)⟩
  else (Vector3.mk x y 0).normalize sqrt

/-- Reference definition: the standard arcball projection of the normalized
device coordinates `(x, y)`. -/
def arcballSpec {K : Type} [LinearOrderedField K] (sqrt : K → K) (x y : K) : Vector3 K :=
  if x ^ 2 + y ^ 2 ≤ 1 then ⟨x, y, sqrt (1 - x ^ 2 - y ^ 2)⟩
  else ⟨x / sqrt (x ^ 2 + y ^ 2), y / sqrt (x ^ 2 + y ^ 2), 0⟩

/-- The record `orbitDrag` of an orbit-drag session. -/
structure OrbitDrag where
  lastX : ℚ
  lastY : ℚ
  pointerId : ℕ
  prev : Vector3 ℚ

/-- The state of the closure of `createOrbitCameraController`: the numeric
fields of `orbit`, the orientation `orbit.q` as a rotation matrix, the
`sensitivity` and the slot `orbitDrag`.  The camera pose is a function of
`orbit` and `q` (`updateCameraFromOrbit`). -/
structure Controller where
  orbit : Orbit
  q : Rubik.Mat3
  sensitivity : ℚ
  orbitDrag : Option OrbitDrag

/-- What the handlers read from outside the program state: `Math.sqrt`,
`Math.pow`, the bounding rectangle of the canvas, and the arcball rotation of
`onPointerMove`: `arcballDelta v1 v2 sensitivity` is `none` when the axis of
`setFromUnitVectors(v1, v2)` is not longer than 1e-10 and otherwise the
rotation about that axis by `2 * atan2(axisLen, w) * sensitivity`. -/
structure Env where
  sqrt : ℚ → ℚ
  pow : ℚ → ℚ → ℚ
  rect : Rect ℚ
  arcballDelta : Vector3 ℚ → Vector3 ℚ → ℚ → Option Rubik.Mat3

/-- The controller when `createOrbitCameraController` returns; `orientation`
is the rotation `setFromUnitVectors((0,0,1), dir)`. -/
def createController (initialLength : ℚ) (orientation : Rubik.Mat3) : Controller :=
  { orbit := createOrbitCameraController initialLength
    q := orientation
    sensitivity := 1
    orbitDrag := none }

/-- The function `onPointerDown(ev, force)` of the camera controller. -/
def onPointerDown (env : Env) (ev : PointerEvent ℚ) (force : Bool) (c : Controller) :
    Bool × Controller :=
  let isOrbitGesture := force || decide (ev.button = 2) || ev.shiftKey
  if !isOrbitGesture then (false, c)
  else
    (true,
     { c with
       orbitDrag := some
         { lastX := ev.clientX
           lastY := ev.clientY
           pointerId := ev.pointerId
           prev := projectToArcball env.sqrt env.rect ev } })

/-- The function `onPointerMove(ev)` of the camera controller. -/
def onPointerMove (env : Env) (ev : PointerEvent ℚ) (c : Controller) : Bool × Controller :=
  match c.orbitDrag with
  | none => (false, c)
  | some od =>
    if ev.pointerId ≠ od.pointerId then (true, c)
    else
      let curr := projectToArcball env.sqrt env.rect ev
      let tmpV1 := od.prev.normalize env.sqrt
      let tmpV2 := curr.normalize env.sqrt
      let c1 :=
        match env.arcballDelta tmpV1 tmpV2 c.sensitivity with
        | some r => { c with q := c.q.mul r, orbit := updateCameraFromOrbit c.orbit }
        | none => c
      (true,
       { c1 with
         orbitDrag := some { od with prev := curr, lastX := ev.clientX, lastY := ev.clientY } })

/-- The function `onPointerUp(ev)` of the camera controller. -/
def onPointerUp (ev : PointerEvent ℚ) (c : Controller) : Bool × Controller :=
  match c.orbitDrag with
  | none => (false, c)
  | some od =>
    if ev.pointerId ≠ od.pointerId then (true, c)
    else (true, { c with orbitDrag := none })

/-- The value `Number(value)` as seen by `Number.isFinite`: a finite number, or
not one (NaN or an infinity). -/
inductive JsNumber where
  | finite (v : ℚ)
  | notFinite

/-- The method `setSensitivity(value)`; `value` is given by `Number(value)`. -/
def setSensitivity (value : JsNumber) (c : Controller) : Controller :=
  match value with
  | JsNumber.notFinite => c
  | JsNumber.finite v => { c with sensitivity := clamp v (5 / 100) 5 }

/-- The method `getSensitivity()`. -/
def getSensitivity (c : Controller) : ℚ := c.sensitivity

/-- A call of the controller from outside: a method of the returned object or
the wheel listener. -/
inductive Call where
  | update (dt : ℚ)
  | wheel (deltaY : ℚ)
  | pointerDown (ev : PointerEvent ℚ) (force : Bool)
  | pointerMove (ev : PointerEvent ℚ)
  | pointerUp (ev : PointerEvent ℚ)
  | setSensitivity (value : JsNumber)

/-- One call applied to the controller. -/
def call (env : Env) (c : Controller) : Call → Controller
  | Call.update dt => { c with orbit := update env.pow dt c.orbit }
  | Call.wheel deltaY => { c with orbit := onWheel deltaY c.orbit }
  | Call.pointerDown ev force => (onPointerDown env ev force c).2
  | Call.pointerMove ev => (onPointerMove env ev c).2
  | Call.pointerUp ev => (onPointerUp ev c).2
  | Call.setSensitivity value => setSensitivity value c

/-- The controller after it was created and received the calls in turn. -/
def calls (env : Env) (initialLength : ℚ) (orientation : Rubik.Mat3) (cs : List Call) :
    Controller :=
  cs.foldl (call env) (createController initialLength orientation)

end OrbitCamera

/-! ## Cube input (input.js) -/

namespace CubeInput

open Rubik OrbitCamera

/-- `Math.sign(c) || 1`: `Math.sign` gives 1, -1 or 0, and 0 is replaced by 1. -/
def signOrOne (c : ℚ) : ℤ := if 0 < c then 1 else if c < 0 then -1 else 1

/-- The function `dominantAxis(v)`: the fields `axis` and `sign` of its result. -/
def dominantAxis (v : Vec3) : Axis × ℤ :=
  let ax := |v.x|
  let ay := |v.y|
  let az := |v.z|
  if ax ≥ ay ∧ ax ≥ az then (Axis.x, signOrOne v.x)
  else if ay ≥ ax ∧ ay ≥ az then (Axis.y, signOrOne v.y)
  else (Axis.z, signOrOne v.z)

/-- The method `Vector3.lengthSq()`. -/
def lengthSq (v : Vec3) : ℚ := v.x * v.x + v.y * v.y + v.z * v.z

/-- The method `Vector3.normalize()` of a world vector. -/
def normalize (sqrt : ℚ → ℚ) (v : Vec3) : Vec3 :=
  let l := sqrt (lengthSq v)
  let s := if l = 0 then 1 else l
  ⟨v.x * (1 / s), v.y * (1 / s), v.z * (1 / s)⟩

/-- The method `crossVectors(a, b)`. -/
def crossVectors (a b : Vec3) : Vec3 :=
  ⟨a.y * b.z - a.z * b.y, a.z * b.x - a.x * b.z, a.x * b.y - a.y * b.x⟩

/-- The method `multiplyScalar(s)`. -/
def multiplyScalar (v : Vec3) (s : ℚ) : Vec3 := ⟨v.x * s, v.y * s, v.z * s⟩

/-- The method `addScaledVector(w, s)`. -/
def addScaledVector (v w : Vec3) (s : ℚ) : Vec3 := ⟨v.x + w.x * s, v.y + w.y * s, v.z + w.z * s⟩

/-- The first entry of `raycaster.intersectObjects(cube.cubelets)`: the id of
the struck cubelet and its face normal in world space, normalized. -/
structure Hit where
  object : ℕ
  faceNormalWorld : Vec3

/-- The record `drag` of a puzzle-drag session; `cubelet` is the id of the
struck cubelet. -/
structure Drag where
  startX : ℚ
  startY : ℚ
  cubelet : ℕ
  faceNormalWorld : Vec3
  moved : Bool
  pointerId : ℕ

/-- The values of `dragMode`. -/
inductive DragMode where
  | auto
  | horizontal
  | vertical
  deriving DecidableEq

/-- The state that the input handlers read and write: the cube, the camera
controller, the slot `drag` and `dragMode`. -/
structure App where
  cube : CubeState
  controller : Controller
  drag : Option Drag
  dragMode : DragMode

/-- The state after `main.js` has created the cube, the camera controller and
the input. -/
def createApp (initialLength : ℚ) (orientation : Mat3) : App :=
  { cube := createRubiksCube
    controller := createController initialLength orientation
    drag := none
    dragMode := DragMode.auto }

/-- The direction `camera.getWorldDirection()` after `camera.lookAt(target)`
from `target + q * (0, 0, radius)`: the opposite of the normalized offset; the
offset is not zero, the radius being at least `minRadius`. -/
def getWorldDirection (sqrt : ℚ → ℚ) (c : Controller) : Vec3 :=
  normalize sqrt (multiplyScalar (normalize sqrt (c.q.apply ⟨0, 0, c.orbit.radius⟩)) (-1))

/-- The function `onPointerDown(ev)`; `hit` is the first entry of `hits`, if any. -/
def onPointerDown (env : Env) (ev : PointerEvent ℚ) (hit : Option Hit) (a : App) : App :=
  if a.cube.activeTurn.isSome then a
  else
    match hit with
    | none => { a with controller := (OrbitCamera.onPointerDown env ev true a.controller).2 }
    | some h =>
      { a with
        drag := some
          { startX := ev.clientX
            startY := ev.clientY
            cubelet := h.object
            faceNormalWorld := h.faceNormalWorld
            moved := false
            pointerId := ev.pointerId } }

/-- The part of `onPointerMove(ev)` after the threshold test, for the session
`drag` with `drag.moved` already set.  The struck mesh `drag.cubelet` is found
by its id among the cubelets; that is the mesh itself as long as `reset()` has
not rebuilt the lattice since the pointer went down. -/
def dragTurn (env : Env) (ev : PointerEvent ℚ) (drag : Drag) (a : App) : App :=
  let dx := ev.clientX - drag.startX
  let dy := ev.clientY - drag.startY
  let dyy := if a.dragMode = DragMode.horizontal then 0 else dy
  let dxx := if a.dragMode = DragMode.vertical then 0 else dx
  let tmpForward := normalize env.sqrt (getWorldDirection env.sqrt a.controller)
  let tmpRight := normalize env.sqrt (crossVectors tmpForward (a.controller.q.apply ⟨0, 1, 0⟩))
  let tmpUp := normalize env.sqrt (crossVectors tmpRight tmpForward)
  let tmpDragWorld := addScaledVector (multiplyScalar tmpRight dxx) tmpUp (-dyy)
  if lengthSq tmpDragWorld < 1 / 100000000 then a
  else
    let tmpDragWorld := normalize env.sqrt tmpDragWorld
    let n := drag.faceNormalWorld
    let tmpDragOnPlane := addScaledVector tmpDragWorld n (-(tmpDragWorld.dot n))
    if lengthSq tmpDragOnPlane < 1 / 100000000 then a
    else
      let tmpDragOnPlane := normalize env.sqrt tmpDragOnPlane
      let tmpAxisWorld := crossVectors n tmpDragOnPlane
      if lengthSq tmpAxisWorld < 1 / 100000000 then a
      else
        let tmpAxisLocal := normalize env.sqrt tmpAxisWorld
        let r := dominantAxis tmpAxisLocal
        let layerIndex :=
          match a.cube.cubelets.find? (fun m => m.id = drag.cubelet) with
          | some m => JsIndex.num (gridIndexFromPosition (m.position.get r.1))
          | none => JsIndex.malformed
        { a with
          cube := (beginTurn ⟨r.1, layerIndex, r.2⟩ a.cube).2
          drag := none }

/-- The function `onPointerMove(ev)`.  The base group of the cube is never
rotated, so the world axis is the local axis. -/
def onPointerMove (env : Env) (ev : PointerEvent ℚ) (a : App) : App :=
  let r := OrbitCamera.onPointerMove env ev a.controller
  if r.1 then { a with controller := r.2 }
  else
    match a.drag with
    | none => a
    | some drag =>
      if a.cube.activeTurn.isSome then a
      else if ev.pointerId ≠ drag.pointerId then a
      else
        let dx := ev.clientX - drag.startX
        let dy := ev.clientY - drag.startY
        let threshold : ℚ := 10
        if !drag.moved && decide (env.sqrt (dx * dx + dy * dy) < threshold) then a
        else
          let drag1 := { drag with moved := true }
          dragTurn env ev drag1 { a with drag := some drag1 }

/-- The function `onPointerUp(ev)`, the listener of `pointerup` and `pointercancel`. -/
def onPointerUp (ev : PointerEvent ℚ) (a : App) : App :=
  let r := OrbitCamera.onPointerUp ev a.controller
  if r.1 then { a with controller := r.2 }
  else { a with drag := none }

/-- A pointer event delivered to the canvas; a pointer-down comes with the
result of the hit test at that moment. -/
inductive PointerInput where
  | down (ev : PointerEvent ℚ) (hit : Option Hit)
  | move (ev : PointerEvent ℚ)
  | up (ev : PointerEvent ℚ)

/-- One pointer event handled. -/
def handle (env : Env) (a : App) : PointerInput → App
  | PointerInput.down ev hit => onPointerDown env ev hit a
  | PointerInput.move ev => onPointerMove env ev a
  | PointerInput.up ev => onPointerUp ev a

/-- The state after the created application handled the events in turn. -/
def handleAll (env : Env) (initialLength : ℚ) (orientation : Mat3)
    (events : List PointerInput) : App :=
  events.foldl (handle env) (createApp initialLength orientation)

/-- States reached from the created application by pointer events where no
pointer-down that strikes a cubelet arrives during an orbit-drag session and no
pointer-down that misses the cube arrives during a puzzle-drag session. -/
inductive OneSession (env : Env) : App → Prop where
  | create (initialLength : ℚ) (orientation : Mat3) :
      OneSession env (createApp initialLength orientation)
  | downHit (a : App) (ev : PointerEvent ℚ) (h : Hit) :
      OneSession env a → a.controller.orbitDrag = none →
      OneSession env (onPointerDown env ev (some h) a)
  | downMiss (a : App) (ev : PointerEvent ℚ) :
      OneSession env a → a.drag = none → OneSession env (onPointerDown env ev none a)
  | move (a : App) (ev : PointerEvent ℚ) :
      OneSession env a → OneSession env (onPointerMove env ev a)
  | up (a : App) (ev : PointerEvent ℚ) : OneSession env a → OneSession env (onPointerUp ev a)

/-- An environment for evaluating event sequences: a canvas of 800 by 600
pixels at the origin, the rational square root `Rat.sqrt` (exact on squares),
`Math.pow` on natural exponents and a pointer that does not rotate the camera. -/
def sampleEnv : Env :=
  { sqrt := Rat.sqrt
    pow := fun b e => b ^ e.floor.toNat
    rect := ⟨0, 0, 800, 600⟩
    arcballDelta := fun _ _ _ => none }

end CubeInput

/-! ## Orbit radius with overflow and NaN (camera.js 3-5, 51-58, 120-132) -/

namespace OrbitCamera.Ieee

/-- A JavaScript number where overflow matters: a finite value, kept exact, an
infinity, or NaN. -/
inductive Num where
  | fin (v : ℚ)
  | posInf
  | negInf
  | nan
  deriving DecidableEq

/-- `Number.MAX_VALUE`, the largest finite double. -/
def MAX_VALUE : ℚ := ((2 ^ 1024 - 2 ^ 971 : ℕ) : ℚ)

/-- The least magnitude that rounds to an infinity: `2^1024 - 2^970`, half a
unit in the last place above `MAX_VALUE`. -/
def OVERFLOW : ℚ := ((2 ^ 1024 - 2 ^ 970 : ℕ) : ℚ)

/-- The exact result `v` of an operation on finite numbers, as a JavaScript
number: rounding to nearest gives an infinity from `OVERFLOW` on. -/
def Num.ofExact (v : ℚ) : Num :=
  if OVERFLOW ≤ v then Num.posInf
  else if v ≤ -OVERFLOW then Num.negInf
  else Num.fin v

/-- The operator `a + b`. -/
def Num.add : Num → Num → Num
  | Num.nan, _ => Num.nan
  | _, Num.nan => Num.nan
  | Num.posInf, Num.negInf => Num.nan
  | Num.negInf, Num.posInf => Num.nan
  | Num.posInf, _ => Num.posInf
  | _, Num.posInf => Num.posInf
  | Num.negInf, _ => Num.negInf
  | _, Num.negInf => Num.negInf
  | Num.fin a, Num.fin b => Num.ofExact (a + b)

/-- The operator `-a`. -/
def Num.neg : Num → Num
  | Num.nan => Num.nan
  | Num.posInf => Num.negInf
  | Num.negInf => Num.posInf
  | Num.fin a => Num.fin (-a)

/-- The operator `a - b`. -/
def Num.sub (a b : Num) : Num := a.add b.neg

/-- An infinity times the finite number `a`: NaN for 0, else the infinity of
the sign of the product; `pos` tells whether the infinity is `+Infinity`. -/
def Num.infTimes (pos : Bool) (a : ℚ) : Num :=
  if a = 0 then Num.nan
  else if (0 < a) = (pos = true) then Num.posInf
  else Num.negInf

/-- The operator `a * b`. -/
def Num.mul : Num → Num → Num
  | Num.nan, _ => Num.nan
  | _, Num.nan => Num.nan
  | Num.fin a, Num.fin b => Num.ofExact (a * b)
  | Num.fin a, Num.posInf => Num.infTimes true a
  | Num.fin a, Num.negInf => Num.infTimes false a
  | Num.posInf, Num.fin b => Num.infTimes true b
  | Num.negInf, Num.fin b => Num.infTimes false b
  | Num.posInf, Num.posInf => Num.posInf
  | Num.posInf, Num.negInf => Num.negInf
  | Num.negInf, Num.posInf => Num.negInf
  | Num.negInf, Num.negInf => Num.posInf

/-- The function `Math.min(a, b)`: NaN when an argument is NaN. -/
def Num.min : Num → Num → Num
  | Num.nan, _ => Num.nan
  | _, Num.nan => Num.nan
  | Num.negInf, _ => Num.negInf
  | _, Num.negInf => Num.negInf
  | Num.posInf, b => b
  | a, Num.posInf => a
  | Num.fin a, Num.fin b => Num.fin (if a ≤ b then a else b)

/-- The function `Math.max(a, b)`: NaN when an argument is NaN. -/
def Num.max : Num → Num → Num
  | Num.nan, _ => Num.nan
  | _, Num.nan => Num.nan
  | Num.posInf, _ => Num.posInf
  | _, Num.posInf => Num.posInf
  | Num.negInf, b => b
  | a, Num.negInf => a
  | Num.fin a, Num.fin b => Num.fin (if a ≤ b then b else a)

/-- The function `clamp(v, a, b)` on JavaScript numbers. -/
def clamp (v a b : Num) : Num := Num.max a (Num.min b v)

/-- The numeric fields of the record `orbit` as JavaScript numbers. -/
structure Orbit where
  radius : Num
  minRadius : Num
  maxRadius : Num
  damping : Num
  vRadius : Num
  deriving DecidableEq

/-- The function `updateCameraFromOrbit()`: it clamps the radius and then
places the camera from `orbit`. -/
def updateCameraFromOrbit (o : Orbit) : Orbit :=
  { o with radius := clamp o.radius o.minRadius o.maxRadius }

/-- State when `createOrbitCameraController` returns; `initialLength` is the
value of `initialOffset.length()`, and `initialLength || 10` replaces 0 and NaN
by 10. -/
def createOrbitCameraController (initialLength : Num) : Orbit :=
  let initialRadius :=
    if initialLength = Num.fin 0 ∨ initialLength = Num.nan then Num.fin 10 else initialLength
  updateCameraFromOrbit
    { radius := initialRadius
      minRadius := Num.fin 6
      maxRadius := Num.fin 20
      damping := Num.fin (12 / 100)
      vRadius := Num.fin 0 }

/-- The function `onWheel(ev)` with the finite number `ev.deltaY = deltaY`. -/
def onWheel (deltaY : ℚ) (o : Orbit) : Orbit :=
  let zoomSpeed : Num := Num.fin (4 / 1000)
  { o with vRadius := o.vRadius.add ((Num.fin deltaY).mul zoomSpeed) }

/-- The function `update(dt)` with a finite number `dt`; `pow` stands for
`Math.pow`. -/
def update (pow : Num → Num → Num) (dt : ℚ) (o : Orbit) : Orbit :=
  let o1 := { o with radius := o.radius.add o.vRadius }
  let damp := pow ((Num.fin 1).sub o1.damping) ((Num.fin dt).mul (Num.fin 60))
  let o2 := { o1 with vRadius := o1.vRadius.mul damp }
  updateCameraFromOrbit o2

/-- An input of the camera controller: a wheel event or a frame. -/
inductive Input where
  | wheel (deltaY : ℚ)
  | frame (dt : ℚ)

/-- One input applied to the orbit. -/
def step (pow : Num → Num → Num) (o : Orbit) : Input → Orbit
  | Input.wheel deltaY => onWheel deltaY o
  | Input.frame dt => update pow dt o

/-- The orbit after the controller was created and received the inputs in turn. -/
def run (pow : Num → Num → Num) (initialLength : Num) (inputs : List Input) : Orbit :=
  inputs.foldl (step pow) (createOrbitCameraController initialLength)

/-- The number `v` is finite and lies in [6, 20]. -/
def InRange (v : Num) : Prop := ∃ r : ℚ, v = Num.fin r ∧ 6 ≤ r ∧ r ≤ 20

/-- `Math.pow` for evaluating runs, on a finite base `x` and a natural exponent
`n`: the exact power, 0 when it is below `2^-1075` in absolute value (half the
least positive double), that is when `|num x|^n * 2^1075 < (den x)^n`, and an
infinity on overflow.  The runs evaluated below call `Math.pow` with natural
exponents only; NaN stands for the other values. -/
def powNat (b e : Num) : Num :=
  match b, e with
  | Num.fin x, Num.fin y =>
    if y.den = 1 ∧ 0 ≤ y.num then
      if x.num.natAbs ^ y.num.toNat * 2 ^ 1075 < x.den ^ y.num.toNat then Num.fin 0
      else Num.ofExact (x ^ y.num.toNat)
    else Num.nan
  | _, _ => Num.nan

end OrbitCamera.Ieee

/-! # Theorems -/

namespace Rubik

/-! ## Turn guard -/

/-- C1: `beginTurn` is the mutual-exclusion guard.  While a turn is active every
request is refused and the whole state (the active turn with its axis,
direction, selection, target and progress, and every cubelet) stays as it is;
at rest the request is accepted, the cubelets stay as they are and the one
`activeTurn` slot holds the new turn with progress 0 and target `dir * π/2`;
a request that follows an accepted one is refused. -/
theorem beginTurn_guard (req : TurnRequest) (s : CubeState) :
    (∀ t, s.activeTurn = some t → beginTurn req s = (false, s)) ∧
    (s.activeTurn = none →
      (beginTurn req s).1 = true ∧
      (beginTurn req s).2.cubelets = s.cubelets ∧
      (∃ t, (beginTurn req s).2.activeTurn = some t ∧
        t.axis = req.axis ∧ t.dir = req.dir ∧ t.current = 0 ∧ t.pivot = 0 ∧
        t.target = (req.dir : ℚ) * HALF_PI ∧
        t.selected = (selectLayer s.cubelets req.axis req.layerIndex).map Cubelet.id) ∧
      ∀ req', beginTurn req' (beginTurn req s).2 = (false, (beginTurn req s).2)) := by
  refine ⟨?_, ?_⟩
  · intro t ht
    simp [beginTurn, ht]
  · intro hs
    simp [beginTurn, hs]


/-! ## Solved-state oracle against its reference definition -/

theorem findIdx_congr_mem {α : Type} (l : List α) (p q : α → Bool)
    (h : ∀ x ∈ l, p x = q x) : l.findIdx p = l.findIdx q := by
  induction l with
  | nil => rfl
  | cons a l ih =>
    rw [List.findIdx_cons, List.findIdx_cons, h a (List.mem_cons_self a l),
      ih (fun x hx => h x (List.mem_cons_of_mem a hx))]

/-- The loop of `getStickerColorForDirection`: it ends on the first of the
remaining faces with the largest dot product when that one exceeds the running
best, and on the running best index otherwise. -/
theorem bestFace_eq (q : Mat3) (dir : Vec3) (ns : List Vec3) :
    ∀ (i bestIdx : ℕ) (bestDot : Option ℚ),
      bestFace q dir ns i bestIdx bestDot =
        if ns.any (fun n => exceeds bestDot (faceDot q dir n)) then
          i + ns.findIdx (fun n => exceeds bestDot (faceDot q dir n) &&
            ns.all fun n' => decide (faceDot q dir n' ≤ faceDot q dir n))
        else bestIdx := by
  induction ns with
  | nil => intro i bestIdx bestDot; simp [bestFace]
  | cons n rest ih =>
    intro i bestIdx bestDot
    have hd : (q.apply n).dot dir = faceDot q dir n := rfl
    simp only [bestFace, hd]
    by_cases hex : exceeds bestDot (faceDot q dir n) = true
    · rw [if_pos hex, ih]
      have hany : (n :: rest).any (fun m => exceeds bestDot (faceDot q dir m)) = true := by
        simp [hex]
      rw [if_pos hany, List.findIdx_cons]
      by_cases hmore : rest.any (fun m => exceeds (some (faceDot q dir n)) (faceDot q dir m)) = true
      · rw [if_pos hmore]
        obtain ⟨m₀, hm₀, hlt⟩ := List.any_eq_true.1 hmore
        simp only [exceeds, decide_eq_true_eq] at hlt
        have hhead : (exceeds bestDot (faceDot q dir n) &&
            (n :: rest).all fun n' => decide (faceDot q dir n' ≤ faceDot q dir n)) = false := by
          rw [Bool.and_eq_false_iff]
          right
          rw [← Bool.not_eq_true, List.all_eq_true]
          intro hall
          have := hall m₀ (List.mem_cons_of_mem n hm₀)
          simp only [decide_eq_true_eq] at this
          linarith
        rw [hhead]
        simp only [cond_false]
        rw [findIdx_congr_mem rest _
          (fun m => exceeds bestDot (faceDot q dir m) &&
            (n :: rest).all fun n' => decide (faceDot q dir n' ≤ faceDot q dir m))]
        · omega
        · intro m hm
          by_cases hall : (rest.all fun n' => decide (faceDot q dir n' ≤ faceDot q dir m)) = true
          · have h1 := List.all_eq_true.1 hall m₀ hm₀
            simp only [decide_eq_true_eq] at h1
            have h2 : faceDot q dir n < faceDot q dir m := lt_of_lt_of_le hlt h1
            have h3 : exceeds bestDot (faceDot q dir m) = true := by
              cases bestDot with
              | none => rfl
              | some b =>
                simp only [exceeds, decide_eq_true_eq] at hex ⊢
                linarith
            rw [h3, List.all_cons, hall]
            simp [exceeds, h2, le_of_lt h2]
          · simp [hall]
      · rw [if_neg hmore]
        have hhead : (exceeds bestDot (faceDot q dir n) &&
            (n :: rest).all fun n' => decide (faceDot q dir n' ≤ faceDot q dir n)) = true := by
          rw [hex, Bool.true_and, List.all_eq_true]
          intro m hm
          rcases List.mem_cons.1 hm with rfl | hm
          · simp
          · simp only [decide_eq_true_eq]
            by_contra hlt
            apply hmore
            exact List.any_eq_true.2 ⟨m, hm, by simpa [exceeds] using hlt⟩
        rw [hhead]
        simp
    · rw [if_neg hex, ih]
      have hex' : exceeds bestDot (faceDot q dir n) = false := by simpa using hex
      have hany : (n :: rest).any (fun m => exceeds bestDot (faceDot q dir m)) =
          rest.any (fun m => exceeds bestDot (faceDot q dir m)) := by
        simp [hex']
      rw [hany]
      by_cases hmore : rest.any (fun m => exceeds bestDot (faceDot q dir m)) = true
      · rw [if_pos hmore, if_pos hmore, List.findIdx_cons, hex']
        simp only [Bool.false_and, cond_false]
        rw [findIdx_congr_mem rest _
          (fun m => exceeds bestDot (faceDot q dir m) &&
            (n :: rest).all fun n' => decide (faceDot q dir n' ≤ faceDot q dir m))]
        · omega
        · intro m _
          by_cases hm : exceeds bestDot (faceDot q dir m) = true
          · have hle : faceDot q dir n ≤ faceDot q dir m := by
              cases bestDot with
              | none => simp [exceeds] at hex'
              | some b =>
                simp only [exceeds, decide_eq_true_eq, decide_eq_false_iff_not, not_lt] at hex' hm
                linarith
            simp [hm, hle]
          · simp [hm]
      · rw [if_neg hmore, if_neg hmore]

/-- The function of the source picks the face of the reference definition. -/
theorem getStickerColorForDirection_eq_spec (c : Cubelet) (dir : Vec3) :
    getStickerColorForDirection c dir = stickerColorSpec c dir := by
  unfold getStickerColorForDirection stickerColorSpec mostAlignedFace
  rw [bestFace_eq]
  have : localNormals.any (fun n => exceeds none (faceDot c.quaternion dir n)) = true := by
    simp [localNormals, exceeds]
  rw [if_pos this]
  simp [exceeds]


/-- The inner loop of `isSolved` started with an expected colour: it runs
through exactly when every cubelet of the layer yields that colour. -/
theorem scanFace_some_iff (f : Face) (cs : List Cubelet) (e : ℕ) (r : Option ℕ) :
    scanFace f cs (some e) = some r ↔
      r = some e ∧ ∀ c ∈ cs, jsRound (c.position.get f.axis / SPACING) = f.idx →
        getStickerColorForDirection c f.dir = some e := by
  induction cs with
  | nil =>
    simp only [scanFace, Option.some.injEq, List.not_mem_nil, false_implies, implies_true,
      and_true]
    exact eq_comm
  | cons c rest ih =>
    simp only [scanFace, List.mem_cons, forall_eq_or_imp]
    by_cases hon : jsRound (c.position.get f.axis / SPACING) = f.idx
    · simp only [hon, ne_eq, not_true_eq_false, if_false, true_implies]
      cases hcol : getStickerColorForDirection c f.dir with
      | none => simp
      | some color =>
        by_cases hce : color = e
        · subst hce
          simp only [ne_eq, not_true_eq_false, if_false, true_and]
          exact ih
        · simp [hce]
    · simp only [ne_eq, hon, not_false_eq_true, if_true, false_implies, true_and]
      exact ih

/-- The inner loop of `isSolved` from the start of a face: it runs through with
no expected colour when the layer is empty, and with colour `e` when the layer
is non-empty and every cubelet of it yields `e`. -/
theorem scanFace_none_iff (f : Face) (cs : List Cubelet) (r : Option ℕ) :
    scanFace f cs none = some r ↔
      (r = none ∧ ∀ c ∈ cs, ¬ jsRound (c.position.get f.axis / SPACING) = f.idx) ∨
      (∃ e, r = some e ∧ (∃ c ∈ cs, jsRound (c.position.get f.axis / SPACING) = f.idx) ∧
        ∀ c ∈ cs, jsRound (c.position.get f.axis / SPACING) = f.idx →
          getStickerColorForDirection c f.dir = some e) := by
  induction cs with
  | nil =>
    simp only [scanFace, Option.some.injEq, List.not_mem_nil, false_implies, implies_true,
      and_true, false_and, exists_false, and_false, or_false]
    exact eq_comm
  | cons c rest ih =>
    simp only [scanFace, List.mem_cons, forall_eq_or_imp, exists_eq_or_imp]
    by_cases hon : jsRound (c.position.get f.axis / SPACING) = f.idx
    · simp only [hon, ne_eq, not_true_eq_false, if_false, true_implies, false_and, and_false,
        false_or, true_or, true_and]
      cases hcol : getStickerColorForDirection c f.dir with
      | none => simp
      | some color =>
        simp only [Option.some.injEq]
        rw [scanFace_some_iff]
        constructor
        · rintro ⟨hr, hall⟩
          exact ⟨color, hr, rfl, hall⟩
        · rintro ⟨e, hr, he, hall⟩
          subst he
          exact ⟨hr, hall⟩
    · simp only [ne_eq, hon, not_false_eq_true, if_true, false_implies, true_and, false_or]
      exact ih

theorem mem_faceLayer (s : CubeState) (f : Face) (c : Cubelet) :
    c ∈ faceLayer s f ↔ c ∈ s.cubelets ∧ jsRound (c.position.get f.axis / SPACING) = f.idx := by
  simp [faceLayer, List.mem_filter]

/-- What `isSolved()` computes: true exactly when no turn is active and on each
face some cubelet lies in the layer and all cubelets of the layer yield one
and the same colour. -/
theorem isSolved_eq_true_iff (s : CubeState) :
    isSolved s = true ↔
      s.activeTurn = none ∧
      ∀ f ∈ faces, ∃ e,
        (∃ c ∈ s.cubelets, jsRound (c.position.get f.axis / SPACING) = f.idx) ∧
        ∀ c ∈ s.cubelets, jsRound (c.position.get f.axis / SPACING) = f.idx →
          getStickerColorForDirection c f.dir = some e := by
  unfold isSolved
  cases hturn : s.activeTurn with
  | some t => simp
  | none =>
    simp only [List.all_eq_true, true_and]
    apply forall_congr'
    intro f
    apply imp_congr_right
    intro _
    constructor
    · intro h
      cases hscan : scanFace f s.cubelets none with
      | none => simp [hscan] at h
      | some r =>
        simp only [hscan] at h
        rcases (scanFace_none_iff f s.cubelets r).1 hscan with ⟨hr, _⟩ | ⟨e, _, hex, hall⟩
        · simp [hr] at h
        · exact ⟨e, hex, hall⟩
    · rintro ⟨e, hex, hall⟩
      have hscan : scanFace f s.cubelets none = some (some e) :=
        (scanFace_none_iff f s.cubelets (some e)).2 (Or.inr ⟨e, rfl, hex, hall⟩)
      rw [hscan]
      rfl

/-- Two cubelets of one face layer that present different colours make
`isSolved()` false. -/
theorem isSolved_false_of_mismatch (s : CubeState) (f : Face) (hf : f ∈ faces)
    (c c' : Cubelet) (hc : c ∈ s.cubelets) (hc' : c' ∈ s.cubelets)
    (hon : jsRound (c.position.get f.axis / SPACING) = f.idx)
    (hon' : jsRound (c'.position.get f.axis / SPACING) = f.idx)
    (hne : getStickerColorForDirection c f.dir ≠ getStickerColorForDirection c' f.dir) :
    isSolved s = false := by
  by_contra h
  rw [Bool.not_eq_false] at h
  obtain ⟨e, _, hall⟩ := ((isSolved_eq_true_iff s).1 h).2 f hf
  exact hne ((hall c hc hon).trans (hall c' hc' hon').symm)

/-- C8: `isSolved()` equals its reference definition: it is true exactly when
no turn is active and each of the six faces has a non-empty extreme layer
whose cubelets all yield a colour, the same one, where the colour toward a
direction is that of the first local face (+X,-X,+Y,-Y,+Z,-Z) whose rotated
normal has the maximal dot product; it is false whenever a turn is active. -/
theorem isSolved_iff_spec (s : CubeState) :
    (isSolved s = true ↔ isSolvedSpec s) ∧
    (∀ t, s.activeTurn = some t → isSolved s = false) := by
  refine ⟨?_, ?_⟩
  · rw [isSolved_eq_true_iff]
    unfold isSolvedSpec
    apply and_congr_right
    intro _
    apply forall_congr'
    intro f
    apply imp_congr_right
    intro _
    constructor
    · rintro ⟨e, ⟨c₀, hc₀, hon₀⟩, hall⟩
      refine ⟨?_, ?_, ?_⟩
      · intro hnil
        have : c₀ ∈ faceLayer s f := (mem_faceLayer s f c₀).2 ⟨hc₀, hon₀⟩
        rw [hnil] at this
        cases this
      · intro c hc
        obtain ⟨hc1, hc2⟩ := (mem_faceLayer s f c).1 hc
        rw [← getStickerColorForDirection_eq_spec, hall c hc1 hc2]
        rfl
      · intro c hc c' hc'
        obtain ⟨hc1, hc2⟩ := (mem_faceLayer s f c).1 hc
        obtain ⟨hc1', hc2'⟩ := (mem_faceLayer s f c').1 hc'
        rw [← getStickerColorForDirection_eq_spec, ← getStickerColorForDirection_eq_spec,
          hall c hc1 hc2, hall c' hc1' hc2']
    · rintro ⟨hne, hsome, hsame⟩
      obtain ⟨c₀, hc₀⟩ := List.exists_mem_of_ne_nil _ hne
      obtain ⟨hc₀1, hc₀2⟩ := (mem_faceLayer s f c₀).1 hc₀
      obtain ⟨e, he⟩ := Option.isSome_iff_exists.1 (hsome c₀ hc₀)
      refine ⟨e, ⟨c₀, hc₀1, hc₀2⟩, ?_⟩
      intro c hc hon
      rw [getStickerColorForDirection_eq_spec,
        hsame c ((mem_faceLayer s f c).2 ⟨hc, hon⟩) c₀ hc₀, he]
  · intro t ht
    simp [isSolved, ht]


/-! ## The freshly built lattice -/

theorem buildCube_eq : buildCube = gridTriples.map cubeletAt := by
  decide!

theorem faceLayer_build :
    ∀ fc ∈ List.zip faces [FACE_COLORS_px, FACE_COLORS_nx, FACE_COLORS_py,
        FACE_COLORS_ny, FACE_COLORS_pz, FACE_COLORS_nz],
      (faceLayer createRubiksCube fc.1).length = 9 ∧
      ∀ c ∈ faceLayer createRubiksCube fc.1,
        getStickerColorForDirection c fc.1.dir = some fc.2 := by
  decide!

theorem isSolved_build : isSolved createRubiksCube = true := by
  rw [isSolved_eq_true_iff]
  refine ⟨rfl, ?_⟩
  intro f hf
  have key : ∀ col, (f, col) ∈ List.zip faces [FACE_COLORS_px, FACE_COLORS_nx, FACE_COLORS_py,
      FACE_COLORS_ny, FACE_COLORS_pz, FACE_COLORS_nz] →
      ∃ e, (∃ c ∈ createRubiksCube.cubelets,
          jsRound (c.position.get f.axis / SPACING) = f.idx) ∧
        ∀ c ∈ createRubiksCube.cubelets, jsRound (c.position.get f.axis / SPACING) = f.idx →
          getStickerColorForDirection c f.dir = some e := by
    intro col hcol
    obtain ⟨hlen, hall⟩ := faceLayer_build (f, col) hcol
    refine ⟨col, ?_, ?_⟩
    · have hne : faceLayer createRubiksCube f ≠ [] := by
        intro h
        rw [h] at hlen
        cases hlen
      obtain ⟨c, hc⟩ := List.exists_mem_of_ne_nil _ hne
      exact ⟨c, (mem_faceLayer _ f c).1 hc⟩
    · intro c hc hon
      exact hall c ((mem_faceLayer _ f c).2 ⟨hc, hon⟩)
  simp only [faces, List.mem_cons, List.mem_singleton, List.not_mem_nil, or_false] at hf
  rcases hf with rfl | rfl | rfl | rfl | rfl | rfl
  · exact key FACE_COLORS_px (by simp [faces])
  · exact key FACE_COLORS_nx (by simp [faces])
  · exact key FACE_COLORS_py (by simp [faces])
  · exact key FACE_COLORS_ny (by simp [faces])
  · exact key FACE_COLORS_pz (by simp [faces])
  · exact key FACE_COLORS_nz (by simp [faces])

/-- C2: `isSolved()` is true right after `build()`; no turn is active, each of
the six extreme layers has nine cubelets and all of them present the colour
of that face toward its outward direction. -/
theorem isSolved_createRubiksCube :
    isSolved createRubiksCube = true ∧
    createRubiksCube.activeTurn = none ∧
    ∀ fc ∈ List.zip faces [FACE_COLORS_px, FACE_COLORS_nx, FACE_COLORS_py,
        FACE_COLORS_ny, FACE_COLORS_pz, FACE_COLORS_nz],
      (faceLayer createRubiksCube fc.1).length = 9 ∧
      ∀ c ∈ faceLayer createRubiksCube fc.1,
        getStickerColorForDirection c fc.1.dir = some fc.2 :=
  ⟨isSolved_build, rfl, faceLayer_build⟩

/-- C5: `build()` creates 27 cubelets, exactly one at `coord * SPACING` for
each coordinate triple of {-1,0,1}^3, and that cubelet carries on each local
face the colour of the face when its coordinate on the axis is the extreme of
that sign, and the filler colour otherwise (no face colour is the filler). -/
theorem buildCube_lattice :
    buildCube.length = 27 ∧
    INSIDE ∉ [FACE_COLORS_px, FACE_COLORS_nx, FACE_COLORS_py, FACE_COLORS_ny,
      FACE_COLORS_pz, FACE_COLORS_nz] ∧
    ∀ i ∈ gridCoords, ∀ j ∈ gridCoords, ∀ k ∈ gridCoords,
      (buildCube.filter fun c => decide (c.position =
          ⟨(i : ℚ) * SPACING, (j : ℚ) * SPACING, (k : ℚ) * SPACING⟩)).length = 1 ∧
      ∀ c ∈ buildCube,
        c.position = ⟨(i : ℚ) * SPACING, (j : ℚ) * SPACING, (k : ℚ) * SPACING⟩ →
        c.material =
          [if i = 1 then FACE_COLORS_px else INSIDE,
           if i = -1 then FACE_COLORS_nx else INSIDE,
           if j = 1 then FACE_COLORS_py else INSIDE,
           if j = -1 then FACE_COLORS_ny else INSIDE,
           if k = 1 then FACE_COLORS_pz else INSIDE,
           if k = -1 then FACE_COLORS_nz else INSIDE] := by
  decide!


/-! ## Completed turns -/

theorem HALF_PI_pos : 0 < HALF_PI := by norm_num [HALF_PI]

/-- Within 1e-4 rad of `d` quarter turns the angle rounds to `d` quarter turns. -/
theorem jsRound_near_target (d : ℤ) (c : ℚ) (h : |(d : ℚ) * HALF_PI - c| < 1 / 10000) :
    jsRound (c / HALF_PI) = d := by
  have hp := HALF_PI_pos
  rw [abs_lt] at h
  obtain ⟨h1, h2⟩ := h
  have e : c / HALF_PI = (d : ℚ) + (c - (d : ℚ) * HALF_PI) / HALF_PI := by
    field_simp
  have b1 : (c - (d : ℚ) * HALF_PI) / HALF_PI < 1 / 2 := by
    rw [div_lt_iff hp]
    norm_num [HALF_PI] at h1 h2 ⊢
    linarith
  have b2 : -(1 / 2) < (c - (d : ℚ) * HALF_PI) / HALF_PI := by
    rw [lt_div_iff hp]
    norm_num [HALF_PI] at h1 h2 ⊢
    linarith
  unfold jsRound
  rw [Int.floor_eq_iff, e]
  constructor <;> linarith

theorem jsRound_target (d : ℤ) : jsRound ((d : ℚ) * HALF_PI / HALF_PI) = d :=
  jsRound_near_target d _ (by simp)

theorem pivotMatrix_near_target (axis : Axis) (d : ℤ) (c : ℚ)
    (h : |(d : ℚ) * HALF_PI - c| < 1 / 10000) :
    pivotMatrix axis c = pivotMatrix axis ((d : ℚ) * HALF_PI) := by
  unfold pivotMatrix
  rw [jsRound_near_target d c h, jsRound_target]

/-- A committed mesh in terms of `turnCubelet`. -/
theorem turnCubelet_eq (axis : Axis) (layerIndex : JsIndex) (dir : ℤ) (c : Cubelet) :
    turnCubelet axis layerIndex dir c =
      if layerIndex.strictEq (gridIndexFromPosition (c.position.get axis)) then
        snapCubeletTransform (attachToBase axis ((dir : ℚ) * HALF_PI) c)
      else c := by
  unfold turnCubelet turnPosition turnQuaternion snapCubeletTransform attachToBase
  split_ifs <;> rfl

/-- With distinct identities, a mesh is in the selection exactly when it is in the layer. -/
theorem mem_selected_iff (cs : List Cubelet) (hid : (cs.map Cubelet.id).Nodup)
    (axis : Axis) (layerIndex : JsIndex) (m : Cubelet) (hm : m ∈ cs) :
    m.id ∈ (selectLayer cs axis layerIndex).map Cubelet.id ↔
      layerIndex.strictEq (gridIndexFromPosition (m.position.get axis)) = true := by
  constructor
  · intro h
    obtain ⟨m', hm', hid'⟩ := List.mem_map.1 h
    obtain ⟨hm'cs, hp⟩ := List.mem_filter.1 hm'
    have : m' = m := List.inj_on_of_nodup_map hid hm'cs hm hid'
    rw [← this]; exact hp
  · intro h
    exact List.mem_map.2 ⟨m, List.mem_filter.2 ⟨hm, h⟩, rfl⟩

theorem turnInv_updateTurn (req : TurnRequest) (s st : CubeState)
    (hid : (s.cubelets.map Cubelet.id).Nodup) (dt : ℚ) (h : TurnInv req s st) :
    TurnInv req s (updateTurn dt st) := by
  rcases h with ⟨hc, t, ht, hax, htg, hpv, hsel⟩ | h
  · unfold updateTurn
    simp only [ht]
    split_ifs with hdone
    · right
      unfold committed
      congr 1
      rw [hc]
      rw [htg] at hdone ⊢
      apply List.map_congr_left
      intro m hm
      rw [turnCubelet_eq, hsel, hax, hpv]
      have hpm := pivotMatrix_near_target req.axis req.dir _ hdone
      by_cases hin : req.layerIndex.strictEq (gridIndexFromPosition (m.position.get req.axis)) = true
      · rw [if_pos ((mem_selected_iff _ hid _ _ m hm).2 hin), if_pos hin]
        unfold attachToBase
        rw [hpm]
      · rw [if_neg (fun h' => hin ((mem_selected_iff _ hid _ _ m hm).1 h')), if_neg hin]
    · left
      exact ⟨hc, _, rfl, hax, htg, by simp [hpv], hsel⟩
  · right
    rw [h]
    rfl

theorem turnInv_ticks (req : TurnRequest) (s : CubeState)
    (hid : (s.cubelets.map Cubelet.id).Nodup) (dts : List ℚ) :
    ∀ st, TurnInv req s st → TurnInv req s (ticks dts st) := by
  induction dts with
  | nil => intro st h; exact h
  | cons dt dts ih =>
    intro st h
    exact ih _ (turnInv_updateTurn req s st hid dt h)

/-- A turn begun at rest and run until no turn is active leaves the committed state. -/
theorem playTurn_done (req : TurnRequest) (s : CubeState) (hs : s.activeTurn = none)
    (hid : (s.cubelets.map Cubelet.id).Nodup) (dts : List ℚ)
    (hdone : (playTurn req dts s).activeTurn = none) :
    playTurn req dts s = committed req s := by
  have h0 : TurnInv req s (beginTurn req s).2 := by
    left
    simp [beginTurn, hs]
  rcases turnInv_ticks req s hid dts _ h0 with ⟨_, t, ht, _⟩ | h
  · unfold playTurn at hdone
    rw [ht] at hdone
    cases hdone
  · exact h


/-! ## Rest positions and orientations -/

theorem SPACING_ne_zero : SPACING ≠ 0 := by norm_num [SPACING]

theorem jsRound_intCast (k : ℤ) : jsRound (k : ℚ) = k := by
  unfold jsRound
  rw [Int.floor_int_add]
  norm_num

theorem gridIndex_gridCoord (i : ℤ) : gridIndexFromPosition ((i : ℚ) * SPACING) = i := by
  unfold gridIndexFromPosition
  rw [mul_div_assoc, div_self SPACING_ne_zero, mul_one, jsRound_intCast]

theorem snapCoord_gridCoord (i : ℤ) : snapCoord ((i : ℚ) * SPACING) = (i : ℚ) * SPACING := by
  unfold snapCoord
  rw [mul_div_assoc, div_self SPACING_ne_zero, mul_one, jsRound_intCast]

theorem pivotMatrix_target (a : Axis) (d : ℤ) :
    pivotMatrix a ((d : ℚ) * HALF_PI) = rotationAbout a (cosQuarter d) (sinQuarter d) := by
  unfold pivotMatrix
  rw [jsRound_target]

theorem gridVec_get (t : ℤ × ℤ × ℤ) (a : Axis) :
    (gridVec t).get a = (tripleGet t a : ℚ) * SPACING := by
  cases a <;> rfl

theorem mem_axes (a : Axis) : a ∈ axes := by
  cases a <;> decide

theorem snapCoord_neg_gridCoord (i : ℤ) :
    snapCoord (-((i : ℚ) * SPACING)) = -((i : ℚ) * SPACING) := by
  have h := snapCoord_gridCoord (-i)
  push_cast at h
  rw [neg_mul] at h
  exact h

theorem cosQuarter_one : cosQuarter 1 = 0 := by decide!
theorem sinQuarter_one : sinQuarter 1 = 1 := by decide!
theorem cosQuarter_neg_one : cosQuarter (-1) = 0 := by decide!
theorem sinQuarter_neg_one : sinQuarter (-1) = -1 := by decide!

/-- A committed quarter turn moves a rest position as `turnCoords` moves its
coordinate triple. -/
theorem turnPosition_gridVec (a : Axis) (l d : ℤ) (hd : d ∈ turnDirs) (t : ℤ × ℤ × ℤ) :
    turnPosition a (JsIndex.num l) d (gridVec t) = gridVec (turnCoords a l d t) := by
  obtain ⟨i, j, k⟩ := t
  unfold turnPosition turnCoords
  rw [gridVec_get, gridIndex_gridCoord, pivotMatrix_target]
  simp only [JsIndex.strictEq, decide_eq_true_eq, Int.cast_inj]
  by_cases h : tripleGet (i, j, k) a = l
  · rw [if_pos h, if_pos h]
    simp only [turnDirs, List.mem_cons, List.mem_singleton, List.not_mem_nil, or_false] at hd
    rcases hd with rfl | rfl <;> cases a <;>
      simp only [rotationAbout, cosQuarter_one, sinQuarter_one, cosQuarter_neg_one,
        sinQuarter_neg_one, Mat3.apply, gridVec, one_mul, zero_mul, add_zero, zero_add,
        neg_mul, neg_neg, snapCoord_gridCoord, snapCoord_neg_gridCoord, Int.cast_neg,
        Int.cast_mul, Int.cast_one, mul_one]
  · rw [if_neg h, if_neg h]

theorem turnCoords_grid : ∀ a ∈ axes, ∀ l ∈ gridCoords, ∀ d ∈ turnDirs, ∀ t ∈ gridTriples,
    (tripleGet (turnCoords a l d t) a = l ↔ tripleGet t a = l) ∧
    turnCoords a l (-d) (turnCoords a l d t) = t := by
  decide!

theorem turnCoords_perm : ∀ a ∈ axes, ∀ l ∈ gridCoords, ∀ d ∈ turnDirs,
    (gridTriples.map (turnCoords a l d)).Perm gridTriples := by
  decide!

theorem neg_mem_turnDirs (d : ℤ) (hd : d ∈ turnDirs) : -d ∈ turnDirs := by
  simp [turnDirs] at hd ⊢
  rcases hd with rfl | rfl <;> simp

/-- A committed turn permutes the rest positions. -/
theorem turnPosition_perm (a : Axis) (l d : ℤ) (hl : l ∈ gridCoords) (hd : d ∈ turnDirs) :
    (gridPositions.map (turnPosition a (JsIndex.num l) d)).Perm gridPositions := by
  have e : gridPositions.map (turnPosition a (JsIndex.num l) d) =
      (gridTriples.map (turnCoords a l d)).map gridVec := by
    unfold gridPositions
    rw [List.map_map, List.map_map]
    apply List.map_congr_left
    intro t _
    exact turnPosition_gridVec a l d hd t
  rw [e]
  exact (turnCoords_perm a (mem_axes a) l hl d hd).map gridVec

/-- A committed turn on a rest position: the layer test gives the same answer
after the turn, and the opposite turn undoes it. -/
theorem turnPosition_grid (a : Axis) (l d : ℤ) (hl : l ∈ gridCoords) (hd : d ∈ turnDirs)
    (p : Vec3) (hp : p ∈ gridPositions) :
    (JsIndex.num l).strictEq
      (gridIndexFromPosition ((turnPosition a (JsIndex.num l) d p).get a)) =
      (JsIndex.num l).strictEq (gridIndexFromPosition (p.get a)) ∧
    turnPosition a (JsIndex.num l) (-d) (turnPosition a (JsIndex.num l) d p) = p := by
  obtain ⟨t, ht, rfl⟩ := List.mem_map.1 hp
  obtain ⟨h1, h2⟩ := turnCoords_grid a (mem_axes a) l hl d hd t ht
  rw [turnPosition_gridVec a l d hd, turnPosition_gridVec a l (-d) (neg_mem_turnDirs d hd), h2,
    gridVec_get, gridVec_get, gridIndex_gridCoord, gridIndex_gridCoord]
  refine ⟨?_, rfl⟩
  simp only [JsIndex.strictEq, Int.cast_inj]
  exact decide_eq_decide.2 h1

theorem snapQuaternion_quarterRotations : ∀ q ∈ quarterRotations, snapQuaternion q = q := by
  decide!

theorem rotationAbout_one_quarterRotations : ∀ a ∈ axes, ∀ q ∈ quarterRotations,
    (rotationAbout a 0 1).mul q ∈ quarterRotations := by
  decide!

theorem Mat3.mul_assoc (a b c : Mat3) : (a.mul b).mul c = a.mul (b.mul c) := by
  simp only [Mat3.mul, Mat3.mk.injEq]
  refine ⟨?_, ?_, ?_, ?_, ?_, ?_, ?_, ?_, ?_⟩ <;> ring

theorem Mat3.one_mul (a : Mat3) : Mat3.one.mul a = a := by
  simp [Mat3.mul, Mat3.one]

theorem rotationAbout_inverse (a : Axis) (d : ℤ) (hd : d ∈ turnDirs) :
    (rotationAbout a (cosQuarter (-d)) (sinQuarter (-d))).mul
      (rotationAbout a (cosQuarter d) (sinQuarter d)) = Mat3.one := by
  simp only [turnDirs, List.mem_cons, List.mem_singleton, List.not_mem_nil, or_false] at hd
  rcases hd with rfl | rfl <;> cases a <;>
    simp [rotationAbout, cosQuarter_one, sinQuarter_one, cosQuarter_neg_one,
      sinQuarter_neg_one, Mat3.mul, Mat3.one]

theorem rotationAbout_neg_one (a : Axis) :
    rotationAbout a 0 (-1) =
      (rotationAbout a 0 1).mul ((rotationAbout a 0 1).mul (rotationAbout a 0 1)) := by
  cases a <;> simp [rotationAbout, Mat3.mul]

theorem rotationAbout_quarterRotations (a : Axis) (d : ℤ) (hd : d ∈ turnDirs) (q : Mat3)
    (hq : q ∈ quarterRotations) :
    (rotationAbout a (cosQuarter d) (sinQuarter d)).mul q ∈ quarterRotations := by
  have h1 := rotationAbout_one_quarterRotations a (mem_axes a)
  simp only [turnDirs, List.mem_cons, List.mem_singleton, List.not_mem_nil, or_false] at hd
  rcases hd with rfl | rfl
  · rw [cosQuarter_one, sinQuarter_one]
    exact h1 q hq
  · rw [cosQuarter_neg_one, sinQuarter_neg_one, rotationAbout_neg_one, Mat3.mul_assoc,
      Mat3.mul_assoc]
    exact h1 _ (h1 _ (h1 q hq))

/-- A quarter turn of the pivot followed by snapping: the result is the turned
orientation, one of the 24, and the opposite quarter turn undoes it. -/
theorem snapQuaternion_pivot (a : Axis) (d : ℤ) (hd : d ∈ turnDirs) (q : Mat3)
    (hq : q ∈ quarterRotations) :
    snapQuaternion ((pivotMatrix a ((d : ℚ) * HALF_PI)).mul q) ∈ quarterRotations ∧
    snapQuaternion ((pivotMatrix a (((-d : ℤ) : ℚ) * HALF_PI)).mul
      (snapQuaternion ((pivotMatrix a ((d : ℚ) * HALF_PI)).mul q))) = q := by
  rw [pivotMatrix_target, pivotMatrix_target]
  have h1 := rotationAbout_quarterRotations a d hd q hq
  rw [snapQuaternion_quarterRotations _ h1]
  refine ⟨h1, ?_⟩
  rw [← Mat3.mul_assoc, rotationAbout_inverse a d hd, Mat3.one_mul]
  exact snapQuaternion_quarterRotations q hq

theorem cubeletAt_mem (t : ℤ × ℤ × ℤ) (ht : t ∈ gridTriples) : cubeletAt t ∈ buildCube := by
  rw [buildCube_eq]
  exact List.mem_map_of_mem _ ht

theorem gridTriples_ids : (gridTriples.map fun t => (cubeletAt t).id).Nodup := by
  decide!

theorem lattice_createRubiksCube : Lattice createRubiksCube := by
  unfold Lattice createRubiksCube
  simp only [buildCube_eq, List.map_map]
  refine ⟨trivial, gridTriples_ids, List.Perm.refl _, ?_⟩
  intro c hc
  obtain ⟨t, _, rfl⟩ := List.mem_map.1 hc
  show Mat3.one ∈ quarterRotations
  decide!


/-! ## Snapping absorbs the residual error of the pivot -/

theorem jsRound_near (x : ℚ) (n : ℤ) (h : |x - n| < 1 / 2) : jsRound x = n := by
  rw [abs_lt] at h
  unfold jsRound
  rw [Int.floor_eq_iff]
  constructor <;> linarith [h.1, h.2]

theorem snapAsin_near (x n : ℚ) (hn : n = 0 ∨ n = 1 ∨ n = -1) (h : |x - n| ≤ 1 / 10000) :
    snapAsin (clampUnit x) = snapAsin (clampUnit n) := by
  rw [abs_le] at h
  obtain ⟨h1, h2⟩ := h
  rcases hn with rfl | rfl | rfl
  · have e : clampUnit x = x := by
      unfold clampUnit
      rw [min_eq_right (by linarith), max_eq_right (by linarith)]
    have hx2 : x * x ≤ 1 / 4 := by nlinarith
    rw [e]
    have e0 : clampUnit 0 = 0 := by norm_num [clampUnit]
    rw [e0]
    unfold snapAsin
    rw [if_neg (by rintro ⟨_, h⟩; linarith), if_neg (by rintro ⟨_, h⟩; linarith)]
    norm_num
  · have hc : 9 / 10 ≤ clampUnit x := by
      unfold clampUnit
      exact le_max_of_le_right (le_min (by norm_num) (by linarith))
    have e1 : clampUnit 1 = 1 := by norm_num [clampUnit]
    rw [e1]
    unfold snapAsin
    rw [if_pos ⟨by linarith, by nlinarith⟩]
    norm_num
  · have hc : clampUnit x ≤ -(9 / 10) := by
      unfold clampUnit
      exact max_le (by norm_num) ((min_le_right _ _).trans (by linarith))
    have e1 : clampUnit (-1) = -1 := by norm_num [clampUnit]
    rw [e1]
    unfold snapAsin
    rw [if_neg (by rintro ⟨h, _⟩; linarith), if_pos ⟨by linarith, by nlinarith⟩]
    norm_num

theorem cosQuarter_two : cosQuarter 2 = -1 := by decide!
theorem sinQuarter_two : sinQuarter 2 = 0 := by decide!
theorem cosQuarter_neg_two : cosQuarter (-2) = -1 := by decide!
theorem sinQuarter_neg_two : sinQuarter (-2) = 0 := by decide!

/-- Near a coordinate half-axis the rounded `atan2` is that of the half-axis,
up to the two names 2 and -2 of the half turn. -/
theorem snapAtan2_near (y x ny nx : ℚ) (hn : AxisPair ny nx)
    (hy : |y - ny| ≤ 1 / 10000) (hx : |x - nx| ≤ 1 / 10000) :
    cosQuarter (snapAtan2 y x) = cosQuarter (snapAtan2 ny nx) ∧
    sinQuarter (snapAtan2 y x) = sinQuarter (snapAtan2 ny nx) := by
  rw [abs_le] at hy hx
  obtain ⟨hy1, hy2⟩ := hy
  obtain ⟨hx1, hx2⟩ := hx
  rcases hn with ⟨rfl, rfl | rfl⟩ | ⟨rfl | rfl, rfl⟩
  · have e : snapAtan2 y x = 0 := by
      unfold snapAtan2
      rw [if_neg (by rintro ⟨_, _, _⟩; linarith), if_neg (by rintro ⟨_, _, _⟩; linarith),
        if_neg (by rintro ⟨_, _, _⟩; linarith), if_neg (by rintro ⟨_, _⟩; linarith)]
    have e' : snapAtan2 0 1 = 0 := by decide!
    rw [e, e']
    exact ⟨rfl, rfl⟩
  · have e' : snapAtan2 0 (-1) = 2 := by decide!
    rw [e']
    by_cases h0 : 0 ≤ y
    · have e : snapAtan2 y x = 2 := by
        unfold snapAtan2
        rw [if_neg (by rintro ⟨_, _, _⟩; linarith), if_pos ⟨h0, by linarith, by linarith⟩]
      rw [e]
      exact ⟨rfl, rfl⟩
    · have e : snapAtan2 y x = -2 := by
        unfold snapAtan2
        rw [if_neg (by rintro ⟨_, _, _⟩; linarith), if_neg (by rintro ⟨_, _, _⟩; linarith),
          if_neg (by rintro ⟨_, _, _⟩; linarith), if_pos ⟨by linarith, by linarith⟩]
      rw [e, cosQuarter_two, sinQuarter_two, cosQuarter_neg_two, sinQuarter_neg_two]
      exact ⟨rfl, rfl⟩
  · have e : snapAtan2 y x = 1 := by
      unfold snapAtan2
      rw [if_pos ⟨by linarith, by linarith, by linarith⟩]
    have e' : snapAtan2 1 0 = 1 := by decide!
    rw [e, e']
    exact ⟨rfl, rfl⟩
  · have e : snapAtan2 y x = -1 := by
      unfold snapAtan2
      rw [if_neg (by rintro ⟨_, _, _⟩; linarith), if_neg (by rintro ⟨_, _, _⟩; linarith),
        if_pos ⟨by linarith, by linarith, by linarith⟩]
    have e' : snapAtan2 (-1) 0 = -1 := by decide!
    rw [e, e']
    exact ⟨rfl, rfl⟩


theorem setFromEuler_congr (a b c a' b' c' : ℤ)
    (ha : cosQuarter a = cosQuarter a' ∧ sinQuarter a = sinQuarter a') (hb : b = b')
    (hc : cosQuarter c = cosQuarter c' ∧ sinQuarter c = sinQuarter c') :
    setFromEuler a b c = setFromEuler a' b' c' := by
  simp only [setFromEuler, ha.1, ha.2, hb, hc.1, hc.2]

theorem abs_neg_sub_neg (x n : ℚ) : |-x - -n| = |x - n| := by
  rw [← abs_neg (x - n)]
  congr 1
  ring

/-- Snapping an orientation that is within the commit tolerance of an aligned
orientation gives the snapped aligned orientation. -/
theorem snapQuaternion_near (m n : Mat3) (h : NearMat m n) (hn : Aligned n) :
    snapQuaternion m = snapQuaternion n := by
  obtain ⟨h11, h12, h13, _, h22, h23, _, h32, h33⟩ := h
  obtain ⟨hn13, hflat, hgimbal⟩ := hn
  unfold snapQuaternion snappedEuler
  have hy := snapAsin_near m.m13 n.m13 hn13 h13.1
  by_cases h0 : n.m13 = 0
  · obtain ⟨hp1, hp2⟩ := hflat h0
    have hm : |m.m13| < 9999999 / 10000000 := by
      have := h13.1
      rw [h0, sub_zero] at this
      linarith
    have hn' : |n.m13| < 9999999 / 10000000 := by
      rw [h0]; norm_num
    rw [if_pos hm, if_pos hn']
    exact setFromEuler_congr _ _ _ _ _ _
      (snapAtan2_near _ _ _ _ hp1 (by rw [abs_neg_sub_neg]; exact h23.1) h33.1) hy
      (snapAtan2_near _ _ _ _ hp2 (by rw [abs_neg_sub_neg]; exact h12.1) h11.1)
  · have hp := hgimbal h0
    have hstrong := h13.2 h0
    rw [abs_le] at hstrong
    have hm : ¬ |m.m13| < 9999999 / 10000000 := by
      rw [abs_lt]
      rcases hn13 with h | h | h
      · exact absurd h h0
      · rw [h] at hstrong
        rintro ⟨_, h2⟩
        linarith [hstrong.1]
      · rw [h] at hstrong
        rintro ⟨h1, _⟩
        linarith [hstrong.2]
    have hn' : ¬ |n.m13| < 9999999 / 10000000 := by
      rcases hn13 with h | h | h
      · exact absurd h h0
      · rw [h]; norm_num
      · rw [h]; norm_num
    rw [if_neg hm, if_neg hn']
    exact setFromEuler_congr _ _ _ _ _ _ (snapAtan2_near _ _ _ _ hp h32.1 h22.1) hy ⟨rfl, rfl⟩

theorem quarterRotations_aligned : ∀ q ∈ quarterRotations,
    (q.m13 = 0 ∨ q.m13 = 1 ∨ q.m13 = -1) ∧
    (q.m13 = 0 → ((-q.m23 = 0 ∧ (q.m33 = 1 ∨ q.m33 = -1)) ∨
        ((-q.m23 = 1 ∨ -q.m23 = -1) ∧ q.m33 = 0)) ∧
      ((-q.m12 = 0 ∧ (q.m11 = 1 ∨ q.m11 = -1)) ∨ ((-q.m12 = 1 ∨ -q.m12 = -1) ∧ q.m11 = 0))) ∧
    (q.m13 ≠ 0 → ((q.m32 = 0 ∧ (q.m22 = 1 ∨ q.m22 = -1)) ∨
        ((q.m32 = 1 ∨ q.m32 = -1) ∧ q.m22 = 0))) := by
  decide!

theorem aligned_of_mem (q : Mat3) (hq : q ∈ quarterRotations) : Aligned q :=
  quarterRotations_aligned q hq

theorem quarterRotations_columns : ∀ q ∈ quarterRotations,
    (⟨q.m11, q.m21, q.m31⟩ : Vec3) ∈ signedUnits ∧ (⟨q.m12, q.m22, q.m32⟩ : Vec3) ∈ signedUnits ∧
    (⟨q.m13, q.m23, q.m33⟩ : Vec3) ∈ signedUnits := by
  decide!

theorem nearEntry_neg (x n : ℚ) (h : NearEntry x n) : NearEntry (-x) (-n) := by
  unfold NearEntry at h ⊢
  rw [abs_neg_sub_neg]
  exact ⟨h.1, fun hne => h.2 (fun h0 => hne (by rw [h0, neg_zero]))⟩

theorem nearEntry_zero : NearEntry 0 0 := by
  unfold NearEntry
  norm_num

/-- One entry of a product with a signed unit column. -/
theorem nearEntry_column (r1 r2 r3 n1 n2 n3 : ℚ) (h1 : NearEntry r1 n1) (h2 : NearEntry r2 n2)
    (h3 : NearEntry r3 n3) (u : Vec3) (hu : u ∈ signedUnits) :
    NearEntry (r1 * u.x + r2 * u.y + r3 * u.z) (n1 * u.x + n2 * u.y + n3 * u.z) := by
  simp only [signedUnits, List.mem_cons, List.mem_singleton, List.not_mem_nil, or_false] at hu
  rcases hu with rfl | rfl | rfl | rfl | rfl | rfl <;>
    simp only [mul_one, mul_zero, add_zero, zero_add, mul_neg, neg_zero]
  · exact h1
  · exact nearEntry_neg _ _ h1
  · exact h2
  · exact nearEntry_neg _ _ h2
  · exact h3
  · exact nearEntry_neg _ _ h3

/-- Multiplying on the right by a rotation by multiples of 90 degrees keeps
two orientations within the tolerance. -/
theorem nearMat_mul (r n q : Mat3) (h : NearMat r n) (hq : q ∈ quarterRotations) :
    NearMat (r.mul q) (n.mul q) := by
  obtain ⟨h11, h12, h13, h21, h22, h23, h31, h32, h33⟩ := h
  obtain ⟨c1, c2, c3⟩ := quarterRotations_columns q hq
  unfold NearMat
  simp only [Mat3.mul]
  exact ⟨nearEntry_column r.m11 r.m12 r.m13 n.m11 n.m12 n.m13 h11 h12 h13 ⟨q.m11, q.m21, q.m31⟩ c1,
    nearEntry_column r.m11 r.m12 r.m13 n.m11 n.m12 n.m13 h11 h12 h13 ⟨q.m12, q.m22, q.m32⟩ c2,
    nearEntry_column r.m11 r.m12 r.m13 n.m11 n.m12 n.m13 h11 h12 h13 ⟨q.m13, q.m23, q.m33⟩ c3,
    nearEntry_column r.m21 r.m22 r.m23 n.m21 n.m22 n.m23 h21 h22 h23 ⟨q.m11, q.m21, q.m31⟩ c1,
    nearEntry_column r.m21 r.m22 r.m23 n.m21 n.m22 n.m23 h21 h22 h23 ⟨q.m12, q.m22, q.m32⟩ c2,
    nearEntry_column r.m21 r.m22 r.m23 n.m21 n.m22 n.m23 h21 h22 h23 ⟨q.m13, q.m23, q.m33⟩ c3,
    nearEntry_column r.m31 r.m32 r.m33 n.m31 n.m32 n.m33 h31 h32 h33 ⟨q.m11, q.m21, q.m31⟩ c1,
    nearEntry_column r.m31 r.m32 r.m33 n.m31 n.m32 n.m33 h31 h32 h33 ⟨q.m12, q.m22, q.m32⟩ c2,
    nearEntry_column r.m31 r.m32 r.m33 n.m31 n.m32 n.m33 h31 h32 h33 ⟨q.m13, q.m23, q.m33⟩ c3⟩


/-- Snapping one coordinate of a turned rest position: the entries of the row
may be off by 1e-4 each. -/
theorem snapCoord_near (r1 r2 r3 : ℚ) (n1 n2 n3 i j k : ℤ)
    (h1 : |r1 - n1| ≤ 1 / 10000) (h2 : |r2 - n2| ≤ 1 / 10000) (h3 : |r3 - n3| ≤ 1 / 10000)
    (hi : i ∈ gridCoords) (hj : j ∈ gridCoords) (hk : k ∈ gridCoords) :
    snapCoord (r1 * ((i : ℚ) * SPACING) + r2 * ((j : ℚ) * SPACING) + r3 * ((k : ℚ) * SPACING)) =
      ((n1 * i + n2 * j + n3 * k : ℤ) : ℚ) * SPACING := by
  have hS := SPACING_ne_zero
  have e : (r1 * ((i : ℚ) * SPACING) + r2 * ((j : ℚ) * SPACING) + r3 * ((k : ℚ) * SPACING)) /
      SPACING = r1 * i + r2 * j + r3 * k := by
    rw [div_eq_iff hS]
    ring
  have key : ∀ (x : ℚ) (u : ℤ), |x| ≤ 1 / 10000 → u ∈ gridCoords → |x * (u : ℚ)| ≤ 1 / 10000 := by
    intro x u hx hu
    simp only [gridCoords, List.mem_cons, List.mem_singleton, List.not_mem_nil, or_false] at hu
    rcases hu with rfl | rfl | rfl
    · simpa using hx
    · norm_num
    · simpa using hx
  have split : r1 * i + r2 * j + r3 * k - ((n1 * i + n2 * j + n3 * k : ℤ) : ℚ) =
      (r1 - n1) * i + (r2 - n2) * j + (r3 - n3) * k := by
    push_cast
    ring
  unfold snapCoord
  rw [e, jsRound_near _ (n1 * i + n2 * j + n3 * k)]
  rw [split]
  have b := abs_add_three ((r1 - n1) * i) ((r2 - n2) * j) ((r3 - n3) * k)
  have b1 := key _ i h1 hi
  have b2 := key _ j h2 hj
  have b3 := key _ k h3 hk
  linarith

theorem mem_gridTriples (t : ℤ × ℤ × ℤ) (h : t ∈ gridTriples) :
    t.1 ∈ gridCoords ∧ t.2.1 ∈ gridCoords ∧ t.2.2 ∈ gridCoords := by
  simp only [gridTriples, List.mem_flatMap, List.mem_map] at h
  obtain ⟨i, hi, j, hj, k, hk, rfl⟩ := h
  exact ⟨hi, hj, hk⟩

/-- Snapping the position of a turned rest position: the rotation may be off by
1e-4 in each entry from the matrix with the integer entries `n`. -/
theorem snapPosition_near (r : Mat3) (n11 n12 n13 n21 n22 n23 n31 n32 n33 : ℤ)
    (h : NearMat r ⟨n11, n12, n13, n21, n22, n23, n31, n32, n33⟩) (t : ℤ × ℤ × ℤ)
    (ht : t ∈ gridTriples) :
    (⟨snapCoord (r.apply (gridVec t)).x, snapCoord (r.apply (gridVec t)).y,
      snapCoord (r.apply (gridVec t)).z⟩ : Vec3) =
    gridVec (n11 * t.1 + n12 * t.2.1 + n13 * t.2.2, n21 * t.1 + n22 * t.2.1 + n23 * t.2.2,
      n31 * t.1 + n32 * t.2.1 + n33 * t.2.2) := by
  obtain ⟨hi, hj, hk⟩ := mem_gridTriples t ht
  unfold NearMat at h
  dsimp only at h
  obtain ⟨h11, h12, h13, h21, h22, h23, h31, h32, h33⟩ := h
  simp only [Mat3.apply, gridVec]
  rw [snapCoord_near r.m11 r.m12 r.m13 n11 n12 n13 _ _ _ h11.1 h12.1 h13.1 hi hj hk,
    snapCoord_near r.m21 r.m22 r.m23 n21 n22 n23 _ _ _ h21.1 h22.1 h23.1 hi hj hk,
    snapCoord_near r.m31 r.m32 r.m33 n31 n32 n33 _ _ _ h31.1 h32.1 h33.1 hi hj hk]

theorem nearEntry_refl (x : ℚ) : NearEntry x x := by
  unfold NearEntry
  simp

theorem nearMat_refl (m : Mat3) : NearMat m m :=
  ⟨nearEntry_refl _, nearEntry_refl _, nearEntry_refl _, nearEntry_refl _, nearEntry_refl _,
    nearEntry_refl _, nearEntry_refl _, nearEntry_refl _, nearEntry_refl _⟩

/-- A pivot whose cosine is within 1e-4 of 0 and whose sine is within 1e-8 of
the direction is within the tolerance of the quarter turn. -/
theorem nearMat_rotationAbout (a : Axis) (σ c s : ℚ) (hc : |c| ≤ 1 / 10000)
    (hs : |s - σ| ≤ 1 / 100000000) :
    NearMat (rotationAbout a c s) (rotationAbout a 0 σ) := by
  have hc0 : NearEntry c 0 := ⟨by rw [sub_zero]; exact hc, fun h => absurd rfl h⟩
  have hs0 : NearEntry s σ := ⟨hs.trans (by norm_num), fun _ => hs⟩
  have hn := nearEntry_neg _ _ hs0
  cases a
  · exact ⟨nearEntry_refl _, nearEntry_refl _, nearEntry_refl _, nearEntry_refl _, hc0, hn,
      nearEntry_refl _, hs0, hc0⟩
  · exact ⟨hc0, nearEntry_refl _, hs0, nearEntry_refl _, nearEntry_refl _, nearEntry_refl _,
      hn, nearEntry_refl _, hc0⟩
  · exact ⟨hc0, hn, nearEntry_refl _, hs0, hc0, nearEntry_refl _, nearEntry_refl _,
      nearEntry_refl _, nearEntry_refl _⟩

/-- The quarter turn about an axis as a matrix of integers. -/
theorem rotationAbout_intCast (a : Axis) (d : ℤ) :
    ∃ n11 n12 n13 n21 n22 n23 n31 n32 n33 : ℤ,
      rotationAbout a 0 (d : ℚ) = ⟨n11, n12, n13, n21, n22, n23, n31, n32, n33⟩ := by
  cases a
  · exact ⟨1, 0, 0, 0, 0, -d, 0, d, 0, by simp [rotationAbout]⟩
  · exact ⟨0, 0, d, 0, 1, 0, -d, 0, 0, by simp [rotationAbout]⟩
  · exact ⟨0, -d, 0, d, 0, 0, 0, 0, 1, by simp [rotationAbout]⟩

theorem cosQuarter_turnDirs (d : ℤ) (hd : d ∈ turnDirs) :
    cosQuarter d = 0 ∧ sinQuarter d = (d : ℚ) := by
  simp only [turnDirs, List.mem_cons, List.mem_singleton, List.not_mem_nil, or_false] at hd
  rcases hd with rfl | rfl
  · exact ⟨cosQuarter_one, by rw [sinQuarter_one]; norm_num⟩
  · exact ⟨cosQuarter_neg_one, by rw [sinQuarter_neg_one]; norm_num⟩

/-- Snapping absorbs the residual error of the pivot.  When a turn is committed
the pivot is within 1e-4 rad of the quarter turn `d`, so its cosine `c` is
within 1e-4 of 0 and its sine `s` within 1e-8 of `d`.  For every such `c` and
`s`, re-attaching a cubelet of a lattice rest state from that pivot and
snapping it gives the pose that the model computes from `pivotMatrix`. -/
theorem snap_absorbs_pivot_error (a : Axis) (d : ℤ) (hd : d ∈ turnDirs) (c s : ℚ)
    (hc : |c| ≤ 1 / 10000) (hs : |s - d| ≤ 1 / 100000000) (m : Cubelet)
    (hp : m.position ∈ gridPositions) (hq : m.quaternion ∈ quarterRotations) :
    snapCubeletTransform
      { m with
        position := (rotationAbout a c s).apply m.position
        quaternion := (rotationAbout a c s).mul m.quaternion } =
    snapCubeletTransform (attachToBase a ((d : ℚ) * HALF_PI) m) := by
  obtain ⟨t, ht, hpos⟩ := List.mem_map.1 hp
  obtain ⟨hcos, hsin⟩ := cosQuarter_turnDirs d hd
  have hnear := nearMat_rotationAbout a d c s hc hs
  obtain ⟨n11, n12, n13, n21, n22, n23, n31, n32, n33, hn⟩ := rotationAbout_intCast a d
  have hal : Aligned ((rotationAbout a 0 (d : ℚ)).mul m.quaternion) := by
    have := rotationAbout_quarterRotations a d hd m.quaternion hq
    rw [hcos, hsin] at this
    exact aligned_of_mem _ this
  unfold snapCubeletTransform attachToBase
  rw [pivotMatrix_target, hcos, hsin]
  simp only
  rw [snapQuaternion_near _ _ (nearMat_mul _ _ _ hnear hq) hal, ← hpos]
  rw [hn] at hnear
  rw [snapPosition_near _ n11 n12 n13 n21 n22 n23 n31 n32 n33 hnear t ht, hn,
    snapPosition_near _ n11 n12 n13 n21 n22 n23 n31 n32 n33 (nearMat_refl _) t ht]


theorem turnCubelet_id (a : Axis) (l : JsIndex) (d : ℤ) (c : Cubelet) :
    (turnCubelet a l d c).id = c.id := rfl

theorem turnCubelet_position (a : Axis) (l : JsIndex) (d : ℤ) (c : Cubelet) :
    (turnCubelet a l d c).position = turnPosition a l d c.position := rfl

theorem turnQuaternion_grid (a : Axis) (l : JsIndex) (d : ℤ) (hd : d ∈ turnDirs)
    (p : Vec3) (q : Mat3) (hq : q ∈ quarterRotations) :
    turnQuaternion a l d p q ∈ quarterRotations := by
  unfold turnQuaternion
  split_ifs
  · exact (snapQuaternion_pivot a d hd q hq).1
  · exact hq

/-- A committed turn keeps the lattice a rest state. -/
theorem lattice_committed (s : CubeState) (hs : Lattice s) (a : Axis) (l d : ℤ)
    (hl : l ∈ gridCoords) (hd : d ∈ turnDirs) :
    Lattice (committed ⟨a, JsIndex.num l, d⟩ s) := by
  obtain ⟨_, hid, hpos, hq⟩ := hs
  refine ⟨rfl, ?_, ?_, ?_⟩
  · have : (committed ⟨a, JsIndex.num l, d⟩ s).cubelets.map Cubelet.id =
        s.cubelets.map Cubelet.id := by
      simp [committed, List.map_map, Function.comp_def, turnCubelet_id]
    rw [this]; exact hid
  · have : (committed ⟨a, JsIndex.num l, d⟩ s).cubelets.map Cubelet.position =
        (s.cubelets.map Cubelet.position).map (turnPosition a (JsIndex.num l) d) := by
      simp [committed, List.map_map, Function.comp_def, turnCubelet_position]
    rw [this]
    exact (hpos.map _).trans (turnPosition_perm a l d hl hd)
  · intro c hc
    obtain ⟨c0, hc0, rfl⟩ := List.mem_map.1 hc
    exact turnQuaternion_grid a _ d hd _ _ (hq c0 hc0)

/-- Every rest state reachable by completed turns is a lattice rest state, and
the last turn has left its committed state. -/
theorem restReachable_lattice (s : CubeState) (h : RestReachable s) : Lattice s := by
  induction h with
  | build => exact lattice_createRubiksCube
  | turn s a l d dts _ hl hd hdone ih =>
    rw [playTurn_done _ s ih.1 ih.2.1 dts hdone]
    exact lattice_committed s ih a l d hl hd

theorem lattice_position_mem (s : CubeState) (hs : Lattice s) (c : Cubelet)
    (hc : c ∈ s.cubelets) : c.position ∈ gridPositions :=
  hs.2.2.1.subset (List.mem_map_of_mem _ hc)

/-- The opposite committed turn restores a mesh of a lattice rest state. -/
theorem turnCubelet_inverse (a : Axis) (l d : ℤ) (hl : l ∈ gridCoords) (hd : d ∈ turnDirs)
    (c : Cubelet) (hp : c.position ∈ gridPositions) (hq : c.quaternion ∈ quarterRotations) :
    turnCubelet a (JsIndex.num l) (-d) (turnCubelet a (JsIndex.num l) d c) = c := by
  obtain ⟨hsel, hinv⟩ := turnPosition_grid a l d hl hd c.position hp
  obtain ⟨id, p, q, mat⟩ := c
  simp only [turnCubelet, Cubelet.mk.injEq, true_and, and_true]
  refine ⟨hinv, ?_⟩
  simp only [turnQuaternion] at hsel ⊢
  rw [hsel]
  split_ifs
  · exact (snapQuaternion_pivot a d hd q hq).2
  · rfl

theorem committed_inverse (s : CubeState) (hs : Lattice s) (a : Axis) (l d : ℤ)
    (hl : l ∈ gridCoords) (hd : d ∈ turnDirs) :
    committed ⟨a, JsIndex.num l, -d⟩ (committed ⟨a, JsIndex.num l, d⟩ s) = s := by
  obtain ⟨s_cubelets, s_turn⟩ := s
  have hnone : s_turn = none := hs.1
  subst hnone
  simp only [committed, List.map_map, CubeState.mk.injEq, and_true]
  conv_rhs => rw [← List.map_id s_cubelets]
  apply List.map_congr_left
  intro c hc
  exact turnCubelet_inverse a l d hl hd c (lattice_position_mem _ hs c hc) (hs.2.2.2 c hc)

/-! ## Claims on completed turns -/

theorem sources_mem : ∀ a ∈ axes, ∀ l ∈ gridCoords, ∀ d ∈ turnDirs,
    movedSource a l d ∈ gridTriples ∧ fixedSource a l ∈ gridTriples ∧ nextFace a ∈ faces := by
  decide!

/-- For each of the 18 turns of the built lattice: a cubelet of the turned
layer and a cubelet outside it end in the layer of the face next to the turn
axis and present different colours toward it. -/
theorem turn_mismatch : ∀ a ∈ axes, ∀ l ∈ gridCoords, ∀ d ∈ turnDirs,
    jsRound ((turnCubelet a (JsIndex.num l) d (cubeletAt (movedSource a l d))).position.get
      (nextFace a).axis / SPACING) = (nextFace a).idx ∧
    jsRound ((turnCubelet a (JsIndex.num l) d (cubeletAt (fixedSource a l))).position.get
      (nextFace a).axis / SPACING) = (nextFace a).idx ∧
    getStickerColorForDirection
      (turnCubelet a (JsIndex.num l) d (cubeletAt (movedSource a l d))) (nextFace a).dir ≠
    getStickerColorForDirection
      (turnCubelet a (JsIndex.num l) d (cubeletAt (fixedSource a l))) (nextFace a).dir := by
  decide!

/-- C3: from the freshly built lattice, one turn about any axis, of any layer
in {-1,0,1}, in either direction, begun with `beginTurn` and run by
`updateTurn` until no turn is active, leaves a state where `isSolved()` is
false. -/
theorem isSolved_false_after_turn (axis : Axis) (layer dir : ℤ) (hl : layer ∈ gridCoords)
    (hd : dir ∈ turnDirs) (dts : List ℚ)
    (hdone : (playTurn ⟨axis, JsIndex.num layer, dir⟩ dts createRubiksCube).activeTurn = none) :
    isSolved (playTurn ⟨axis, JsIndex.num layer, dir⟩ dts createRubiksCube) = false := by
  rw [playTurn_done _ _ rfl lattice_createRubiksCube.2.1 dts hdone]
  obtain ⟨hon, hon', hne⟩ := turn_mismatch axis (mem_axes axis) layer hl dir hd
  obtain ⟨hm, hm', hf⟩ := sources_mem axis (mem_axes axis) layer hl dir hd
  exact isSolved_false_of_mismatch _ (nextFace axis) hf _ _
    (List.mem_map_of_mem _ (cubeletAt_mem _ hm)) (List.mem_map_of_mem _ (cubeletAt_mem _ hm'))
    hon hon' hne

/-- The turn (x, 1, +1) of the built lattice is over after five frames of 0.033 s. -/
theorem first_turn_done :
    (playTurn ⟨Axis.x, JsIndex.num 1, 1⟩ (List.replicate 5 (33 / 1000))
      createRubiksCube).activeTurn = none := by
  decide!

/-- The turn (x, 1, -1) that follows is over after five frames of 0.033 s. -/
theorem second_turn_done :
    (playTurn ⟨Axis.x, JsIndex.num 1, -1⟩ (List.replicate 5 (33 / 1000))
      (playTurn ⟨Axis.x, JsIndex.num 1, 1⟩ (List.replicate 5 (33 / 1000))
        createRubiksCube)).activeTurn = none := by
  decide!

/-- C3, concrete case: build, turn (x, 1, +1) over five frames of 0.033 s; the
turn is over and `isSolved()` is false. -/
theorem isSolved_false_after_turn_witness :
    (playTurn ⟨Axis.x, JsIndex.num 1, 1⟩ (List.replicate 5 (33 / 1000))
      createRubiksCube).activeTurn = none ∧
    isSolved (playTurn ⟨Axis.x, JsIndex.num 1, 1⟩ (List.replicate 5 (33 / 1000))
      createRubiksCube) = false :=
  ⟨first_turn_done,
    isSolved_false_after_turn Axis.x 1 1 (by decide) (by decide) _ first_turn_done⟩


/-- C4: turn round trip.  In a rest state reachable from build, a completed
turn `(axis, layer, dir)` followed by a completed turn `(axis, layer, -dir)`
gives back the state before the pair: every cubelet has the same grid
position and presents the same colour toward each of the six world
directions, and `isSolved()` returns the same value. -/
theorem turn_round_trip (s : CubeState) (hs : RestReachable s) (axis : Axis) (layer dir : ℤ)
    (hl : layer ∈ gridCoords) (hd : dir ∈ turnDirs) (dts₁ dts₂ : List ℚ)
    (h₁ : (playTurn ⟨axis, JsIndex.num layer, dir⟩ dts₁ s).activeTurn = none)
    (h₂ : (playTurn ⟨axis, JsIndex.num layer, -dir⟩ dts₂
      (playTurn ⟨axis, JsIndex.num layer, dir⟩ dts₁ s)).activeTurn = none) :
    playTurn ⟨axis, JsIndex.num layer, -dir⟩ dts₂
      (playTurn ⟨axis, JsIndex.num layer, dir⟩ dts₁ s) = s ∧
    (playTurn ⟨axis, JsIndex.num layer, -dir⟩ dts₂
      (playTurn ⟨axis, JsIndex.num layer, dir⟩ dts₁ s)).cubelets.map
        (fun c => (gridIndexFromPosition c.position.x, gridIndexFromPosition c.position.y,
          gridIndexFromPosition c.position.z)) =
      s.cubelets.map
        (fun c => (gridIndexFromPosition c.position.x, gridIndexFromPosition c.position.y,
          gridIndexFromPosition c.position.z)) ∧
    (∀ f ∈ faces,
      (playTurn ⟨axis, JsIndex.num layer, -dir⟩ dts₂
        (playTurn ⟨axis, JsIndex.num layer, dir⟩ dts₁ s)).cubelets.map
          (fun c => getStickerColorForDirection c f.dir) =
        s.cubelets.map (fun c => getStickerColorForDirection c f.dir)) ∧
    isSolved (playTurn ⟨axis, JsIndex.num layer, -dir⟩ dts₂
      (playTurn ⟨axis, JsIndex.num layer, dir⟩ dts₁ s)) = isSolved s := by
  have hlat := restReachable_lattice s hs
  have e₁ := playTurn_done ⟨axis, JsIndex.num layer, dir⟩ s hlat.1 hlat.2.1 dts₁ h₁
  have hlat₁ := lattice_committed s hlat axis layer dir hl hd
  rw [e₁] at h₂ ⊢
  have e₂ := playTurn_done ⟨axis, JsIndex.num layer, -dir⟩ _ hlat₁.1 hlat₁.2.1 dts₂ h₂
  rw [e₂, committed_inverse s hlat axis layer dir hl hd]
  exact ⟨rfl, rfl, fun _ _ => rfl, rfl⟩

/-- C4, concrete case: build, turn (x, 1, +1), turn (x, 1, -1), each over five
frames of 0.033 s; both turns are over and `isSolved()` is true. -/
theorem turn_round_trip_witness :
    (playTurn ⟨Axis.x, JsIndex.num 1, 1⟩ (List.replicate 5 (33 / 1000))
      createRubiksCube).activeTurn = none ∧
    (playTurn ⟨Axis.x, JsIndex.num 1, -1⟩ (List.replicate 5 (33 / 1000))
      (playTurn ⟨Axis.x, JsIndex.num 1, 1⟩ (List.replicate 5 (33 / 1000))
        createRubiksCube)).activeTurn = none ∧
    isSolved (playTurn ⟨Axis.x, JsIndex.num 1, -1⟩ (List.replicate 5 (33 / 1000))
      (playTurn ⟨Axis.x, JsIndex.num 1, 1⟩ (List.replicate 5 (33 / 1000))
        createRubiksCube)) = true :=
  ⟨first_turn_done, second_turn_done,
    (turn_round_trip createRubiksCube RestReachable.build Axis.x 1 1 (by decide) (by decide)
      _ _ first_turn_done second_turn_done).2.2.2.trans isSolved_build⟩

/-! ## Rest-state invariant -/

theorem mem_gridPositions (p : Vec3) (h : p ∈ gridPositions) :
    ∃ i j k : ℤ, p = ⟨(i : ℚ) * SPACING, (j : ℚ) * SPACING, (k : ℚ) * SPACING⟩ := by
  obtain ⟨t, _, rfl⟩ := List.mem_map.1 h
  exact ⟨t.1, t.2.1, t.2.2, rfl⟩

theorem mem_quarterRotations (q : Mat3) (h : q ∈ quarterRotations) :
    ∃ kx ky kz : ℤ, q = setFromEuler kx ky kz :=
  ⟨_, _, _, (snapQuaternion_quarterRotations q h).symm⟩

theorem quarterRotations_axes : ∀ q ∈ quarterRotations, ∀ n ∈ localNormals,
    q.apply n ∈ localNormals := by
  decide!

theorem gridVec_injective : Function.Injective gridVec := by
  intro s t h
  simp only [gridVec, Vec3.mk.injEq, mul_eq_mul_right_iff, Int.cast_inj, SPACING_ne_zero,
    or_false] at h
  exact Prod.ext h.1 (Prod.ext h.2.1 h.2.2)

theorem gridPositions_nodup : gridPositions.Nodup :=
  List.Nodup.map gridVec_injective (by decide!)

theorem gridPositions_count (v : Vec3) (h : v ∈ gridPositions) : gridPositions.count v = 1 :=
  List.count_eq_one_of_mem gridPositions_nodup h

theorem length_filter_eq_count {α β : Type} [DecidableEq β] (f : α → β) (v : β) (l : List α) :
    (l.filter fun c => decide (f c = v)).length = (l.map f).count v := by
  induction l with
  | nil => rfl
  | cons a l ih =>
    by_cases h : f a = v
    · simp [List.filter_cons, h, ih]
    · simp [List.filter_cons, h, ih, List.count_cons]

/-- C6: rest-state invariant.  After build and after any finite sequence of
completed turns no turn is active, every cubelet sits at integer multiples of
SPACING, the 27 cubelets occupy each grid coordinate of {-1,0,1}^3 exactly
once, and every orientation is a composition of quarter turns about the axes
that maps each local axis to a signed world axis. -/
theorem rest_state_invariant (s : CubeState) (h : RestReachable s) :
    s.activeTurn = none ∧
    (∀ c ∈ s.cubelets, ∃ i j k : ℤ,
      c.position = ⟨(i : ℚ) * SPACING, (j : ℚ) * SPACING, (k : ℚ) * SPACING⟩) ∧
    s.cubelets.length = 27 ∧
    (∀ i ∈ gridCoords, ∀ j ∈ gridCoords, ∀ k ∈ gridCoords,
      (s.cubelets.filter fun c => decide (c.position =
        ⟨(i : ℚ) * SPACING, (j : ℚ) * SPACING, (k : ℚ) * SPACING⟩)).length = 1) ∧
    (∀ c ∈ s.cubelets,
      (∃ kx ky kz : ℤ, c.quaternion = setFromEuler kx ky kz) ∧
      ∀ n ∈ localNormals, c.quaternion.apply n ∈ localNormals) := by
  have hlat := restReachable_lattice s h
  refine ⟨hlat.1, ?_, ?_, ?_, ?_⟩
  · intro c hc
    exact mem_gridPositions _ (lattice_position_mem s hlat c hc)
  · have := hlat.2.2.1.length_eq
    rw [List.length_map] at this
    rw [this]
    decide
  · intro i hi j hj k hk
    rw [length_filter_eq_count, hlat.2.2.1.count_eq]
    apply gridPositions_count
    apply List.mem_map.2
    refine ⟨(i, j, k), ?_, rfl⟩
    simp only [gridTriples, List.mem_flatMap, List.mem_map]
    exact ⟨i, hi, j, hj, k, hk, rfl⟩
  · intro c hc
    exact ⟨mem_quarterRotations _ (hlat.2.2.2 c hc),
      quarterRotations_axes _ (hlat.2.2.2 c hc)⟩

/-- C6 at the rest state after build and turn (x, 1, +1): no turn is active and
the lattice has 27 cubelets. -/
theorem rest_state_invariant_witness :
    (playTurn ⟨Axis.x, JsIndex.num 1, 1⟩ (List.replicate 5 (33 / 1000))
      createRubiksCube).activeTurn = none ∧
    (playTurn ⟨Axis.x, JsIndex.num 1, 1⟩ (List.replicate 5 (33 / 1000))
      createRubiksCube).cubelets.length = 27 :=
  have h := rest_state_invariant _
    (RestReachable.turn _ Axis.x 1 1 (List.replicate 5 (33 / 1000)) RestReachable.build
      (by decide) (by decide) first_turn_done)
  ⟨h.1, h.2.2.1⟩


/-! ## Layer selection -/

theorem gridTriples_index : ∀ t ∈ gridTriples, ∀ a ∈ axes, tripleGet t a ∈ gridCoords := by
  decide!

theorem gridTriples_layer : ∀ a ∈ axes, ∀ i ∈ gridCoords,
    (gridTriples.filter fun t => decide (tripleGet t a = i)).length = 9 := by
  decide!

theorem gridPositions_index (p : Vec3) (hp : p ∈ gridPositions) (a : Axis) :
    gridIndexFromPosition (p.get a) ∈ gridCoords := by
  obtain ⟨t, ht, rfl⟩ := List.mem_map.1 hp
  rw [gridVec_get, gridIndex_gridCoord]
  exact gridTriples_index t ht a (mem_axes a)

theorem gridPositions_layer (a : Axis) (i : ℤ) (hi : i ∈ gridCoords) :
    (gridPositions.filter fun p =>
      (JsIndex.num (i : ℚ)).strictEq (gridIndexFromPosition (p.get a))).length = 9 := by
  unfold gridPositions
  rw [List.filter_map, List.length_map, ← gridTriples_layer a (mem_axes a) i hi]
  congr 1
  apply List.filter_congr
  intro t _
  simp [Function.comp_def, gridVec_get, gridIndex_gridCoord, JsIndex.strictEq]

/-- C9: `selectLayer` returns, in lattice order, exactly the cubelets whose
grid-rounded coordinate on the axis is the index (for any list of cubelets);
in a rest state reachable from build it returns nine cubelets for each axis
and index in {-1,0,1}, and the empty list for every number outside {-1,0,1}
and for a malformed index. -/
theorem selectLayer_layers (s : CubeState) (h : RestReachable s) (axis : Axis) :
    (∀ (cs : List Cubelet) (index : ℤ),
      selectLayer cs axis (JsIndex.num index) =
        cs.filter fun c => decide (jsRound (c.position.get axis / SPACING) = index)) ∧
    (∀ index ∈ gridCoords, (selectLayer s.cubelets axis (JsIndex.num index)).length = 9) ∧
    (∀ v : ℚ, v ≠ -1 → v ≠ 0 → v ≠ 1 → selectLayer s.cubelets axis (JsIndex.num v) = []) ∧
    selectLayer s.cubelets axis JsIndex.malformed = [] := by
  have hlat := restReachable_lattice s h
  refine ⟨?_, ?_, ?_, ?_⟩
  · intro cs index
    unfold selectLayer
    apply List.filter_congr
    intro c _
    simp [JsIndex.strictEq, gridIndexFromPosition]
  · intro index hi
    have e : (selectLayer s.cubelets axis (JsIndex.num index)).length =
        ((s.cubelets.map Cubelet.position).filter fun p =>
          (JsIndex.num (index : ℚ)).strictEq (gridIndexFromPosition (p.get axis))).length := by
      unfold selectLayer
      rw [List.filter_map, List.length_map]
      rfl
    rw [e, (hlat.2.2.1.filter _).length_eq]
    exact gridPositions_layer axis index hi
  · intro v h1 h2 h3
    unfold selectLayer
    rw [List.filter_eq_nil_iff]
    intro c hc
    have hm := gridPositions_index _ (lattice_position_mem s hlat c hc) axis
    simp only [JsIndex.strictEq, decide_eq_true_eq]
    intro hv
    simp only [gridCoords, List.mem_cons, List.mem_singleton, List.not_mem_nil, or_false] at hm
    rcases hm with hm | hm | hm <;> rw [hm] at hv <;> norm_num at hv
    · exact h1 hv.symm
    · exact h2 hv.symm
    · exact h3 hv.symm
  · unfold selectLayer
    rw [List.filter_eq_nil_iff]
    intro c _
    simp [JsIndex.strictEq]

/-- C9 at the rest state after build and turn (x, 1, +1): nine cubelets in the
layer z = 1, none in the layer of index 2. -/
theorem selectLayer_layers_witness :
    (selectLayer (playTurn ⟨Axis.x, JsIndex.num 1, 1⟩ (List.replicate 5 (33 / 1000))
      createRubiksCube).cubelets Axis.z (JsIndex.num 1)).length = 9 ∧
    selectLayer (playTurn ⟨Axis.x, JsIndex.num 1, 1⟩ (List.replicate 5 (33 / 1000))
      createRubiksCube).cubelets Axis.z (JsIndex.num 2) = [] :=
  have h := selectLayer_layers _
    (RestReachable.turn _ Axis.x 1 1 (List.replicate 5 (33 / 1000)) RestReachable.build
      (by decide) (by decide) first_turn_done) Axis.z
  ⟨h.2.1 1 (by decide), h.2.2.1 2 (by norm_num) (by norm_num) (by norm_num)⟩

/-! ## Snapping -/

theorem snapCoord_idem (v : ℚ) : snapCoord (snapCoord v) = snapCoord v :=
  snapCoord_gridCoord _

theorem cosQuarter_emod (k : ℤ) : cosQuarter (k % 4) = cosQuarter k := by
  simp [cosQuarter, Int.emod_emod_of_dvd]

theorem sinQuarter_emod (k : ℤ) : sinQuarter (k % 4) = sinQuarter k := by
  simp [sinQuarter, Int.emod_emod_of_dvd]

theorem setFromEuler_emod (a b c : ℤ) :
    setFromEuler (a % 4) (b % 4) (c % 4) = setFromEuler a b c := by
  simp only [setFromEuler, cosQuarter_emod, sinQuarter_emod]

theorem quarters_cases (k : ℤ) : k % 4 ∈ [(0 : ℤ), 1, 2, 3] := by
  have h1 : 0 ≤ k % 4 := Int.emod_nonneg k (by norm_num)
  have h2 : k % 4 < 4 := Int.emod_lt_of_pos k (by norm_num)
  simp only [List.mem_cons, List.mem_singleton]
  omega

theorem snapQuaternion_quarters : ∀ a ∈ [(0 : ℤ), 1, 2, 3], ∀ b ∈ [(0 : ℤ), 1, 2, 3],
    ∀ c ∈ [(0 : ℤ), 1, 2, 3],
    snapQuaternion (setFromEuler a b c) = setFromEuler a b c := by
  decide!

theorem snapQuaternion_setFromEuler (a b c : ℤ) :
    snapQuaternion (setFromEuler a b c) = setFromEuler a b c := by
  rw [← setFromEuler_emod]
  exact snapQuaternion_quarters _ (quarters_cases a) _ (quarters_cases b) _ (quarters_cases c)

/-- C7: snapping is idempotent.  For every cubelet pose, position and
orientation after two applications of `snapCubeletTransform` are those after
one application. -/
theorem snapCubeletTransform_idempotent (c : Cubelet) :
    snapCubeletTransform (snapCubeletTransform c) = snapCubeletTransform c := by
  unfold snapCubeletTransform
  simp only [snapCoord_idem]
  congr 1
  unfold snapQuaternion
  exact snapQuaternion_setFromEuler _ _ _

end Rubik

namespace OrbitCamera

/-! ## Orbit radius -/

theorem clamp_mem (v a b : ℚ) (h : a ≤ b) : a ≤ clamp v a b ∧ clamp v a b ≤ b := by
  unfold clamp
  exact ⟨le_max_left _ _, max_le h (min_le_left _ _)⟩

end OrbitCamera

namespace OrbitCamera.Ieee

theorem add_fin_ne_nan (r : ℚ) (v : Num) (hv : v ≠ Num.nan) : (Num.fin r).add v ≠ Num.nan := by
  cases v with
  | nan => exact absurd rfl hv
  | posInf => simp [Num.add]
  | negInf => simp [Num.add]
  | fin b =>
    simp only [Num.add, Num.ofExact]
    split_ifs <;> simp

theorem clamp_inRange (v : Num) (hv : v ≠ Num.nan) : InRange (clamp v (Num.fin 6) (Num.fin 20)) := by
  cases v with
  | nan => exact absurd rfl hv
  | posInf =>
    refine ⟨20, ?_, by norm_num, le_refl _⟩
    simp only [clamp, Num.min, Num.max]
    norm_num
  | negInf => exact ⟨6, by simp [clamp, Num.min, Num.max], le_refl _, by norm_num⟩
  | fin b =>
    by_cases h1 : (20 : ℚ) ≤ b
    · refine ⟨20, ?_, by norm_num, le_refl _⟩
      simp only [clamp, Num.min, Num.max, h1, if_true]
      norm_num
    · by_cases h2 : (6 : ℚ) ≤ b
      · refine ⟨b, ?_, h2, (not_le.mp h1).le⟩
        simp only [clamp, Num.min, Num.max, h1, h2, if_true, if_false]
      · refine ⟨6, ?_, le_refl _, by norm_num⟩
        simp only [clamp, Num.min, Num.max, h1, h2, if_false]

/-- The radius bounds are the constants 6 and 20 in every state of a run. -/
theorem run_bounds (pow : Num → Num → Num) (initialLength : Num) (inputs : List Input) :
    (run pow initialLength inputs).minRadius = Num.fin 6 ∧
    (run pow initialLength inputs).maxRadius = Num.fin 20 := by
  induction inputs using List.reverseRecOn with
  | nil => exact ⟨rfl, rfl⟩
  | append_singleton inputs i ih =>
    unfold run at ih ⊢
    rw [List.foldl_append]
    cases i <;> exact ih

theorem createOrbitCameraController_inRange (initialLength : Num) :
    InRange (createOrbitCameraController initialLength).radius := by
  unfold createOrbitCameraController
  simp only [updateCameraFromOrbit]
  apply clamp_inRange
  split_ifs with h
  · simp
  · exact fun hn => h (Or.inr hn)

set_option maxRecDepth 100000 in
/-- C10, the claim as written fails: after 251 wheel events with
`deltaY = Number.MAX_VALUE` the velocity `vRadius` is `Infinity`; `update(100)`
multiplies it by `Math.pow(0.88, 6000) = 0`, which gives NaN, and after the
next `update(0)` the radius is NaN, which `clamp` returns as it is. -/
theorem radius_nan_after_overflow :
    (run powNat (Num.fin 10)
      (List.replicate 251 (Input.wheel MAX_VALUE) ++
        [Input.frame 100, Input.frame 0])).radius = Num.nan := by
  decide!

/-- C10 amended: orbit radius bound while the zoom velocity is a number.  When
`createOrbitCameraController` has returned and after every later
`onWheel(deltaY)` and `update(dt)` with finite `deltaY` and `dt`, the radius is
finite and lies in [minRadius, maxRadius] = [6, 20], provided `orbit.vRadius`
has not become NaN at any point of the sequence; `onWheel` never changes the
radius. -/
theorem radius_bounded (pow : Num → Num → Num) (initialLength : Num) (inputs : List Input)
    (hnan : ∀ k, k ≤ inputs.length →
      (run pow initialLength (inputs.take k)).vRadius ≠ Num.nan) :
    (run pow initialLength inputs).minRadius = Num.fin 6 ∧
    (run pow initialLength inputs).maxRadius = Num.fin 20 ∧
    InRange (run pow initialLength inputs).radius ∧
    ∀ (deltaY : ℚ) (o : Orbit), (onWheel deltaY o).radius = o.radius := by
  refine ⟨(run_bounds pow initialLength inputs).1, (run_bounds pow initialLength inputs).2,
    ?_, fun _ _ => rfl⟩
  induction inputs using List.reverseRecOn with
  | nil => exact createOrbitCameraController_inRange initialLength
  | append_singleton inputs i ih =>
    have hpre : ∀ k, k ≤ inputs.length →
        (run pow initialLength (inputs.take k)).vRadius ≠ Num.nan := by
      intro k hk
      have h := hnan k (by rw [List.length_append]; omega)
      rwa [List.take_append_of_le_length hk] at h
    have ih := ih hpre
    have hv := hpre inputs.length (le_refl _)
    rw [List.take_length] at hv
    have hb := run_bounds pow initialLength inputs
    unfold run at ih hb hv ⊢
    rw [List.foldl_append]
    cases i with
    | wheel deltaY => exact ih
    | frame dt =>
      simp only [List.foldl_cons, List.foldl_nil, step, update, updateCameraFromOrbit]
      rw [hb.1, hb.2]
      obtain ⟨r, hr, _, _⟩ := ih
      rw [hr]
      exact clamp_inRange _ (add_fin_ne_nan r _ hv)

/-- C10 amended, concrete case: a wheel event with `deltaY = 100` and a frame of
1/60 s from the initial distance 10; the radius is finite and in [6, 20]. -/
theorem radius_bounded_witness :
    InRange (run powNat (Num.fin 10) [Input.wheel 100, Input.frame (1 / 60)]).radius :=
  (radius_bounded powNat (Num.fin 10) [Input.wheel 100, Input.frame (1 / 60)]
    (fun k hk => by
      have hk2 : k ≤ 2 := hk
      interval_cases k <;> decide!)).2.2.1

end OrbitCamera.Ieee

/-! ## Turn progress, completion, frame -/

namespace Rubik

theorem jsSign_mul_abs (v : ℚ) : jsSign v * |v| = v := by
  unfold jsSign
  split_ifs with h1 h2
  · rw [abs_of_pos h1, one_mul]
  · rw [abs_of_neg h2]; ring
  · have : v = 0 := le_antisymm (not_lt.1 h1) (not_lt.1 h2)
    rw [this]; simp

theorem abs_jsSign_le (v : ℚ) : |jsSign v| ≤ 1 := by
  unfold jsSign
  split_ifs <;> simp

theorem jsSign_sq (v : ℚ) (h : v ≠ 0) : jsSign v * jsSign v = 1 := by
  unfold jsSign
  split_ifs with h1 h2
  · norm_num
  · norm_num
  · exact absurd (le_antisymm (not_lt.1 h1) (not_lt.1 h2)) h

theorem turnStep_nonneg (t : Turn) (dt : ℚ) (hdt : 0 ≤ dt) (hsp : 0 ≤ t.speed) :
    0 ≤ turnStep t dt :=
  le_min (abs_nonneg _) (mul_nonneg hsp hdt)

theorem turnStep_le (t : Turn) (dt : ℚ) : turnStep t dt ≤ |t.target - t.current| :=
  min_le_left _ _

/-- The remaining angle after the progress is advanced: it shrinks by `step`
and keeps its sign. -/
theorem remaining_next (t : Turn) (dt : ℚ) :
    t.target - nextCurrent t dt =
      jsSign (t.target - t.current) * (|t.target - t.current| - turnStep t dt) := by
  unfold nextCurrent turnDelta
  have h := jsSign_mul_abs (t.target - t.current)
  linear_combination -h

theorem abs_remaining_next (t : Turn) (dt : ℚ) (hdt : 0 ≤ dt) (hsp : 0 ≤ t.speed) :
    |t.target - nextCurrent t dt| = |t.target - t.current| - turnStep t dt := by
  rw [remaining_next]
  have hle := turnStep_le t dt
  by_cases h0 : t.target - t.current = 0
  · have hs : turnStep t dt = 0 := by
      have h1 := turnStep_nonneg t dt hdt hsp
      rw [h0, abs_zero] at hle
      exact le_antisymm hle h1
    rw [h0, hs]
    simp [jsSign]
  · rw [abs_mul, abs_of_nonneg (sub_nonneg.2 hle)]
    have : |jsSign (t.target - t.current)| = 1 := by
      have := jsSign_sq _ h0
      have h2 : |jsSign (t.target - t.current)| * |jsSign (t.target - t.current)| = 1 := by
        rw [← abs_mul, this, abs_one]
      nlinarith [abs_nonneg (jsSign (t.target - t.current))]
    rw [this, one_mul]

theorem abs_turnDelta (t : Turn) (dt : ℚ) (hdt : 0 ≤ dt) (hsp : 0 ≤ t.speed) :
    |nextCurrent t dt - t.current| = turnStep t dt := by
  unfold nextCurrent turnDelta
  rw [add_sub_cancel_left]
  have hs := turnStep_nonneg t dt hdt hsp
  have hle := turnStep_le t dt
  by_cases h0 : t.target - t.current = 0
  · have : turnStep t dt = 0 := by
      rw [h0, abs_zero] at hle
      exact le_antisymm hle hs
    rw [this]; simp
  · rw [abs_mul, abs_of_nonneg hs]
    have : |jsSign (t.target - t.current)| = 1 := by
      have := jsSign_sq _ h0
      have h2 : |jsSign (t.target - t.current)| * |jsSign (t.target - t.current)| = 1 := by
        rw [← abs_mul, this, abs_one]
      nlinarith [abs_nonneg (jsSign (t.target - t.current))]
    rw [this, mul_one]

theorem between_next (t : Turn) (dt : ℚ) (hdt : 0 ≤ dt) (hsp : 0 ≤ t.speed)
    (h : Between t.target t.current) : Between t.target (nextCurrent t dt) := by
  have hs := turnStep_nonneg t dt hdt hsp
  have hle := turnStep_le t dt
  unfold Between at h ⊢
  unfold nextCurrent turnDelta jsSign
  rcases h with ⟨h1, h2⟩ | ⟨h1, h2⟩
  · left
    rw [abs_of_nonneg (sub_nonneg.2 h2)] at hle
    split_ifs with p1 p2
    · constructor <;> linarith
    · linarith
    · constructor <;> linarith
  · right
    rw [abs_of_nonpos (sub_nonpos.2 h1)] at hle
    split_ifs with p1 p2
    · linarith
    · constructor <;> linarith
    · constructor <;> linarith

/-- What `updateTurn(dt)` does to a state with the active turn `t`. -/
theorem updateTurn_active (s : CubeState) (t : Turn) (h : s.activeTurn = some t) (dt : ℚ) :
    updateTurn dt s =
      if |t.target - nextCurrent t dt| < 1 / 10000 then
        { cubelets := s.cubelets.map fun m =>
            if m.id ∈ t.selected then
              snapCubeletTransform (attachToBase t.axis (t.pivot + turnDelta t dt) m)
            else m
          activeTurn := none }
      else
        { s with
          activeTurn := some
            { t with current := nextCurrent t dt, pivot := t.pivot + turnDelta t dt } } := by
  unfold updateTurn
  simp only [h]
  rfl

end Rubik

namespace Rubik

/-- Invariant of a turn begun by `beginTurn` under frames of non-negative
length: target `dir * π/2`, speed 10, progress between 0 and the target. -/
theorem progress_ticks (req : TurnRequest) (dts : List ℚ) (hdts : ∀ d ∈ dts, 0 ≤ d) :
    ∀ st : CubeState,
      (∀ t, st.activeTurn = some t →
        t.target = (req.dir : ℚ) * HALF_PI ∧ t.speed = 10 ∧ Between t.target t.current) →
      ∀ t, (ticks dts st).activeTurn = some t →
        t.target = (req.dir : ℚ) * HALF_PI ∧ t.speed = 10 ∧ Between t.target t.current := by
  induction dts with
  | nil => intro st h; exact h
  | cons d dts ih =>
    intro st h
    have hd : 0 ≤ d := hdts d (List.mem_cons_self d dts)
    apply ih (fun e he => hdts e (List.mem_cons_of_mem d he)) (updateTurn d st)
    intro t' ht'
    cases hst : st.activeTurn with
    | none =>
      have : updateTurn d st = st := by
        unfold updateTurn
        simp only [hst]
      rw [this, hst] at ht'
      cases ht'
    | some t =>
      obtain ⟨h1, h2, h3⟩ := h t hst
      rw [updateTurn_active st t hst d] at ht'
      split_ifs at ht' with hc
      cases ht'
      exact ⟨h1, h2, between_next t d hd (by rw [h2]; norm_num) h3⟩

theorem progress_playTurn (req : TurnRequest) (s : CubeState) (hs : s.activeTurn = none)
    (dts : List ℚ) (hdts : ∀ d ∈ dts, 0 ≤ d) (t : Turn)
    (ht : (playTurn req dts s).activeTurn = some t) :
    t.target = (req.dir : ℚ) * HALF_PI ∧ t.speed = 10 ∧ Between t.target t.current := by
  apply progress_ticks req dts hdts (beginTurn req s).2 _ t ht
  intro t0 ht0
  simp only [beginTurn, hs] at ht0
  cases ht0
  refine ⟨rfl, rfl, ?_⟩
  unfold Between
  simp only [le_refl, and_true, true_and]
  exact le_total _ _

/-- C17: turn progress never overshoots.  For a turn begun by `beginTurn` and
still active after frames of non-negative length (target `dir * π/2`, speed
10, progress between 0 and the target), `updateTurn(dt)` with `dt ≥ 0` moves
the progress toward the target by exactly `min(|target - current|, speed *
dt)`; the remaining angle shrinks by that amount, the progress stays between
0 and the target, and the turn is committed (no active turn, the selected
cubelets re-attached and snapped) exactly when the remaining angle after the
step is below 1e-4; otherwise the turn stays active with the new progress and
the cubelets untouched. -/
theorem updateTurn_no_overshoot (req : TurnRequest) (s₀ : CubeState)
    (hs₀ : s₀.activeTurn = none) (dts : List ℚ) (hdts : ∀ d ∈ dts, 0 ≤ d) (t : Turn)
    (ht : (playTurn req dts s₀).activeTurn = some t) (dt : ℚ) (hdt : 0 ≤ dt) :
    t.target = (req.dir : ℚ) * HALF_PI ∧ t.speed = 10 ∧ Between t.target t.current ∧
    |nextCurrent t dt - t.current| = min |t.target - t.current| (t.speed * dt) ∧
    0 ≤ (nextCurrent t dt - t.current) * (t.target - t.current) ∧
    |t.target - nextCurrent t dt| =
      |t.target - t.current| - min |t.target - t.current| (t.speed * dt) ∧
    |t.target - nextCurrent t dt| ≤ |t.target - t.current| ∧
    Between t.target (nextCurrent t dt) ∧
    ((updateTurn dt (playTurn req dts s₀)).activeTurn = none ↔
      |t.target - nextCurrent t dt| < 1 / 10000) ∧
    (|t.target - nextCurrent t dt| < 1 / 10000 →
      updateTurn dt (playTurn req dts s₀) =
        { cubelets := (playTurn req dts s₀).cubelets.map fun m =>
            if m.id ∈ t.selected then
              snapCubeletTransform (attachToBase t.axis (t.pivot + turnDelta t dt) m)
            else m
          activeTurn := none }) ∧
    (¬ |t.target - nextCurrent t dt| < 1 / 10000 →
      updateTurn dt (playTurn req dts s₀) =
        { playTurn req dts s₀ with
          activeTurn := some
            { t with current := nextCurrent t dt, pivot := t.pivot + turnDelta t dt } }) := by
  obtain ⟨h1, h2, h3⟩ := progress_playTurn req s₀ hs₀ dts hdts t ht
  have hsp : 0 ≤ t.speed := by rw [h2]; norm_num
  have hstep := turnStep_nonneg t dt hdt hsp
  have hupd := updateTurn_active _ t ht dt
  refine ⟨h1, h2, h3, abs_turnDelta t dt hdt hsp, ?_, abs_remaining_next t dt hdt hsp, ?_,
    between_next t dt hdt hsp h3, ?_, ?_, ?_⟩
  · have e : (nextCurrent t dt - t.current) * (t.target - t.current) =
        turnStep t dt * (jsSign (t.target - t.current) * (t.target - t.current)) := by
      unfold nextCurrent turnDelta
      ring
    rw [e]
    apply mul_nonneg hstep
    unfold jsSign
    split_ifs with p1 p2
    · linarith
    · nlinarith
    · simp
  · rw [abs_remaining_next t dt hdt hsp]
    linarith
  · rw [hupd]
    split_ifs with hc
    · exact ⟨fun _ => hc, fun _ => rfl⟩
    · constructor
      · intro h; cases h
      · intro h; exact absurd h hc
  · intro hc
    rw [hupd, if_pos hc]
  · intro hc
    rw [hupd, if_neg hc]

theorem ticks_idle (dts : List ℚ) (s : CubeState) (hs : s.activeTurn = none) :
    ticks dts s = s := by
  induction dts with
  | nil => rfl
  | cons d dts ih =>
    have : updateTurn d s = s := by
      unfold updateTurn
      simp only [hs]
    show ticks dts (updateTurn d s) = s
    rw [this, ih]

theorem ticks_replicate_succ (n : ℕ) (dt : ℚ) (s : CubeState) :
    ticks (List.replicate (n + 1) dt) s = ticks (List.replicate n dt) (updateTurn dt s) := rfl

/-- Frames of length `dt > 0` end a turn of speed 10 whose remaining angle is
at most `(m + 1) * 10 * dt` within `m + 1` frames. -/
theorem ticks_replicate_done (dt : ℚ) (hdt : 0 < dt) (m : ℕ) :
    ∀ st : CubeState,
      (∀ t, st.activeTurn = some t →
        t.speed = 10 ∧ |t.target - t.current| ≤ ((m : ℚ) + 1) * (10 * dt)) →
      (ticks (List.replicate (m + 1) dt) st).activeTurn = none := by
  induction m with
  | zero =>
    intro st h
    rw [ticks_replicate_succ]
    show (updateTurn dt st).activeTurn = none
    cases hst : st.activeTurn with
    | none =>
      unfold updateTurn
      simp only [hst]
    | some t =>
      obtain ⟨h1, h2⟩ := h t hst
      rw [updateTurn_active st t hst dt]
      have hsp : 0 ≤ t.speed := by rw [h1]; norm_num
      have hs : turnStep t dt = |t.target - t.current| := by
        unfold turnStep
        rw [h1]
        apply min_eq_left
        simpa using h2
      have hrem := abs_remaining_next t dt hdt.le hsp
      rw [hs, sub_self] at hrem
      rw [if_pos (by rw [hrem]; norm_num)]
  | succ m ih =>
    intro st h
    rw [ticks_replicate_succ]
    cases hst : st.activeTurn with
    | none =>
      have : updateTurn dt st = st := by
        unfold updateTurn
        simp only [hst]
      rw [this, ticks_idle _ _ hst, hst]
    | some t =>
      obtain ⟨h1, h2⟩ := h t hst
      have hsp : 0 ≤ t.speed := by rw [h1]; norm_num
      rw [updateTurn_active st t hst dt]
      split_ifs with hc
      · rw [ticks_idle _ _ rfl]
      · apply ih
        intro t' ht'
        cases ht'
        refine ⟨h1, ?_⟩
        show |t.target - nextCurrent t dt| ≤ _
        have hrem := abs_remaining_next t dt hdt.le hsp
        rw [hrem]
        rw [hrem] at hc
        have hstep : turnStep t dt = 10 * dt := by
          unfold turnStep
          rw [h1]
          apply min_eq_right
          by_contra hlt
          rw [not_le] at hlt
          apply hc
          have : turnStep t dt = |t.target - t.current| := by
            unfold turnStep
            rw [h1]
            exact min_eq_left hlt.le
          rw [this, sub_self]
          norm_num
        rw [hstep]
        push_cast at h2 ⊢
        linarith

theorem abs_target_turnDirs (d : ℤ) (hd : d ∈ turnDirs) : |(d : ℚ) * HALF_PI| = HALF_PI := by
  have hp := HALF_PI_pos
  simp only [turnDirs, List.mem_cons, List.mem_singleton, List.not_mem_nil, or_false] at hd
  rcases hd with rfl | rfl
  · simp [abs_of_pos hp]
  · simp [abs_of_pos hp]

/-- A turn begun at rest in direction ±1 is over after `n` frames of length
`dt > 0` as soon as `n * 10 * dt` reaches `Math.PI / 2`. -/
theorem playTurn_replicate_done (req : TurnRequest) (hd : req.dir ∈ turnDirs) (s : CubeState)
    (hs : s.activeTurn = none) (dt : ℚ) (hdt : 0 < dt) (n : ℕ)
    (hn : HALF_PI ≤ (n : ℚ) * (10 * dt)) :
    (playTurn req (List.replicate n dt) s).activeTurn = none := by
  have hp := HALF_PI_pos
  cases n with
  | zero =>
    simp at hn
    linarith
  | succ m =>
    apply ticks_replicate_done dt hdt m
    intro t ht
    simp only [beginTurn, hs] at ht
    cases ht
    refine ⟨rfl, ?_⟩
    show |(req.dir : ℚ) * HALF_PI - 0| ≤ _
    rw [sub_zero, abs_target_turnDirs _ hd]
    push_cast at hn
    exact hn

end Rubik

namespace Rubik

/-- C17 at the built lattice: the turn (x, 1, +1) right after `beginTurn`; a
frame of 0.033 s keeps the progress between 0 and the target and does not
commit the turn. -/
theorem updateTurn_no_overshoot_witness :
    ∃ t : Turn,
      (playTurn ⟨Axis.x, JsIndex.num 1, 1⟩ [] createRubiksCube).activeTurn = some t ∧
      Between t.target (nextCurrent t (33 / 1000)) ∧
      |nextCurrent t (33 / 1000) - t.current| =
        min |t.target - t.current| (t.speed * (33 / 1000)) :=
  ⟨_, rfl,
    (updateTurn_no_overshoot ⟨Axis.x, JsIndex.num 1, 1⟩ createRubiksCube rfl []
      (fun _ h => absurd h (List.not_mem_nil _)) _ rfl (33 / 1000) (by norm_num)).2.2.2.2.2.2.2.1,
    (updateTurn_no_overshoot ⟨Axis.x, JsIndex.num 1, 1⟩ createRubiksCube rfl []
      (fun _ h => absurd h (List.not_mem_nil _)) _ rfl (33 / 1000) (by norm_num)).2.2.2.1⟩

end Rubik

namespace Rubik

theorem HALF_PI_le_pi : ((HALF_PI : ℚ) : ℝ) ≤ Real.pi / 2 := by
  have h := Real.pi_gt_d20
  unfold HALF_PI
  push_cast
  norm_num at h ⊢
  linarith

/-- C18, the claim as written fails: `beginTurn` accepts the direction 2 (it
checks no direction), and the turn is still active after five frames of
0.033 s, although five is at least the ceiling of `(π / 2) / (10 * 0.033)`. -/
theorem turn_dir_two_still_active :
    (beginTurn ⟨Axis.x, JsIndex.num 1, 2⟩ createRubiksCube).1 = true ∧
    ⌈Real.pi / 2 / (10 * (33 / 1000))⌉₊ ≤ 5 ∧
    (playTurn ⟨Axis.x, JsIndex.num 1, 2⟩ (List.replicate 5 (33 / 1000))
      createRubiksCube).activeTurn.isSome = true := by
  refine ⟨rfl, ?_, by decide!⟩
  apply Nat.ceil_le.2
  have h := Real.pi_lt_315
  rw [div_le_iff (by norm_num)]
  norm_num
  linarith

/-- C18 amended: a started turn with direction ±1 runs to completion.  A request
with direction +1 or -1 made at rest is accepted, and for every frame length
`dt` of at least a nanosecond no turn is active after `n` calls of
`updateTurn(dt)` as soon as `n` reaches the ceiling of
`(Math.PI / 2) / (10 * dt)`, hence as soon as it reaches
`(π / 2) / (10 * dt)`; while a turn is active `reset` and `beginTurn` leave
the state as it is, so only the commit of `updateTurn` ends a turn. -/
theorem turn_runs_to_completion (req : TurnRequest) (hd : req.dir ∈ turnDirs) (s : CubeState)
    (hs : s.activeTurn = none) (dt : ℚ) (hlow : 1 / 1000000000 ≤ dt) :
    (beginTurn req s).1 = true ∧
    (∃ t, (beginTurn req s).2.activeTurn = some t) ∧
    (∀ n : ℕ, ⌈HALF_PI / (10 * dt)⌉₊ ≤ n →
      (playTurn req (List.replicate n dt) s).activeTurn = none) ∧
    (∀ n : ℕ, Real.pi / 2 / (10 * (dt : ℝ)) ≤ n →
      (playTurn req (List.replicate n dt) s).activeTurn = none) ∧
    (∀ (s' : CubeState) (t : Turn), s'.activeTurn = some t →
      reset s' = s' ∧ ∀ r, beginTurn r s' = (false, s')) := by
  have hdt : 0 < dt := lt_of_lt_of_le (by norm_num) hlow
  have h10 : 0 < 10 * dt := by linarith
  refine ⟨by simp [beginTurn, hs], by simp [beginTurn, hs], ?_, ?_, ?_⟩
  · intro n hn
    apply playTurn_replicate_done req hd s hs dt hdt n
    have := Nat.ceil_le.1 hn
    rw [div_le_iff h10] at this
    exact this
  · intro n hn
    apply playTurn_replicate_done req hd s hs dt hdt n
    have h10r : (0 : ℝ) < 10 * (dt : ℝ) := by exact_mod_cast h10
    rw [div_le_iff h10r] at hn
    have h := HALF_PI_le_pi.trans hn
    exact_mod_cast h
  · intro s' t ht
    exact ⟨by simp [reset, ht], fun r => by simp [beginTurn, ht]⟩

/-- C18 amended, at the built lattice: the turn (y, -1, -1) is over after five
frames of 0.033 s, the ceiling of `(Math.PI / 2) / 0.33`. -/
theorem turn_runs_to_completion_witness :
    (playTurn ⟨Axis.y, JsIndex.num (-1), -1⟩ (List.replicate 5 (33 / 1000))
      createRubiksCube).activeTurn = none :=
  (turn_runs_to_completion ⟨Axis.y, JsIndex.num (-1), -1⟩ (by decide) createRubiksCube rfl
    (33 / 1000) (by norm_num)).2.2.1 5
    (Nat.ceil_le.2 (by norm_num [HALF_PI]))

/-- C15: `reset()` is rejected while a turn is active: the state (lattice and
active turn) stays as it is; at rest it rebuilds the lattice, the state is the
freshly built one whatever it was before, and `isSolved()` is true. -/
theorem reset_guard (s : CubeState) :
    (∀ t, s.activeTurn = some t → reset s = s) ∧
    (s.activeTurn = none → reset s = createRubiksCube ∧ isSolved (reset s) = true) := by
  refine ⟨?_, ?_⟩
  · intro t ht
    simp [reset, ht]
  · intro hs
    have e : reset s = createRubiksCube := by
      obtain ⟨cs, turn⟩ := s
      simp only at hs
      subst hs
      rfl
    exact ⟨e, by rw [e]; exact isSolved_build⟩

end Rubik

namespace Rubik

/-- A committed turn keeps the coordinate of a rest position on the turn axis. -/
theorem turnPosition_get_axis (a : Axis) (l : JsIndex) (d : ℤ) (p : Vec3)
    (hp : p ∈ gridPositions) : (turnPosition a l d p).get a = p.get a := by
  obtain ⟨t, _, rfl⟩ := List.mem_map.1 hp
  unfold turnPosition
  split_ifs
  · cases a <;>
      simp only [pivotMatrix, rotationAbout, Mat3.apply, Vec3.get, gridVec, one_mul, zero_mul,
        add_zero, zero_add, snapCoord_gridCoord]
  · rfl

/-- The identities and face colours of the cubelets are those of `buildCube`
in every rest state reachable from build. -/
theorem restReachable_materials (s : CubeState) (h : RestReachable s) :
    s.cubelets.map (fun c => (c.id, c.material)) =
      buildCube.map (fun c => (c.id, c.material)) := by
  induction h with
  | build => rfl
  | turn s a l d dts hreach _ _ hdone ih =>
    have hlat := restReachable_lattice s hreach
    rw [playTurn_done _ s hlat.1 hlat.2.1 dts hdone, ← ih]
    simp only [committed, List.map_map]
    apply List.map_congr_left
    intro c _
    rfl

/-- C19: frame of a turn.  In a rest state reachable from build, after a turn
`(axis, layerIndex, dir)` has completed the cubelets correspond one to one, in
lattice order, to those before: each keeps its identity and face colours, a
cubelet whose grid-rounded coordinate on the turn axis is not the layer index
has the position and orientation it had, and a selected cubelet keeps its
coordinate on the turn axis.  The face colours are those given by build. -/
theorem turn_frame (s : CubeState) (hs : RestReachable s) (req : TurnRequest) (dts : List ℚ)
    (hdone : (playTurn req dts s).activeTurn = none) :
    List.Forall₂
      (fun c c' =>
        c'.id = c.id ∧ c'.material = c.material ∧
        (req.layerIndex.strictEq (gridIndexFromPosition (c.position.get req.axis)) = false →
          c'.position = c.position ∧ c'.quaternion = c.quaternion) ∧
        (req.layerIndex.strictEq (gridIndexFromPosition (c.position.get req.axis)) = true →
          c'.position.get req.axis = c.position.get req.axis))
      s.cubelets (playTurn req dts s).cubelets ∧
    (playTurn req dts s).cubelets.map (fun c => (c.id, c.material)) =
      buildCube.map (fun c => (c.id, c.material)) := by
  have hlat := restReachable_lattice s hs
  have hm := restReachable_materials s hs
  rw [playTurn_done req s hlat.1 hlat.2.1 dts hdone]
  refine ⟨?_, ?_⟩
  · simp only [committed]
    rw [List.forall₂_map_right_iff, List.forall₂_same]
    intro c hc
    refine ⟨rfl, rfl, ?_, ?_⟩
    · intro hsel
      simp only [turnCubelet, turnPosition, turnQuaternion, hsel]
      exact ⟨rfl, rfl⟩
    · intro _
      exact turnPosition_get_axis _ _ _ _ (lattice_position_mem s hlat c hc)
  · rw [← hm]
    simp only [committed, List.map_map]
    apply List.map_congr_left
    intro c _
    rfl

/-- C19 at the built lattice and the turn (x, 1, +1) over five frames of 0.033 s:
the state after the turn has the identities and face colours of build. -/
theorem turn_frame_witness :
    (playTurn ⟨Axis.x, JsIndex.num 1, 1⟩ (List.replicate 5 (33 / 1000))
      createRubiksCube).cubelets.map (fun c => (c.id, c.material)) =
      buildCube.map (fun c => (c.id, c.material)) :=
  (turn_frame createRubiksCube RestReachable.build ⟨Axis.x, JsIndex.num 1, 1⟩ _
    first_turn_done).2

/-! ## Four quarter turns -/

theorem turnCoords_four : ∀ a ∈ axes, ∀ l ∈ gridCoords, ∀ d ∈ turnDirs, ∀ t ∈ gridTriples,
    turnCoords a l d t ∈ gridTriples ∧
    turnCoords a l d (turnCoords a l d (turnCoords a l d (turnCoords a l d t))) = t := by
  decide!

theorem rotationAbout_four (a : Axis) (d : ℤ) (hd : d ∈ turnDirs) (q : Mat3) :
    (rotationAbout a (cosQuarter d) (sinQuarter d)).mul
      ((rotationAbout a (cosQuarter d) (sinQuarter d)).mul
        ((rotationAbout a (cosQuarter d) (sinQuarter d)).mul
          ((rotationAbout a (cosQuarter d) (sinQuarter d)).mul q))) = q := by
  simp only [turnDirs, List.mem_cons, List.mem_singleton, List.not_mem_nil, or_false] at hd
  obtain ⟨q11, q12, q13, q21, q22, q23, q31, q32, q33⟩ := q
  rcases hd with rfl | rfl <;> cases a <;>
    simp [rotationAbout, cosQuarter_one, sinQuarter_one, cosQuarter_neg_one,
      sinQuarter_neg_one, Mat3.mul]

/-- A committed turn on a cubelet of a lattice rest state, in coordinates. -/
theorem turnCubelet_lattice (a : Axis) (l d : ℤ) (hd : d ∈ turnDirs) (id : ℕ)
    (t : ℤ × ℤ × ℤ) (q : Mat3) (hq : q ∈ quarterRotations) (mat : List ℕ) :
    turnCubelet a (JsIndex.num l) d ⟨id, gridVec t, q, mat⟩ =
      ⟨id, gridVec (turnCoords a l d t),
        if tripleGet t a = l then (rotationAbout a (cosQuarter d) (sinQuarter d)).mul q else q,
        mat⟩ := by
  simp only [turnCubelet, turnPosition_gridVec a l d hd, Cubelet.mk.injEq, true_and, and_true]
  unfold turnQuaternion
  rw [gridVec_get, gridIndex_gridCoord, pivotMatrix_target]
  simp only [JsIndex.strictEq, decide_eq_true_eq, Int.cast_inj]
  split_ifs
  · exact snapQuaternion_quarterRotations _ (rotationAbout_quarterRotations a d hd q hq)
  · rfl

/-- Four equal committed turns restore a cubelet of a lattice rest state. -/
theorem turnCubelet_four (a : Axis) (l d : ℤ) (hl : l ∈ gridCoords) (hd : d ∈ turnDirs)
    (c : Cubelet) (hp : c.position ∈ gridPositions) (hq : c.quaternion ∈ quarterRotations) :
    turnCubelet a (JsIndex.num l) d (turnCubelet a (JsIndex.num l) d
      (turnCubelet a (JsIndex.num l) d (turnCubelet a (JsIndex.num l) d c))) = c := by
  obtain ⟨id, p, q, mat⟩ := c
  obtain ⟨t, ht, rfl⟩ := List.mem_map.1 hp
  have ha := mem_axes a
  have m1 := (turnCoords_four a ha l hl d hd t ht).1
  have m2 := (turnCoords_four a ha l hl d hd _ m1).1
  have m3 := (turnCoords_four a ha l hl d hd _ m2).1
  have s1 := (turnCoords_grid a ha l hl d hd t ht).1
  have s2 := (turnCoords_grid a ha l hl d hd _ m1).1
  have s3 := (turnCoords_grid a ha l hl d hd _ m2).1
  have h4 := (turnCoords_four a ha l hl d hd t ht).2
  by_cases hsel : tripleGet t a = l
  · have e1 := s1.2 hsel
    have e2 := s2.2 e1
    have e3 := s3.2 e2
    have q1 := rotationAbout_quarterRotations a d hd q hq
    have q2 := rotationAbout_quarterRotations a d hd _ q1
    have q3 := rotationAbout_quarterRotations a d hd _ q2
    rw [turnCubelet_lattice a l d hd id t q hq mat, if_pos hsel,
      turnCubelet_lattice a l d hd id _ _ q1 mat, if_pos e1,
      turnCubelet_lattice a l d hd id _ _ q2 mat, if_pos e2,
      turnCubelet_lattice a l d hd id _ _ q3 mat, if_pos e3, h4, rotationAbout_four a d hd]
  · have e1 : ¬ tripleGet (turnCoords a l d t) a = l := fun h => hsel (s1.1 h)
    have e2 : ¬ tripleGet (turnCoords a l d (turnCoords a l d t)) a = l :=
      fun h => e1 (s2.1 h)
    have e3 : ¬ tripleGet (turnCoords a l d (turnCoords a l d (turnCoords a l d t))) a = l :=
      fun h => e2 (s3.1 h)
    rw [turnCubelet_lattice a l d hd id t q hq mat, if_neg hsel,
      turnCubelet_lattice a l d hd id _ _ hq mat, if_neg e1,
      turnCubelet_lattice a l d hd id _ _ hq mat, if_neg e2,
      turnCubelet_lattice a l d hd id _ _ hq mat, if_neg e3, h4]

theorem committed_four (s : CubeState) (hs : Lattice s) (a : Axis) (l d : ℤ)
    (hl : l ∈ gridCoords) (hd : d ∈ turnDirs) :
    committed ⟨a, JsIndex.num l, d⟩ (committed ⟨a, JsIndex.num l, d⟩
      (committed ⟨a, JsIndex.num l, d⟩ (committed ⟨a, JsIndex.num l, d⟩ s))) = s := by
  obtain ⟨s_cubelets, s_turn⟩ := s
  have hnone : s_turn = none := hs.1
  subst hnone
  simp only [committed, List.map_map, CubeState.mk.injEq, and_true]
  conv_rhs => rw [← List.map_id s_cubelets]
  apply List.map_congr_left
  intro c hc
  exact turnCubelet_four a l d hl hd c (lattice_position_mem _ hs c hc) (hs.2.2.2 c hc)

/-- C20: four quarter turns are the identity.  In a rest state `s` reachable
from build, four consecutive completed turns with the same axis, layer in
{-1,0,1} and direction (states `s₁`, `s₂`, `s₃`, `s₄`) give back `s`: every
cubelet has the same grid position and presents the same colour toward each of
the six world directions, and `isSolved()` returns the same value. -/
theorem four_turns_identity (s : CubeState) (hs : RestReachable s) (axis : Axis)
    (layer dir : ℤ) (hl : layer ∈ gridCoords) (hd : dir ∈ turnDirs)
    (dts₁ dts₂ dts₃ dts₄ : List ℚ) (s₁ s₂ s₃ s₄ : CubeState)
    (e₁ : s₁ = playTurn ⟨axis, JsIndex.num layer, dir⟩ dts₁ s) (h₁ : s₁.activeTurn = none)
    (e₂ : s₂ = playTurn ⟨axis, JsIndex.num layer, dir⟩ dts₂ s₁) (h₂ : s₂.activeTurn = none)
    (e₃ : s₃ = playTurn ⟨axis, JsIndex.num layer, dir⟩ dts₃ s₂) (h₃ : s₃.activeTurn = none)
    (e₄ : s₄ = playTurn ⟨axis, JsIndex.num layer, dir⟩ dts₄ s₃) (h₄ : s₄.activeTurn = none) :
    s₄ = s ∧
    s₄.cubelets.map
        (fun c => (gridIndexFromPosition c.position.x, gridIndexFromPosition c.position.y,
          gridIndexFromPosition c.position.z)) =
      s.cubelets.map
        (fun c => (gridIndexFromPosition c.position.x, gridIndexFromPosition c.position.y,
          gridIndexFromPosition c.position.z)) ∧
    (∀ f ∈ faces,
      s₄.cubelets.map (fun c => getStickerColorForDirection c f.dir) =
        s.cubelets.map (fun c => getStickerColorForDirection c f.dir)) ∧
    isSolved s₄ = isSolved s := by
  have l0 := restReachable_lattice s hs
  rw [e₁] at h₁
  have p₁ := playTurn_done ⟨axis, JsIndex.num layer, dir⟩ s l0.1 l0.2.1 dts₁ h₁
  have l1 := lattice_committed s l0 axis layer dir hl hd
  rw [p₁] at e₁
  rw [e₂, e₁] at h₂
  have p₂ := playTurn_done ⟨axis, JsIndex.num layer, dir⟩ _ l1.1 l1.2.1 dts₂ h₂
  have l2 := lattice_committed _ l1 axis layer dir hl hd
  rw [e₁, p₂] at e₂
  rw [e₃, e₂] at h₃
  have p₃ := playTurn_done ⟨axis, JsIndex.num layer, dir⟩ _ l2.1 l2.2.1 dts₃ h₃
  have l3 := lattice_committed _ l2 axis layer dir hl hd
  rw [e₂, p₃] at e₃
  rw [e₄, e₃] at h₄
  have p₄ := playTurn_done ⟨axis, JsIndex.num layer, dir⟩ _ l3.1 l3.2.1 dts₄ h₄
  rw [e₃, p₄, committed_four s l0 axis layer dir hl hd] at e₄
  rw [e₄]
  exact ⟨rfl, rfl, fun _ _ => rfl, rfl⟩

/-- C20, concrete case: build and four turns (x, 1, +1), each over five frames of
0.033 s; every turn is over and `isSolved()` is true again. -/
theorem four_turns_identity_witness :
    isSolved
      (playTurn ⟨Axis.x, JsIndex.num 1, 1⟩ (List.replicate 5 (33 / 1000))
        (playTurn ⟨Axis.x, JsIndex.num 1, 1⟩ (List.replicate 5 (33 / 1000))
          (playTurn ⟨Axis.x, JsIndex.num 1, 1⟩ (List.replicate 5 (33 / 1000))
            (playTurn ⟨Axis.x, JsIndex.num 1, 1⟩ (List.replicate 5 (33 / 1000))
              createRubiksCube)))) = true :=
  have d₁ := first_turn_done
  have d₂ := playTurn_replicate_done ⟨Axis.x, JsIndex.num 1, 1⟩ (by decide) _ d₁ (33 / 1000)
    (by norm_num) 5 (by norm_num [HALF_PI])
  have d₃ := playTurn_replicate_done ⟨Axis.x, JsIndex.num 1, 1⟩ (by decide) _ d₂ (33 / 1000)
    (by norm_num) 5 (by norm_num [HALF_PI])
  have d₄ := playTurn_replicate_done ⟨Axis.x, JsIndex.num 1, 1⟩ (by decide) _ d₃ (33 / 1000)
    (by norm_num) 5 (by norm_num [HALF_PI])
  (four_turns_identity createRubiksCube RestReachable.build Axis.x 1 1 (by decide) (by decide)
    _ _ _ _ _ _ _ _ rfl d₁ rfl d₂ rfl d₃ rfl d₄).2.2.2.trans isSolved_build

end Rubik

/-! ## Arcball projection, sensitivity, dominant axis -/

namespace OrbitCamera

theorem ndcX_centre {K : Type} [LinearOrderedField K] (rect : Rect K) (ev : PointerEvent K)
    (hw : rect.width ≠ 0) (hx : ev.clientX = rect.left + rect.width / 2) : ndcX rect ev = 0 := by
  unfold ndcX
  rw [hx]
  field_simp
  ring

theorem ndcY_centre {K : Type} [LinearOrderedField K] (rect : Rect K) (ev : PointerEvent K)
    (hh : rect.height ≠ 0) (hy : ev.clientY = rect.top + rect.height / 2) : ndcY rect ev = 0 := by
  unfold ndcY
  rw [hy]
  field_simp
  ring

/-- The code of `projectToArcball` in terms of the device coordinates. -/
theorem projectToArcball_eq {K : Type} [LinearOrderedField K] (sqrt : K → K) (rect : Rect K)
    (ev : PointerEvent K) :
    projectToArcball sqrt rect ev =
      if ndcX rect ev * ndcX rect ev + ndcY rect ev * ndcY rect ev ≤ 1 then
        ⟨ndcX rect ev, ndcY rect ev,
          sqrt (1 - (ndcX rect ev * ndcX rect ev + ndcY rect ev * ndcY rect ev))⟩
      else (Vector3.mk (ndcX rect ev) (ndcY rect ev) 0).normalize sqrt := rfl

/-- C11: `projectToArcball` is the standard arcball projection of the
normalized device coordinates, for a square root with `sqrt 0 = 0`,
`sqrt 1 = 1` and `sqrt v ≠ 0` for `v > 1`.  A pointer at the centre of a
viewport of non-zero size maps to (0, 0, 1) and a pointer on the unit circle
maps to a point with `z = 0`. -/
theorem projectToArcball_spec {K : Type} [LinearOrderedField K] (sqrt : K → K)
    (h0 : sqrt 0 = 0) (h1 : sqrt 1 = 1) (hpos : ∀ v, 1 < v → sqrt v ≠ 0) (rect : Rect K)
    (ev : PointerEvent K) :
    projectToArcball sqrt rect ev = arcballSpec sqrt (ndcX rect ev) (ndcY rect ev) ∧
    (rect.width ≠ 0 → rect.height ≠ 0 → ev.clientX = rect.left + rect.width / 2 →
      ev.clientY = rect.top + rect.height / 2 → projectToArcball sqrt rect ev = ⟨0, 0, 1⟩) ∧
    ((ndcX rect ev) ^ 2 + (ndcY rect ev) ^ 2 = 1 → (projectToArcball sqrt rect ev).z = 0) := by
  refine ⟨?_, ?_, ?_⟩
  · rw [projectToArcball_eq]
    unfold arcballSpec
    have e : ndcX rect ev * ndcX rect ev + ndcY rect ev * ndcY rect ev =
        ndcX rect ev ^ 2 + ndcY rect ev ^ 2 := by ring
    by_cases hd : ndcX rect ev ^ 2 + ndcY rect ev ^ 2 ≤ 1
    · rw [if_pos (e ▸ hd), if_pos hd, e, sub_sub]
    · rw [if_neg (fun h => hd (e ▸ h)), if_neg hd]
      have hl : sqrt (ndcX rect ev ^ 2 + ndcY rect ev ^ 2) ≠ 0 := hpos _ (not_le.mp hd)
      have e2 : ndcX rect ev * ndcX rect ev + ndcY rect ev * ndcY rect ev + 0 * 0 =
          ndcX rect ev ^ 2 + ndcY rect ev ^ 2 := by ring
      simp only [Vector3.normalize, Vector3.length]
      rw [e2, if_neg hl]
      simp only [mul_one_div, zero_div]
  · intro hw hh hx hy
    rw [projectToArcball_eq, ndcX_centre rect ev hw hx, ndcY_centre rect ev hh hy]
    simp [h1]
  · intro hc
    have e : ndcX rect ev * ndcX rect ev + ndcY rect ev * ndcY rect ev = 1 := by
      rw [← hc]; ring
    rw [projectToArcball_eq, e, if_pos le_rfl, sub_self, h0]

/-- C11 with the real square root on a viewport of 800 by 600 pixels: the
centre maps to (0, 0, 1) and the middle of the right edge to a point with
`z = 0`. -/
theorem projectToArcball_spec_witness :
    projectToArcball Real.sqrt ⟨0, 0, 800, 600⟩ ⟨400, 300, 1, 0, false⟩ = ⟨0, 0, 1⟩ ∧
    (projectToArcball Real.sqrt ⟨0, 0, 800, 600⟩ ⟨800, 300, 1, 0, false⟩).z = 0 :=
  ⟨(projectToArcball_spec Real.sqrt Real.sqrt_zero Real.sqrt_one
      (fun v hv => (Real.sqrt_pos.mpr (by linarith)).ne') ⟨0, 0, 800, 600⟩
      ⟨400, 300, 1, 0, false⟩).2.1
      (by norm_num) (by norm_num) (by norm_num) (by norm_num),
   (projectToArcball_spec Real.sqrt Real.sqrt_zero Real.sqrt_one
      (fun v hv => (Real.sqrt_pos.mpr (by linarith)).ne') ⟨0, 0, 800, 600⟩
      ⟨800, 300, 1, 0, false⟩).2.2 (by norm_num [ndcX, ndcY])⟩

theorem onPointerDown_sensitivity (env : Env) (ev : PointerEvent ℚ) (force : Bool)
    (c : Controller) : (onPointerDown env ev force c).2.sensitivity = c.sensitivity := by
  unfold onPointerDown
  dsimp only
  split_ifs <;> rfl

theorem onPointerMove_sensitivity (env : Env) (ev : PointerEvent ℚ) (c : Controller) :
    (onPointerMove env ev c).2.sensitivity = c.sensitivity := by
  unfold onPointerMove
  split
  · rfl
  · split_ifs
    · rfl
    · dsimp only
      split <;> rfl

theorem onPointerUp_sensitivity (ev : PointerEvent ℚ) (c : Controller) :
    (onPointerUp ev c).2.sensitivity = c.sensitivity := by
  unfold onPointerUp
  split
  · rfl
  · split_ifs <;> rfl

theorem call_sensitivity (env : Env) (c : Controller) (k : Call)
    (h : 5 / 100 ≤ c.sensitivity ∧ c.sensitivity ≤ 5) :
    5 / 100 ≤ (call env c k).sensitivity ∧ (call env c k).sensitivity ≤ 5 := by
  cases k with
  | update dt => exact h
  | wheel deltaY => exact h
  | pointerDown ev force => simpa only [call, onPointerDown_sensitivity] using h
  | pointerMove ev => simpa only [call, onPointerMove_sensitivity] using h
  | pointerUp ev => simpa only [call, onPointerUp_sensitivity] using h
  | setSensitivity value =>
    cases value with
    | notFinite => exact h
    | finite v => exact clamp_mem v (5 / 100) 5 (by norm_num)

theorem foldl_call_sensitivity (env : Env) (cs : List Call) (c : Controller)
    (h : 5 / 100 ≤ c.sensitivity ∧ c.sensitivity ≤ 5) :
    5 / 100 ≤ (cs.foldl (call env) c).sensitivity ∧ (cs.foldl (call env) c).sensitivity ≤ 5 := by
  induction cs generalizing c with
  | nil => exact h
  | cons k cs ih => exact ih _ (call_sensitivity env c k h)

/-- C16: `setSensitivity` clamps to [0.05, 5].  After `setSensitivity(v)` with a
finite number `v`, `getSensitivity()` is `max(0.05, min(5, v))`; a value that
is not a finite number leaves the controller unchanged; and after creation and
any calls of the controller the sensitivity lies in [0.05, 5]. -/
theorem setSensitivity_clamps :
    (∀ (v : ℚ) (c : Controller),
      getSensitivity (setSensitivity (JsNumber.finite v) c) = max (5 / 100) (min 5 v)) ∧
    (∀ c : Controller, setSensitivity JsNumber.notFinite c = c) ∧
    (∀ (env : Env) (initialLength : ℚ) (orientation : Rubik.Mat3) (cs : List Call),
      5 / 100 ≤ getSensitivity (calls env initialLength orientation cs) ∧
      getSensitivity (calls env initialLength orientation cs) ≤ 5) :=
  ⟨fun _ _ => rfl, fun _ => rfl, fun env initialLength orientation cs =>
    foldl_call_sensitivity env cs _ (by norm_num [createController])⟩

end OrbitCamera

namespace CubeInput

open Rubik

theorem signOrOne_cases (c : ℚ) :
    (signOrOne c = 1 ∨ signOrOne c = -1) ∧ (0 < c → signOrOne c = 1) ∧
    (c < 0 → signOrOne c = -1) ∧ (c = 0 → signOrOne c = 1) := by
  unfold signOrOne
  refine ⟨?_, ?_, ?_, ?_⟩
  · split_ifs <;> simp
  · intro h; rw [if_pos h]
  · intro h; rw [if_neg (not_lt.mpr h.le), if_pos h]
  · intro h; rw [if_neg (by rw [h]; exact lt_irrefl 0), if_neg (by rw [h]; exact lt_irrefl 0)]

/-- C14: `dominantAxis(v)` snaps a vector to its dominant coordinate.  The
component on the returned axis has the largest absolute value of the three;
`x` is returned exactly when `|x|` is largest, `y` exactly when `|y|` is largest
and exceeds `|x|`, `z` exactly when `|z|` exceeds both others (ties go to `x`
before `y` before `z`); the sign is +1 or -1, the sign of that component, and +1
when the component is zero. -/
theorem dominantAxis_dominant (v : Vec3) :
    |v.get (dominantAxis v).1| = max |v.x| (max |v.y| |v.z|) ∧
    ((dominantAxis v).1 = Axis.x ↔ |v.y| ≤ |v.x| ∧ |v.z| ≤ |v.x|) ∧
    ((dominantAxis v).1 = Axis.y ↔ |v.x| < |v.y| ∧ |v.z| ≤ |v.y|) ∧
    ((dominantAxis v).1 = Axis.z ↔ |v.x| < |v.z| ∧ |v.y| < |v.z|) ∧
    ((dominantAxis v).2 = 1 ∨ (dominantAxis v).2 = -1) ∧
    (0 < v.get (dominantAxis v).1 → (dominantAxis v).2 = 1) ∧
    (v.get (dominantAxis v).1 < 0 → (dominantAxis v).2 = -1) ∧
    (v.get (dominantAxis v).1 = 0 → (dominantAxis v).2 = 1) := by
  unfold dominantAxis
  dsimp only
  by_cases hx : |v.x| ≥ |v.y| ∧ |v.x| ≥ |v.z|
  · rw [if_pos hx]
    obtain ⟨h1, h2⟩ := hx
    refine ⟨?_, ?_, ?_, ?_, signOrOne_cases v.x⟩
    · simp only [Vec3.get]
      rw [max_eq_left (max_le h1 h2)]
    · simp [h1, h2]
    · simp only [false_iff, not_and, not_le, reduceCtorEq]
      intro h; exact absurd h (not_lt.mpr h1)
    · simp only [false_iff, not_and, not_lt, reduceCtorEq]
      intro h; exact absurd h (not_lt.mpr h2)
  · rw [if_neg hx]
    by_cases hy : |v.y| ≥ |v.x| ∧ |v.y| ≥ |v.z|
    · rw [if_pos hy]
      obtain ⟨h1, h2⟩ := hy
      have hlt : |v.x| < |v.y| := by
        rcases lt_or_eq_of_le h1 with h | h
        · exact h
        · exact absurd ⟨h.ge, h ▸ h2⟩ hx
      refine ⟨?_, ?_, ?_, ?_, signOrOne_cases v.y⟩
      · simp only [Vec3.get]
        rw [max_eq_left h2, max_eq_right h1]
      · simp only [false_iff, not_and, not_le, reduceCtorEq]
        intro h; exact absurd hlt (not_lt.mpr h)
      · simp [hlt, h2]
      · simp only [false_iff, not_and, not_lt, reduceCtorEq]
        intro _; exact h2
    · rw [if_neg hy]
      have hxz : |v.x| < |v.z| := by
        by_contra h
        have h2 := not_lt.mp h
        by_cases h3 : |v.y| ≤ |v.x|
        · exact hx ⟨h3, h2⟩
        · exact hy ⟨(not_le.mp h3).le, le_trans h2 (not_le.mp h3).le⟩
      have hyz : |v.y| < |v.z| := by
        by_contra h
        exact hy ⟨le_trans hxz.le (not_lt.mp h), not_lt.mp h⟩
      refine ⟨?_, ?_, ?_, ?_, signOrOne_cases v.z⟩
      · simp only [Vec3.get]
        rw [max_eq_right hyz.le, max_eq_right hxz.le]
      · simp only [false_iff, not_and, not_le, reduceCtorEq]
        intro _; exact hxz
      · simp only [false_iff, not_and, not_le, reduceCtorEq]
        intro _; exact hyz
      · simp [hxz, hyz]

end CubeInput

/-! ## Pointer sessions and the unit sphere -/

namespace OrbitCamera

/-- A vector of squared length 1 has length 1 and `normalize()` returns it
unchanged, for an exact square root. -/
theorem normalize_unit {K : Type} [LinearOrderedField K] (sqrt : K → K)
    (hsq : ∀ v, 0 ≤ v → sqrt v * sqrt v = v) (hnn : ∀ v, 0 ≤ v → 0 ≤ sqrt v) (p : Vector3 K)
    (hp : p.x * p.x + p.y * p.y + p.z * p.z = 1) : p.length sqrt = 1 ∧ p.normalize sqrt = p := by
  have h1 : sqrt 1 = 1 := by
    have h := hsq 1 zero_le_one
    have hn := hnn 1 zero_le_one
    have hz : (sqrt 1 - 1) * (sqrt 1 + 1) = 0 := by linear_combination h
    rcases mul_eq_zero.mp hz with h' | h'
    · exact sub_eq_zero.mp h'
    · exfalso; linarith
  have hl : p.length sqrt = 1 := by rw [Vector3.length, hp, h1]
  refine ⟨hl, ?_⟩
  simp only [Vector3.normalize, hl, one_ne_zero, if_false, div_one, mul_one]

/-- The orbit-drag session, when there is one, holds in `prev` a value of
`projectToArcball`. -/
theorem call_prev (env : Env) (c : Controller) (k : Call)
    (h : ∀ od, c.orbitDrag = some od → ∃ ev, od.prev = projectToArcball env.sqrt env.rect ev) :
    ∀ od, (call env c k).orbitDrag = some od →
      ∃ ev, od.prev = projectToArcball env.sqrt env.rect ev := by
  cases k with
  | update dt => exact h
  | wheel deltaY => exact h
  | setSensitivity value =>
    cases value with
    | notFinite => exact h
    | finite v => exact h
  | pointerDown ev force =>
    intro od hod
    simp only [call, onPointerDown] at hod
    split_ifs at hod
    · exact h od hod
    · cases hod
      exact ⟨ev, rfl⟩
  | pointerMove ev =>
    intro od hod
    simp only [call, onPointerMove] at hod
    split at hod
    · rename_i h0
      rw [h0] at hod
      cases hod
    · rename_i od0 h0
      split_ifs at hod
      · exact h od hod
      · cases hod
        exact ⟨ev, rfl⟩
  | pointerUp ev =>
    intro od hod
    simp only [call, onPointerUp] at hod
    split at hod
    · rename_i h0
      rw [h0] at hod
      cases hod
    · split_ifs at hod
      exact h od hod

theorem foldl_call_prev (env : Env) (cs : List Call) (c : Controller)
    (h : ∀ od, c.orbitDrag = some od → ∃ ev, od.prev = projectToArcball env.sqrt env.rect ev) :
    ∀ od, (cs.foldl (call env) c).orbitDrag = some od →
      ∃ ev, od.prev = projectToArcball env.sqrt env.rect ev := by
  induction cs generalizing c with
  | nil => exact h
  | cons k cs ih => exact ih _ (call_prev env c k h)

/-- C21: the arcball projection lands on the unit sphere.  For an exact square
root (`sqrt v * sqrt v = v` and `sqrt v ≥ 0` for `v ≥ 0`) and a viewport of
non-zero width and height, the vector returned by `projectToArcball` has
squared length 1, length 1 and `z ≥ 0`, and `normalize()` returns it unchanged;
and the vector `orbitDrag.prev` that `onPointerMove` pairs with the current
projection is, after creation and any calls of the controller, itself a value
of `projectToArcball`. -/
theorem projectToArcball_unit {K : Type} [LinearOrderedField K] (sqrt : K → K)
    (hsq : ∀ v, 0 ≤ v → sqrt v * sqrt v = v) (hnn : ∀ v, 0 ≤ v → 0 ≤ sqrt v) (rect : Rect K)
    (ev : PointerEvent K) (_hw : rect.width ≠ 0) (_hh : rect.height ≠ 0) :
    ((projectToArcball sqrt rect ev).x * (projectToArcball sqrt rect ev).x +
      (projectToArcball sqrt rect ev).y * (projectToArcball sqrt rect ev).y +
      (projectToArcball sqrt rect ev).z * (projectToArcball sqrt rect ev).z = 1) ∧
    (projectToArcball sqrt rect ev).length sqrt = 1 ∧
    0 ≤ (projectToArcball sqrt rect ev).z ∧
    (projectToArcball sqrt rect ev).normalize sqrt = projectToArcball sqrt rect ev ∧
    (∀ (env : Env) (initialLength : ℚ) (orientation : Rubik.Mat3) (cs : List Call)
      (od : OrbitDrag), (calls env initialLength orientation cs).orbitDrag = some od →
      ∃ ev0, od.prev = projectToArcball env.sqrt env.rect ev0) := by
  have key : ((projectToArcball sqrt rect ev).x * (projectToArcball sqrt rect ev).x +
      (projectToArcball sqrt rect ev).y * (projectToArcball sqrt rect ev).y +
      (projectToArcball sqrt rect ev).z * (projectToArcball sqrt rect ev).z = 1) ∧
      0 ≤ (projectToArcball sqrt rect ev).z := by
    rw [projectToArcball_eq]
    generalize ndcX rect ev = x
    generalize ndcY rect ev = y
    by_cases hd : x * x + y * y ≤ 1
    · rw [if_pos hd]
      have h := hsq (1 - (x * x + y * y)) (sub_nonneg.mpr hd)
      refine ⟨?_, hnn _ (sub_nonneg.mpr hd)⟩
      show x * x + y * y + sqrt (1 - (x * x + y * y)) * sqrt (1 - (x * x + y * y)) = 1
      rw [h]; ring
    · rw [if_neg hd]
      have hd1 : 1 < x * x + y * y := not_le.mp hd
      have e2 : x * x + y * y + 0 * 0 = x * x + y * y := by ring
      have hL := hsq (x * x + y * y) (by linarith)
      have hl : sqrt (x * x + y * y) ≠ 0 := by
        intro h0
        rw [h0, zero_mul] at hL
        linarith
      simp only [Vector3.normalize, Vector3.length]
      rw [e2, if_neg hl]
      refine ⟨?_, by simp⟩
      field_simp
      nlinarith [hL]
  refine ⟨key.1, (normalize_unit sqrt hsq hnn _ key.1).1, key.2,
    (normalize_unit sqrt hsq hnn _ key.1).2, ?_⟩
  intro env initialLength orientation cs
  exact foldl_call_prev env cs _ (fun od h => by cases h)

/-- C21 with the real square root on a viewport of 800 by 600 pixels: a pointer
at (600, 150) is projected to a vector of squared length 1. -/
theorem projectToArcball_unit_witness :
    (projectToArcball Real.sqrt ⟨0, 0, 800, 600⟩ ⟨600, 150, 1, 0, false⟩).x *
        (projectToArcball Real.sqrt ⟨0, 0, 800, 600⟩ ⟨600, 150, 1, 0, false⟩).x +
      (projectToArcball Real.sqrt ⟨0, 0, 800, 600⟩ ⟨600, 150, 1, 0, false⟩).y *
        (projectToArcball Real.sqrt ⟨0, 0, 800, 600⟩ ⟨600, 150, 1, 0, false⟩).y +
      (projectToArcball Real.sqrt ⟨0, 0, 800, 600⟩ ⟨600, 150, 1, 0, false⟩).z *
        (projectToArcball Real.sqrt ⟨0, 0, 800, 600⟩ ⟨600, 150, 1, 0, false⟩).z = 1 :=
  (projectToArcball_unit Real.sqrt (fun _ hv => Real.mul_self_sqrt hv)
    (fun v _ => Real.sqrt_nonneg v) ⟨0, 0, 800, 600⟩ ⟨600, 150, 1, 0, false⟩
    (by norm_num) (by norm_num)).1

end OrbitCamera

namespace CubeInput

open Rubik OrbitCamera

/-- C12, the claim as written fails: a pointer that strikes the centre cubelet
of the front face and then a second pointer that misses the cube leave both
the puzzle-drag and the orbit-drag session active. -/
theorem drag_sessions_both_active :
    (handleAll sampleEnv 10 Mat3.one
      [PointerInput.down ⟨400, 300, 1, 0, false⟩ (some ⟨14, ⟨0, 0, 1⟩⟩),
       PointerInput.down ⟨5, 5, 2, 0, false⟩ none]).drag.isSome = true ∧
    (handleAll sampleEnv 10 Mat3.one
      [PointerInput.down ⟨400, 300, 1, 0, false⟩ (some ⟨14, ⟨0, 0, 1⟩⟩),
       PointerInput.down ⟨5, 5, 2, 0, false⟩ none]).controller.orbitDrag.isSome = true :=
  ⟨rfl, rfl⟩

/-- C12 amended: drag-kind mutual exclusion for one session at a time.  In
every state reached from the created application by pointer-down, move and
up/cancel events where no pointer-down that strikes a cubelet arrives during
an orbit-drag session and no pointer-down that misses the cube arrives during
a puzzle-drag session, at most one of `drag` and `orbitDrag` is active. -/
theorem drag_sessions_exclusive (env : Env) (a : App) (h : OneSession env a) :
    a.drag = none ∨ a.controller.orbitDrag = none := by
  induction h with
  | create initialLength orientation => exact Or.inl rfl
  | downHit a ev hit _ ho _ =>
    right
    unfold onPointerDown
    split_ifs <;> exact ho
  | downMiss a ev _ hd _ =>
    left
    unfold onPointerDown
    split_ifs <;> exact hd
  | move a ev _ ih =>
    unfold onPointerMove
    cases ho : a.controller.orbitDrag with
    | none =>
      right
      have hr : OrbitCamera.onPointerMove env ev a.controller = (false, a.controller) := by
        simp only [OrbitCamera.onPointerMove, ho]
      simp only [hr, Bool.false_eq_true, if_false]
      split
      · exact ho
      · simp only [dragTurn]
        split_ifs <;> exact ho
    | some od =>
      left
      have hd : a.drag = none := by
        rcases ih with h | h
        · exact h
        · rw [ho] at h; cases h
      have hr : (OrbitCamera.onPointerMove env ev a.controller).1 = true := by
        simp only [OrbitCamera.onPointerMove, ho]
        split_ifs <;> rfl
      simp only [hr, if_true]
      exact hd
  | up a ev _ ih =>
    unfold onPointerUp
    cases ho : a.controller.orbitDrag with
    | none =>
      left
      have hr : OrbitCamera.onPointerUp ev a.controller = (false, a.controller) := by
        simp only [OrbitCamera.onPointerUp, ho]
      simp only [hr, Bool.false_eq_true, if_false]
    | some od =>
      left
      have hd : a.drag = none := by
        rcases ih with h | h
        · exact h
        · rw [ho] at h; cases h
      have hr : (OrbitCamera.onPointerUp ev a.controller).1 = true := by
        simp only [OrbitCamera.onPointerUp, ho]
        split_ifs <;> rfl
      simp only [hr, if_true]
      exact hd

/-- C12 amended, concrete case: a pointer strikes the centre cubelet of the
front face and is released. -/
theorem drag_sessions_exclusive_witness :
    (onPointerUp ⟨400, 300, 1, 0, false⟩
      (onPointerDown sampleEnv ⟨400, 300, 1, 0, false⟩ (some ⟨14, ⟨0, 0, 1⟩⟩)
        (createApp 10 Mat3.one))).drag = none ∨
    (onPointerUp ⟨400, 300, 1, 0, false⟩
      (onPointerDown sampleEnv ⟨400, 300, 1, 0, false⟩ (some ⟨14, ⟨0, 0, 1⟩⟩)
        (createApp 10 Mat3.one))).controller.orbitDrag = none :=
  drag_sessions_exclusive sampleEnv _
    (OneSession.up _ _ (OneSession.downHit _ _ _ (OneSession.create 10 Mat3.one) rfl))

/-- C13, the claim as written fails: an orbit drag started by pointer 1 is still
active after the release of pointer 2. -/
theorem onPointerUp_keeps_orbitDrag :
    (onPointerUp ⟨5, 5, 2, 0, false⟩
      (onPointerDown sampleEnv ⟨5, 5, 1, 0, false⟩ none
        (createApp 10 Mat3.one))).controller.orbitDrag.isSome = true :=
  rfl

/-- C13 amended: pointer release clears the drag session of its pointer.  For
every state in which at most one drag session is active and every pointer-up
or pointer-cancel event that, when an orbit drag is active, comes from the
pointer that started it, no drag session remains active after `onPointerUp`;
and for every state and every pointer-up or pointer-cancel event the cube (the
cubelet poses and the turn slot), the camera orbit and orientation, the
sensitivity and the drag mode are unchanged. -/
theorem onPointerUp_clears (ev : PointerEvent ℚ) (a : App)
    (hone : a.drag = none ∨ a.controller.orbitDrag = none)
    (hown : ∀ od, a.controller.orbitDrag = some od → ev.pointerId = od.pointerId) :
    (onPointerUp ev a).drag = none ∧ (onPointerUp ev a).controller.orbitDrag = none ∧
    ∀ (ev0 : PointerEvent ℚ) (a0 : App),
      (onPointerUp ev0 a0).cube = a0.cube ∧
      (onPointerUp ev0 a0).controller.orbit = a0.controller.orbit ∧
      (onPointerUp ev0 a0).controller.q = a0.controller.q ∧
      (onPointerUp ev0 a0).controller.sensitivity = a0.controller.sensitivity ∧
      (onPointerUp ev0 a0).dragMode = a0.dragMode := by
  refine ⟨?_, ?_, ?_⟩
  · unfold onPointerUp
    cases ho : a.controller.orbitDrag with
    | none => simp only [OrbitCamera.onPointerUp, ho, Bool.false_eq_true, if_false]
    | some od =>
      have hd : a.drag = none := by
        rcases hone with h | h
        · exact h
        · rw [ho] at h; cases h
      simp only [OrbitCamera.onPointerUp, ho]
      split_ifs <;> first | exact hd | rfl
  · unfold onPointerUp
    cases ho : a.controller.orbitDrag with
    | none => simp only [OrbitCamera.onPointerUp, ho, Bool.false_eq_true, if_false]
    | some od =>
      simp only [OrbitCamera.onPointerUp, ho, ne_eq, hown od ho, not_true_eq_false, if_false,
        if_true]
  · intro ev0 a0
    unfold onPointerUp
    cases ho : a0.controller.orbitDrag with
    | none =>
      simp only [OrbitCamera.onPointerUp, ho, Bool.false_eq_true, if_false, and_self]
    | some od =>
      simp only [OrbitCamera.onPointerUp, ho]
      split_ifs <;> simp

/-- C13 amended, concrete case: an orbit drag started by pointer 1 away from the
cube and the release of pointer 1. -/
theorem onPointerUp_clears_witness :
    (onPointerUp ⟨5, 5, 1, 0, false⟩
      (onPointerDown sampleEnv ⟨5, 5, 1, 0, false⟩ none (createApp 10 Mat3.one))).drag = none ∧
    (onPointerUp ⟨5, 5, 1, 0, false⟩
      (onPointerDown sampleEnv ⟨5, 5, 1, 0, false⟩ none
        (createApp 10 Mat3.one))).controller.orbitDrag = none :=
  ⟨(onPointerUp_clears ⟨5, 5, 1, 0, false⟩
      (onPointerDown sampleEnv ⟨5, 5, 1, 0, false⟩ none (createApp 10 Mat3.one))
      (Or.inl rfl) (fun _ h => Option.some.inj h ▸ rfl)).1,
   (onPointerUp_clears ⟨5, 5, 1, 0, false⟩
      (onPointerDown sampleEnv ⟨5, 5, 1, 0, false⟩ none (createApp 10 Mat3.one))
      (Or.inl rfl) (fun _ h => Option.some.inj h ▸ rfl)).2.1⟩

end CubeInput
